import Mathlib

/-!
# ep_languagetool: offset mapping, highlight registry, suggestion applicator, result cache

A shallow embedding of the client-side module `static/js/languagetool.js`, and of the
error paths of the server side (`lib/languagetool-client.js`, `index.js`).

Conventions of the embedding

* A JavaScript string is the list of its UTF-16 code units (`JSString`), one element for
  each unit; `s.length` of the source is `List.length`.
* Only `hashText` reads the numeric value of a code unit (`charCodeAt`). It is defined on
  the list of these numbers (`hashCodeUnits`), so that the surrogate units of a character
  outside the basic plane are covered; `hashText` applies it to a text of the embedding.
* JavaScript numbers that hold offsets, lengths and indices are natural numbers; an
  array index that may become negative (`endOffset - 1`) is an integer and reading an
  array outside its bounds gives `none` (`undefined`).
* The module-level variables of the source are the fields of `State`; the parts of
  `window` the code consults are the fields of `Host`.
* Console output and the repaint request `ace_doUpdate()` carry no state and are left out;
  the one exception is the console report of a check that is refused because another is
  in progress (`Effect.log`).
* An `async` function is split at its `await`: `performCheckBegin` runs up to the `fetch`,
  `performCheckResume` runs from the response on, in the state and window of that moment.
* The browser's timer table (`Timers`) holds the timers set by `aceEditEvent` only.
-/

namespace LanguageTool

/-- A JavaScript string: the sequence of its UTF-16 code units, one element for each
unit. A surrogate unit is no `Char`; the one function that reads the value of a unit,
`hashText`, is defined on the numbers `charCodeAt` gives (`hashCodeUnits`). -/
abbrev JSString := List Char

/-! ## Number rendering (template literals, `toString`) -/

/-- The decimal digits of `n`, most significant first; `fuel` bounds their number. -/
def decimalDigits : Nat → Nat → List Char
  | 0, _ => []
  | fuel + 1, n =>
    if n < 10 then [Nat.digitChar n]
    else decimalDigits fuel (n / 10) ++ [Nat.digitChar (n % 10)]

/-- Decimal rendering of a non-negative integer, as `String(n)` gives it. -/
def numberToString (n : Nat) : JSString := decimalDigits (n + 1) n

/-- Decimal rendering of an integer, with a leading minus sign for negatives. -/
def intToString (z : Int) : JSString :=
  if z < 0 then '-' :: numberToString z.natAbs else numberToString z.toNat

/-! ## JavaScript `Map` with string keys (insertion ordered) -/

/-- A JavaScript `Map` keyed by strings, as its entries in insertion order. -/
structure JSMap (β : Type) where
  entries : List (JSString × β)
deriving Repr

namespace JSMap

variable {β : Type}

/-- The map after `clear()`, also `new Map()`. -/
def empty : JSMap β := ⟨[]⟩

/-- The property `size`. -/
def size (m : JSMap β) : Nat := m.entries.length

/-- Lookup in the entry list. -/
def getEntries : List (JSString × β) → JSString → Option β
  | [], _ => none
  | (k', v) :: rest, k => if k' = k then some v else getEntries rest k

/-- The method `get(key)`; `none` is `undefined`. -/
def get (m : JSMap β) (k : JSString) : Option β := getEntries m.entries k

/-- Entry list after `set`: an existing key keeps its place, a new key goes last. -/
def setEntries : List (JSString × β) → JSString → β → List (JSString × β)
  | [], k, v => [(k, v)]
  | (k', v') :: rest, k, v =>
    if k' = k then (k, v) :: rest else (k', v') :: setEntries rest k v

/-- The method `set(key, value)`. -/
def set (m : JSMap β) (k : JSString) (v : β) : JSMap β := ⟨setEntries m.entries k v⟩

/-- The method `delete(key)`. -/
def delete (m : JSMap β) (k : JSString) : JSMap β :=
  ⟨m.entries.filter (fun e => decide (e.1 ≠ k))⟩

/-- The value of `keys().next().value`: the oldest key, `none` for an empty map. -/
def firstKey (m : JSMap β) : Option JSString := m.entries.head?.map Prod.fst

end JSMap

/-! ## Data model -/

/-- One issue reported by the checker (a LanguageTool match). -/
structure Match where
  offset : Nat
  length : Nat
  message : JSString
  shortMessage : JSString
  replacements : List JSString
deriving DecidableEq, Repr

/-- One element of `lineCharMap`. -/
structure LineCharEntry where
  lineIndex : Nat
  charInLine : Nat
  isNewline : Bool
deriving DecidableEq, Repr

/-- The value stored in `errorAttributes` for one issue (field `match` is `matchData`). -/
structure ErrorData where
  matchData : Match
  startLine : Nat
  endLine : Nat
  startChar : Nat
  endChar : Nat
  offset : Nat
  length : Nat
deriving DecidableEq, Repr

/-- The arguments of one call of `applyAttributeToRange`. -/
structure AttributeCall where
  startLine : Nat
  startChar : Nat
  endLine : Nat
  endChar : Nat
  errorId : JSString
deriving DecidableEq, Repr

/-- The arguments of one call of the editor's `ace_replaceRange`. -/
structure ReplaceCall where
  startLine : Nat
  startChar : Nat
  endLine : Nat
  endChar : Nat
  text : JSString
deriving DecidableEq, Repr

/-- The response object of the check endpoint; `matchList` is its field `matches`,
`none` when that field is not an array. -/
structure CheckResult where
  matchList : Option (List Match)
deriving DecidableEq, Repr

instance : Inhabited CheckResult := ⟨⟨none⟩⟩

/-- The value stored in `checkCache`. -/
structure CacheEntry where
  result : CheckResult
  timestamp : Nat
deriving DecidableEq, Repr

/-- The object `pluginConfig`, as far as the client code reads it. -/
structure PluginConfig where
  /-- The truth value of `pluginConfig.autoCheck`. -/
  autoCheck : Bool
  /-- The value of `pluginConfig.debounceDelay`, `none` when it is missing. -/
  debounceDelay : Option Nat
  /-- The value of `pluginConfig.defaultLanguage`, `none` when it is missing. -/
  defaultLanguage : Option JSString
deriving DecidableEq, Repr

/-- The module-level variables of `languagetool.js`. -/
structure State where
  pluginConfig : PluginConfig
  debounceTimer : Option Nat
  currentMatches : List Match
  lastCheckedText : JSString
  lastCheckedTextHash : Option JSString
  lastCheckedRevision : Option Nat
  isChecking : Bool
  errorAttributes : JSMap ErrorData
  currentPopup : Bool
  currentPopupErrorId : Option JSString
  checkCache : JSMap CacheEntry

/-- The parts of `window` the code consults. -/
structure Host where
  /-- The lines of the representation `ace_getRep()` returns (each line is its `text`,
  on which `line.text || ''` is the identity); `none` when `rep` or `rep.lines` is missing. -/
  rep : Option (List JSString)
  /-- The test `window.ace && window.ace.ace_getRep`. -/
  aceGetRep : Bool
  /-- The test `window.editorInfo && window.editorInfo.ace_setAttributeOnSelection`. -/
  editorSetAttribute : Bool
  /-- The test `window.editorInfo && window.editorInfo.ace_replaceRange`. -/
  editorReplaceRange : Bool
  /-- Whether `window.editorInfo.ace_getRep` can be called. -/
  editorGetRep : Bool
  /-- Whether `window.editorInfo.ace_callWithAce` can be called. -/
  editorCallWithAce : Bool
  /-- The test `ace.ace_replaceRange` on the object handed to the callback. -/
  aceReplaceRange : Bool
  /-- The value of `window.editorInfo.ace_exportText()`, `none` when it is not offered. -/
  exportText : Option JSString
  /-- The text of the element `innerdocbody`, `none` when there is no such element. -/
  domText : Option JSString
  /-- The value of `window.pad.head`, `none` when `window.pad` is missing. -/
  padHead : Option Nat
  /-- The value of `rep.head`, `none` when it is missing. -/
  repHead : Option Nat
  /-- The value of `window.pad.padId`, `none` when `window.pad` or the id is missing. -/
  padId : Option JSString

/-! ## Text snapshot: `getPadText`, `hashText`, `getCurrentRevision`, `hasContentChanged` -/

/-- The expression `lines.join('\n')`. -/
def joinLines : List JSString → JSString
  | [] => []
  | [l] => l
  | l :: l' :: rest => l ++ '\n' :: joinLines (l' :: rest)

/-- The function `getPadText`: editor export, else joined lines, else DOM text. -/
def getPadText (host : Host) : JSString :=
  match host.exportText with
  | some t => t
  | none =>
    match host.aceGetRep, host.rep with
    | true, some lines => joinLines lines
    | _, _ => host.domText.getD []

/-- Conversion of a number to a signed 32-bit integer (`ToInt32`). -/
def toInt32 (x : Int) : Int := (x + 2147483648) % 4294967296 - 2147483648

/-- One round of the loop of `hashText`: `hash = ((hash << 5) - hash) + char` followed by
`hash = hash & hash`. -/
def hashStep (hash : Int) (char : Nat) : Int :=
  toInt32 ((toInt32 (hash * 32) - hash) + (char : Int))

/-- The numeric value of `hash` at the end of the loop of `hashText`, for the text whose
code units `text.charCodeAt(0) .. text.charCodeAt(n - 1)` are `codeUnits`. -/
def hashValue (codeUnits : List Nat) : Int :=
  codeUnits.foldl hashStep 0

/-- The function `hashText` on the text whose code units are `codeUnits`: every number
below `2^16` may occur, and a character outside the basic plane stands in the text with
its two surrogate units. -/
def hashCodeUnits (codeUnits : List Nat) : JSString :=
  if codeUnits.length = 0 then intToString 0 else intToString (hashValue codeUnits)

/-- The code units of a text of the embedding: `text.charCodeAt(i)` for every index `i`. -/
def charCodes (text : JSString) : List Nat := text.map Char.toNat

/-- The function `hashText` on a text of the embedding. -/
def hashText (text : JSString) : JSString := hashCodeUnits (charCodes text)

/-- The function `getCurrentRevision`; a revision of `0` is falsy and skipped. -/
def getCurrentRevision (host : Host) : Option Nat :=
  match host.padHead with
  | some (h + 1) => some (h + 1)
  | _ =>
    if host.editorGetRep then
      match host.repHead with
      | some (h + 1) => some (h + 1)
      | _ => none
    else none

/-- The function `hasContentChanged`. -/
def hasContentChanged (host : Host) (s : State) (currentText : JSString) : Bool :=
  match s.lastCheckedTextHash with
  | none => true
  | some lastHash =>
    if hashText currentText ≠ lastHash then true
    else
      match getCurrentRevision host, s.lastCheckedRevision with
      | some currentRevision, some lastRevision =>
        if currentRevision ≠ lastRevision then true else false
      | _, _ => false

/-- The function `scheduleCheck`, as the decision whether it calls `performCheck(false)`. -/
def scheduleCheckStarts (host : Host) (s : State) : Bool :=
  if s.isChecking then false
  else if !hasContentChanged host s (getPadText host) then false
  else true

/-! ## Result cache -/

/-- The constant `MAX_CACHE_SIZE`. -/
def MAX_CACHE_SIZE : Nat := 10

/-- The function `getCachedResult`; `none` is `null`. -/
def getCachedResult (s : State) (textHash : JSString) : Option CacheEntry :=
  s.checkCache.get textHash

/-- The function `cacheResult`; `now` is the value of `Date.now()`. -/
def cacheResult (s : State) (textHash : JSString) (result : CheckResult) (now : Nat) : State :=
  let cache :=
    if s.checkCache.size ≥ MAX_CACHE_SIZE then
      match s.checkCache.firstKey with
      | some firstKey => s.checkCache.delete firstKey
      | none => s.checkCache
    else s.checkCache
  { s with checkCache := cache.set textHash { result := result, timestamp := now } }

/-! ## Offset mapper and highlight registry -/

/-- The function `closePopup`. -/
def closePopup (s : State) : State :=
  if s.currentPopup then { s with currentPopup := false, currentPopupErrorId := none } else s

/-- The function `clearErrorHighlights`. -/
def clearErrorHighlights (s : State) : State :=
  { closePopup s with errorAttributes := JSMap.empty }

/-- The entries one round of `rep.lines.forEach` writes to `lineCharMap`: one per
character of the line, then one for the newline unless the line is the last. -/
def lineEntries (numLines lineIndex : Nat) (lineText : JSString) : List LineCharEntry :=
  (List.range lineText.length).map (fun i => ⟨lineIndex, i, false⟩) ++
    (if lineIndex < numLines - 1 then [⟨lineIndex, lineText.length, true⟩] else [])

/-- The rounds of `rep.lines.forEach` from line `lineIndex` on. -/
def buildLineCharMapFrom (numLines : Nat) : Nat → List JSString → List LineCharEntry
  | _, [] => []
  | lineIndex, line :: rest =>
    lineEntries numLines lineIndex line ++ buildLineCharMapFrom numLines (lineIndex + 1) rest

/-- The array `lineCharMap` built by `applyErrorHighlights`. -/
def buildLineCharMap (lines : List JSString) : List LineCharEntry :=
  buildLineCharMapFrom lines.length 0 lines

/-- Reading a JavaScript array at a numeric index; `none` is `undefined`. -/
def arrayAt {α : Type} (a : List α) (i : Int) : Option α :=
  if i < 0 then none else a[i.toNat]?

/-- The template literal that names an issue in `errorAttributes`. -/
def errorId (matchIndex offset length : Nat) : JSString :=
  "error_".toList ++ numberToString matchIndex ++ "_".toList ++ numberToString offset ++
    "_".toList ++ numberToString length

/-- The positions `startPos` and `endPos` looked up for an issue. -/
def matchPositions (lineCharMap : List LineCharEntry) (m : Match) :
    Option LineCharEntry × Option LineCharEntry :=
  let offset := m.offset
  let length := m.length
  let endOffset := offset + length
  (arrayAt lineCharMap (offset : Int),
   arrayAt lineCharMap (min ((endOffset : Int) - 1) ((lineCharMap.length : Int) - 1)))

/-- One round of `matches.forEach` in `applyErrorHighlights`, on the registry and the
list of `applyAttributeToRange` calls made so far. -/
def applyMatch (host : Host) (lineCharMap : List LineCharEntry)
    (acc : JSMap ErrorData × List AttributeCall) (matchIndex : Nat) (m : Match) :
    JSMap ErrorData × List AttributeCall :=
  match matchPositions lineCharMap m with
  | (some startPos, some endPos) =>
    let id := errorId matchIndex m.offset m.length
    let data : ErrorData :=
      { matchData := m
        startLine := startPos.lineIndex
        endLine := endPos.lineIndex
        startChar := startPos.charInLine
        endChar := endPos.charInLine
        offset := m.offset
        length := m.length }
    (acc.1.set id data,
     if host.editorSetAttribute then
       acc.2 ++ [⟨startPos.lineIndex, startPos.charInLine, endPos.lineIndex,
                  endPos.charInLine, id⟩]
     else acc.2)
  | _ => acc

/-- The loop `matches.forEach` from index `matchIndex` on. -/
def applyMatches (host : Host) (lineCharMap : List LineCharEntry) :
    Nat → List Match → JSMap ErrorData × List AttributeCall →
    JSMap ErrorData × List AttributeCall
  | _, [], acc => acc
  | matchIndex, m :: rest, acc =>
    applyMatches host lineCharMap (matchIndex + 1) rest
      (applyMatch host lineCharMap acc matchIndex m)

/-- The function `applyErrorHighlights`: the new state and the calls of
`applyAttributeToRange` it makes. The parameter `matchList` is the source's `matches`;
the parameter `text` is not used by the source. -/
def applyErrorHighlights (host : Host) (s : State) (matchList : List Match) (_text : JSString) :
    State × List AttributeCall :=
  let s1 := clearErrorHighlights s
  if matchList.length = 0 then (s1, [])
  else if !host.aceGetRep then (s1, [])
  else
    match host.rep with
    | none => (s1, [])
    | some lines =>
      let r := applyMatches host (buildLineCharMap lines) 0 matchList (s1.errorAttributes, [])
      ({ s1 with errorAttributes := r.1 }, r.2)

/-! ## Suggestion applicator -/

/-- The operator `a || b` on numbers: `a` unless it is `0`. -/
def jsOr (a b : Nat) : Nat := if a ≠ 0 then a else b

/-- The local variables of the position loop of `acceptSuggestion`. -/
structure RangeScan where
  charPos : Nat
  startLine : Nat
  startChar : Nat
  endLine : Nat
  endChar : Nat
deriving DecidableEq, Repr

/-- The first test in the body of the position loop of `acceptSuggestion`:
`if (charPos <= offset && offset < charPos + lineLength)`. -/
def markStart (offset i lineLength : Nat) (st : RangeScan) : RangeScan :=
  if st.charPos ≤ offset ∧ offset < st.charPos + lineLength then
    { st with startLine := i, startChar := offset - st.charPos }
  else st

/-- The last statement in the body of the position loop: `charPos += lineLength + 1`. -/
def nextLine (lineLength : Nat) (st : RangeScan) : RangeScan :=
  { st with charPos := st.charPos + lineLength + 1 }

/-- The loop `for (let i = 0; i < rep.lines.length; i++)` of `acceptSuggestion` from
line `i` on; the second test ends the loop (`break`). -/
def findRange (offset length : Nat) : List JSString → Nat → RangeScan → RangeScan
  | [], _, st => st
  | lineText :: rest, i, st =>
    let lineLength := lineText.length
    let st1 := markStart offset i lineLength st
    if st1.charPos ≤ offset + length ∧ offset + length ≤ st1.charPos + lineLength then
      { st1 with endLine := i, endChar := offset + length - st1.charPos }
    else
      findRange offset length rest (i + 1) (nextLine lineLength st1)

/-- The value `offset` of `acceptSuggestion`: `errorData.offset || match.offset || 0`. -/
def acceptOffset (errorData : ErrorData) : Nat :=
  jsOr (jsOr errorData.offset errorData.matchData.offset) 0

/-- The value `length` of `acceptSuggestion`: `errorData.length || match.length || 0`. -/
def acceptLength (errorData : ErrorData) : Nat :=
  jsOr (jsOr errorData.length errorData.matchData.length) 0

/-- The value `newText` of `acceptSuggestion` (computed by the source, then not used):
`padText.substring(0, offset) + suggestionText + padText.substring(offset + length)`. -/
def acceptNewText (padText : JSString) (offset length : Nat) (suggestionText : JSString) :
    JSString :=
  padText.take offset ++ suggestionText ++ padText.drop (offset + length)

/-- What `acceptSuggestion` leaves behind: the new state, the `ace_replaceRange` calls it
made, and whether the `catch` branch ran. -/
structure AcceptOutcome where
  state : State
  replaced : List ReplaceCall
  threw : Bool

/-- The end of the `try` block of `acceptSuggestion`: popup closed, the record deleted,
highlights cleared, last-checked text and hash reset. -/
def acceptFinish (s : State) (errorId : JSString) : State :=
  let s1 := closePopup s
  let s2 := { s1 with errorAttributes := s1.errorAttributes.delete errorId }
  let s3 := clearErrorHighlights s2
  { s3 with lastCheckedText := [], lastCheckedTextHash := none }

/-- The function `acceptSuggestion`. A call of a missing editor function throws and is
caught by the `catch` branch, which only closes the popup. -/
def acceptSuggestion (host : Host) (s : State) (errorData : ErrorData)
    (suggestionText : JSString) (errorId : JSString) : AcceptOutcome :=
  let offset := acceptOffset errorData
  let length := acceptLength errorData
  if host.editorReplaceRange then
    if !host.editorGetRep then ⟨closePopup s, [], true⟩
    else
      match host.rep with
      | some lines =>
        let r := findRange offset length lines 0 ⟨0, 0, 0, 0, 0⟩
        if !host.editorCallWithAce then ⟨closePopup s, [], true⟩
        else
          ⟨acceptFinish s errorId,
           if host.aceReplaceRange then
             [⟨r.startLine, r.startChar, r.endLine, r.endChar, suggestionText⟩]
           else [],
           false⟩
      | none => ⟨acceptFinish s errorId, [], false⟩
  else ⟨acceptFinish s errorId, [], false⟩

/-! ## Check scheduler -/

/-- One pending timer of the browser: the id `setTimeout` returned and the delay. -/
structure Timer where
  id : Nat
  delay : Nat
deriving DecidableEq, Repr

/-- The browser's table of pending timers, and the last id it has given out. -/
structure Timers where
  pending : List Timer
  lastId : Nat
deriving DecidableEq, Repr

/-- The call `setTimeout(callback, delay)`: a new, positive id and the table with the
new timer. -/
def Timers.setTimeout (t : Timers) (delay : Nat) : Nat × Timers :=
  (t.lastId + 1, { pending := t.pending ++ [⟨t.lastId + 1, delay⟩], lastId := t.lastId + 1 })

/-- The call `clearTimeout(id)`. -/
def Timers.clearTimeout (t : Timers) (id : Nat) : Timers :=
  { t with pending := t.pending.filter (fun x => decide (x.id ≠ id)) }

/-- The statement `if (debounceTimer) { clearTimeout(debounceTimer); debounceTimer = null; }`. -/
def cancelDebounce (s : State) (t : Timers) : State × Timers :=
  match s.debounceTimer with
  | some (id + 1) => ({ s with debounceTimer := none }, t.clearTimeout (id + 1))
  | _ => (s, t)

/-- The hook `aceEditEvent`: the module state and the timer table after one edit
notification. -/
def aceEditEvent (s : State) (t : Timers) : State × Timers :=
  if !s.pluginConfig.autoCheck then (s, t)
  else if s.isChecking then (s, t)
  else
    let c := cancelDebounce s t
    let delay :=
      match s.pluginConfig.debounceDelay with
      | some (d + 1) => d + 1
      | _ => 2000
    let r := c.2.setTimeout delay
    ({ c.1 with debounceTimer := some r.1 }, r.2)

/-- A burst of `n` edit notifications with no timer firing in between. -/
def aceEditEvents : Nat → State → Timers → State × Timers
  | 0, s, t => (s, t)
  | n + 1, s, t =>
    let r := aceEditEvent s t
    aceEditEvents n r.1 r.2

/-- The characters `String.prototype.trim` removes: white space and line terminators. -/
def isTrimChar (c : Char) : Bool :=
  c.toNat = 9 || c.toNat = 10 || c.toNat = 11 || c.toNat = 12 || c.toNat = 13 ||
  c.toNat = 32 || c.toNat = 160 || c.toNat = 5760 ||
  (8192 ≤ c.toNat && c.toNat ≤ 8202) || c.toNat = 8232 || c.toNat = 8233 ||
  c.toNat = 8239 || c.toNat = 8287 || c.toNat = 12288 || c.toNat = 65279

/-- The test `!padText || padText.trim().length === 0`. -/
def isBlank (padText : JSString) : Bool := padText.all isTrimChar

/-- The operator `a || b` on strings: `a` unless it is missing or empty. -/
def strOr (a : Option JSString) (b : JSString) : JSString :=
  match a with
  | some (c :: cs) => c :: cs
  | _ => b

/-- The argument of `setToolbarButtonState`. -/
inductive ButtonState where
  | checking
  | error
  | success
  | idle
deriving DecidableEq, Repr

/-- What a run of the scheduler does to the outside, in order. -/
inductive Effect where
  /-- The console report of a refused check. -/
  | log (message : JSString)
  /-- The remote call `fetch('/ep_languagetool/check', ...)` with its body. -/
  | fetch (text language : JSString) (padId : Option JSString)
  /-- One call of `applyAttributeToRange`. -/
  | applyAttribute (call : AttributeCall)
  /-- One call of `setToolbarButtonState`. -/
  | buttonState (state : ButtonState)
  /-- One call of `showSuccessMessage`. -/
  | successMessage (message : JSString)
  /-- One call of `showErrorMessage`. -/
  | errorMessage (message : JSString)
deriving DecidableEq, Repr

/-- How the remote call ends, as `performCheck` sees it. -/
inductive Response where
  /-- The promise of `fetch` is rejected with an error of this message. -/
  | networkError (message : JSString)
  /-- The response has `ok` false; `code` and `message` are the fields of its JSON body,
  `none` when missing or when the body is not JSON. -/
  | notOk (status : Nat) (code message : Option JSString)
  /-- The promise of `response.json()` is rejected with an error of this message. -/
  | invalidJson (message : JSString)
  /-- The body is JSON but not an object (or is `null`). -/
  | invalidResult
  /-- The body is this object. -/
  | ok (result : CheckResult)
deriving DecidableEq, Repr

/-- The ways a call of `performCheck` ends. -/
inductive Ending where
  /-- Refused at the start: a check is in progress and the call is not forced. -/
  | refused
  /-- Skipped: the content has not changed. -/
  | unchanged
  /-- Skipped: the text is blank. -/
  | blank
  /-- Served from the cache. -/
  | cacheHit
  /-- The remote call succeeded and its result was applied. -/
  | success
  /-- The response had `ok` false. -/
  | notOk
  /-- The response body was not an object. -/
  | invalidResponse
  /-- An exception was thrown by `fetch` or by `response.json()`. -/
  | thrown
deriving DecidableEq, Repr

/-- The local variables of `performCheck` that live across the `await`. -/
structure PendingCheck where
  force : Bool
  padText : JSString
  textHash : JSString
deriving DecidableEq, Repr

/-- Where `performCheck` stands after its synchronous part. -/
inductive Phase where
  | ended (ending : Ending)
  | awaiting (pending : PendingCheck)
deriving DecidableEq, Repr

/-- The synchronous part of `performCheck`, up to the `fetch`. -/
structure BeginOutcome where
  state : State
  timers : Timers
  effects : List Effect
  phase : Phase

/-- The part of `performCheck` after the response. -/
structure ResumeOutcome where
  state : State
  effects : List Effect
  ending : Ending

/-- A whole run of `performCheck`. -/
structure Run where
  state : State
  timers : Timers
  effects : List Effect
  ending : Ending

/-- The statements that record what was checked: `lastCheckedText = padText;
lastCheckedTextHash = ...; lastCheckedRevision = getCurrentRevision();`. -/
def trackChecked (host : Host) (s : State) (padText textHash : JSString) : State :=
  { s with
    lastCheckedText := padText
    lastCheckedTextHash := some textHash
    lastCheckedRevision := getCurrentRevision host }

/-- The synchronous part of `performCheck(force)`: from the call to the `fetch`, or to
the `return` that ends the run before it. -/
def performCheckBegin (host : Host) (s : State) (t : Timers) (force : Bool) : BeginOutcome :=
  if s.isChecking && !force then
    ⟨s, t, [Effect.log "[ep_languagetool] Check already in progress, skipping".toList],
      Phase.ended Ending.refused⟩
  else
    let c := cancelDebounce { s with isChecking := true } t
    let s1 := c.1
    let padText := getPadText host
    if !force && !hasContentChanged host s1 padText then
      ⟨{ s1 with isChecking := false }, c.2, [], Phase.ended Ending.unchanged⟩
    else if isBlank padText then
      ⟨{ trackChecked host { s1 with currentMatches := [] } padText (hashText padText) with
          isChecking := false }, c.2, [], Phase.ended Ending.blank⟩
    else
      let textHash := hashText padText
      match (if force then none else getCachedResult s1 textHash) with
      | some cachedResult =>
        let s2 := trackChecked host
          { s1 with currentMatches := cachedResult.result.matchList.getD [] } padText textHash
        let r := applyErrorHighlights host s2 s2.currentMatches padText
        ⟨{ r.1 with isChecking := false }, c.2, r.2.map Effect.applyAttribute,
          Phase.ended Ending.cacheHit⟩
      | none =>
        let s2 := clearErrorHighlights { s1 with currentMatches := [] }
        let s3 := if force then { s2 with checkCache := JSMap.empty } else s2
        let s4 := trackChecked host s3 padText textHash
        ⟨s4, c.2,
          [Effect.fetch padText (strOr s.pluginConfig.defaultLanguage "en".toList) host.padId],
          Phase.awaiting ⟨force, padText, textHash⟩⟩

/-- The `catch` and `finally` branches of `performCheck` for an error of this message. -/
def performCheckFail (s : State) (force : Bool) (message : JSString) (ending : Ending) :
    ResumeOutcome :=
  ⟨{ s with currentMatches := [], isChecking := false },
    if force then
      [Effect.buttonState ButtonState.error,
       Effect.errorMessage
        (strOr (some message) "Failed to check grammar. Please try again.".toList)]
    else [],
    ending⟩

/-- The text of the message `showSuccessMessage` gets after a forced check. -/
def foundMessage (count : Nat) : JSString :=
  if count > 0 then "Found ".toList ++ numberToString count ++ " error(s)".toList
  else "No errors found".toList

/-- The statements of `performCheck` from the valid response to the rendering: the
matches are stored, the result is cached, and the cache entry is deleted again when the
hash of the text now in the editor is not `lastCheckedTextHash`. -/
def storeResult (host : Host) (s : State) (p : PendingCheck) (result : CheckResult)
    (now : Nat) : State :=
  let s1 := { s with currentMatches := result.matchList.getD [] }
  let s2 := cacheResult s1 p.textHash result now
  let currentHashAfterCheck := hashText (getPadText host)
  if some currentHashAfterCheck ≠ s2.lastCheckedTextHash then
    { s2 with checkCache := s2.checkCache.delete p.textHash }
  else s2

/-- The part of `performCheck` after the `await`: `s` and `host` are the module state and
the window when the response arrives, `now` is the value of `Date.now()`. -/
def performCheckResume (host : Host) (s : State) (p : PendingCheck) (response : Response)
    (now : Nat) : ResumeOutcome :=
  match response with
  | Response.networkError message => performCheckFail s p.force message Ending.thrown
  | Response.notOk status code message =>
    let errorCode := strOr code "UNKNOWN_ERROR".toList
    let errorMessage := strOr message ("Check failed: ".toList ++ numberToString status)
    performCheckFail s p.force
      (if errorCode = "SERVICE_UNAVAILABLE".toList then
        "LanguageTool server is not available. Please check your configuration.".toList
      else if errorCode = "TIMEOUT".toList then
        "Request timed out. The text may be too long.".toList
      else if errorCode = "RATE_LIMIT".toList then
        "Rate limit exceeded. Please try again later.".toList
      else errorMessage)
      Ending.notOk
  | Response.invalidJson message => performCheckFail s p.force message Ending.thrown
  | Response.invalidResult =>
    performCheckFail s p.force "Invalid response from server".toList Ending.invalidResponse
  | Response.ok result =>
    let s3 := storeResult host s p result now
    let r := applyErrorHighlights host s3 s3.currentMatches p.padText
    ⟨{ r.1 with isChecking := false },
      (if p.force then [Effect.successMessage (foundMessage s3.currentMatches.length)]
       else []) ++
      r.2.map Effect.applyAttribute ++
      (if p.force then [Effect.buttonState ButtonState.success] else []),
      Ending.success⟩

/-- A whole run of `performCheck(force)` during which no other handler changes the
module state: `host` is the window at the call, `hostAfter` the window at the response. -/
def performCheck (host : Host) (s : State) (t : Timers) (force : Bool) (response : Response)
    (now : Nat) (hostAfter : Host) : Run :=
  let b := performCheckBegin host s t force
  match b.phase with
  | Phase.ended ending => ⟨b.state, b.timers, b.effects, ending⟩
  | Phase.awaiting p =>
    let r := performCheckResume hostAfter b.state p response now
    ⟨r.state, b.timers, b.effects ++ r.effects, r.ending⟩

/-- The function `handleToolbarButtonClick`, with the run of `performCheck(true)` it
starts and the `finally` handler that follows it. -/
def handleToolbarButtonClick (host : Host) (s : State) (t : Timers) (response : Response)
    (now : Nat) (hostAfter : Host) : Run :=
  if s.isChecking then
    ⟨s, t, [Effect.log "[ep_languagetool] Check already in progress".toList], Ending.refused⟩
  else
    let r := performCheck host s t true response now hostAfter
    { r with
      effects := Effect.buttonState ButtonState.checking :: r.effects ++
        [Effect.buttonState ButtonState.idle] }

/-- The function `scheduleCheck`, up to the `fetch` of the check it starts; `none` when
it returns without calling `performCheck`. -/
def scheduleCheck (host : Host) (s : State) (t : Timers) : Option BeginOutcome :=
  if s.isChecking then none
  else if !hasContentChanged host s (getPadText host) then none
  else some (performCheckBegin host s t false)

/-- The callback of the debounce timer `id` when it fires: the timer leaves the table,
`debounceTimer = null`, then `scheduleCheck()`. The result is the state and table at
the call of `scheduleCheck`, and what that call starts. -/
def debounceTimerFires (host : Host) (s : State) (t : Timers) (id : Nat) :
    State × Timers × Option BeginOutcome :=
  let t1 := t.clearTimeout id
  let s1 := { s with debounceTimer := none }
  (s1, t1, scheduleCheck host s1 t1)

/-! ## Server side: the rejections of `checkText` and the `catch` of the check endpoint -/

/-- Whether the text begins with the given string. -/
def startsWith : JSString → JSString → Bool
  | _, [] => true
  | [], _ :: _ => false
  | c :: cs, d :: ds => c == d && startsWith cs ds

/-- The method `String.prototype.includes`. -/
def includes : JSString → JSString → Bool
  | [], sub => startsWith [] sub
  | c :: cs, sub => startsWith (c :: cs) sub || includes cs sub

/-- The ways the request of `checkText` to the LanguageTool server ends otherwise than
with a parsed result. -/
inductive UpstreamFailure where
  /-- The response ended with this status code and this body. -/
  | status (statusCode : Nat) (data : JSString)
  /-- The body of a response with status 200 could not be parsed (`error.message`). -/
  | parseError (message : JSString)
  /-- The request failed with `error.code === 'ECONNREFUSED'`. -/
  | connectionRefused
  /-- The request failed with `error.code === 'ENOTFOUND'`; `hostname` is
  `parsedUrl.hostname`. -/
  | hostNotFound (hostname : JSString)
  /-- The request failed with another error (`error.message`). -/
  | requestError (message : JSString)
  /-- The request timed out; `ms` is the value of `timeout`. -/
  | timeout (ms : Nat)
deriving DecidableEq, Repr

/-- The message of the error `checkText` rejects with; `none` for a response with status
200, which is not rejected here. -/
def checkTextRejection : UpstreamFailure → Option JSString
  | UpstreamFailure.status statusCode data =>
    if statusCode = 200 then none
    else if statusCode = 400 then
      some ("LanguageTool API: Bad request - ".toList ++ data)
    else if statusCode = 413 then
      some "LanguageTool API: Text too long (exceeds size limit)".toList
    else if statusCode = 429 then
      some "LanguageTool API: Rate limit exceeded".toList
    else if statusCode ≥ 500 then
      some ("LanguageTool API: Server error (".toList ++ numberToString statusCode ++
        ")".toList)
    else
      some ("LanguageTool API error: ".toList ++ numberToString statusCode ++ " - ".toList ++
        data)
  | UpstreamFailure.parseError message =>
    some ("Failed to parse LanguageTool response: ".toList ++ message)
  | UpstreamFailure.connectionRefused =>
    some "LanguageTool API: Connection refused - is the server running?".toList
  | UpstreamFailure.hostNotFound hostname =>
    some ("LanguageTool API: Host not found - ".toList ++ hostname)
  | UpstreamFailure.requestError message =>
    some ("LanguageTool API request failed: ".toList ++ message)
  | UpstreamFailure.timeout ms =>
    some ("LanguageTool API request timeout after ".toList ++ numberToString ms ++
      "ms".toList)

/-- The answer of the check endpoint to a failed check: the HTTP status and the JSON
body. -/
structure ErrorReply where
  statusCode : Nat
  error : JSString
  code : JSString
  message : JSString
deriving DecidableEq, Repr

/-- The `catch` branch of the handler of `/ep_languagetool/check`, for an error with
this message. -/
def checkEndpointError (message : JSString) : ErrorReply :=
  if includes message "timeout".toList then
    ⟨504, "Failed to check text".toList, "TIMEOUT".toList, message⟩
  else if includes message "Connection refused".toList ||
      includes message "Host not found".toList then
    ⟨503, "Failed to check text".toList, "SERVICE_UNAVAILABLE".toList, message⟩
  else if includes message "Rate limit".toList then
    ⟨429, "Failed to check text".toList, "RATE_LIMIT".toList, message⟩
  else if includes message "Bad request".toList then
    ⟨400, "Failed to check text".toList, "BAD_REQUEST".toList, message⟩
  else
    ⟨500, "Failed to check text".toList, "UNKNOWN_ERROR".toList, message⟩

/-- What the caller of the check endpoint gets when the request of `checkText` fails:
the rejection of `checkText`, caught and classified by the endpoint. -/
def checkEndpointFailure (f : UpstreamFailure) : Option ErrorReply :=
  (checkTextRejection f).map checkEndpointError

/-! ## Flat text and line/column positions -/

/-- Flat offset of the first character of line `i`: the sum over `j < i` of
`len(line j) + 1`. -/
def lineStart (lines : List JSString) (i : Nat) : Nat :=
  ((lines.take i).map (fun l => l.length + 1)).sum

/-- The length of line `i`. -/
def lineLength (lines : List JSString) (i : Nat) : Nat := (lines.getD i []).length

/-- The pair `(i, c)` is the position of flat offset `o`: `o` is the start of line `i`
plus `c`, with `c` at most the length of line `i`, and less than it on the last line. -/
def IsPos (lines : List JSString) (o i c : Nat) : Prop :=
  i < lines.length ∧ o = lineStart lines i + c ∧ c ≤ lineLength lines i ∧
    (i + 1 = lines.length → c < lineLength lines i)

/-- The pair `(i, c)` is a caret position at flat offset `o`: as `IsPos`, but the end of
the last line is allowed. -/
def IsCaret (lines : List JSString) (o i c : Nat) : Prop :=
  i < lines.length ∧ o = lineStart lines i + c ∧ c ≤ lineLength lines i

/-- Modelled from the spec: the host editor's write operation "replace text between
(line,column) and (line,column) with string", as the flat text of the document after
it. The editor is an external collaborator; its code is not part of the repository. -/
def replaceRangeText (lines : List JSString) (c : ReplaceCall) : JSString :=
  (joinLines lines).take (lineStart lines c.startLine + c.startChar) ++ c.text ++
    (joinLines lines).drop (lineStart lines c.endLine + c.endChar)

/-- A host in which every editor function the code uses is on offer, showing `lines`. -/
def fullHost (lines : List JSString) : Host :=
  { rep := some lines
    aceGetRep := true
    editorSetAttribute := true
    editorReplaceRange := true
    editorGetRep := true
    editorCallWithAce := true
    aceReplaceRange := true
    exportText := none
    domText := none
    padHead := none
    repHead := none
    padId := none }

/-- The state of a freshly loaded module, before `postAceInit`. -/
def initialState : State :=
  { pluginConfig := { autoCheck := false, debounceDelay := none, defaultLanguage := none }
    debounceTimer := none
    currentMatches := []
    lastCheckedText := []
    lastCheckedTextHash := none
    lastCheckedRevision := none
    isChecking := false
    errorAttributes := JSMap.empty
    currentPopup := false
    currentPopupErrorId := none
    checkCache := JSMap.empty }

/-- What the table holds at index `o`: the line, the column, the newline mark and the
character of the joined text it stands for. -/
def EntryAt (lines : List JSString) (k o : Nat) (e : LineCharEntry) : Prop :=
  ∃ j, e.lineIndex = k + j ∧ j < lines.length ∧ o = lineStart lines j + e.charInLine ∧
    e.charInLine ≤ lineLength lines j ∧
    (j + 1 = lines.length → e.charInLine < lineLength lines j) ∧
    (e.isNewline = true ↔ e.charInLine = lineLength lines j) ∧
    (joinLines lines)[o]? =
      (if e.isNewline then some '\n' else (lines.getD j [])[e.charInLine]?)

/-- The record `applyMatch` stores for issue `m` found at `startPos` and `endPos`. -/
def recordOf (m : Match) (startPos endPos : LineCharEntry) : ErrorData :=
  { matchData := m
    startLine := startPos.lineIndex
    endLine := endPos.lineIndex
    startChar := startPos.charInLine
    endChar := endPos.charInLine
    offset := m.offset
    length := m.length }

/-- The number a list of decimal digits stands for. -/
def digitsValue (ds : List Char) : Nat :=
  ds.foldl (fun acc c => 10 * acc + (c.toNat - 48)) 0

/-- One use of the result cache: a call of `cacheResult` or of `getCachedResult`. -/
inductive CacheOp where
  | put (textHash : JSString) (result : CheckResult) (now : Nat)
  | get (textHash : JSString)
deriving DecidableEq, Repr

/-- The state after one use of the cache; `getCachedResult` only reads. -/
def runCacheOp (s : State) : CacheOp → State
  | CacheOp.put textHash result now => cacheResult s textHash result now
  | CacheOp.get _ => s

/-- The state after a sequence of uses of the cache, in order. -/
def runCacheOps (s : State) (ops : List CacheOp) : State := ops.foldl runCacheOp s

/-- The calls of `cacheResult` among a sequence of uses of the cache, in order. -/
def putsOf : List CacheOp → List (JSString × CheckResult × Nat)
  | [] => []
  | CacheOp.put textHash result now :: rest => (textHash, result, now) :: putsOf rest
  | CacheOp.get _ :: rest => putsOf rest

/-- The cache entry a call of `cacheResult` writes. -/
def entryOfPut (p : JSString × CheckResult × Nat) : JSString × CacheEntry :=
  (p.1, { result := p.2.1, timestamp := p.2.2 })

/-- The state after a sequence of calls of `cacheResult`. -/
def cachePuts (s : State) (puts : List (JSString × CheckResult × Nat)) : State :=
  puts.foldl (fun st p => cacheResult st p.1 p.2.1 p.2.2) s

/-- A sample use of the cache: eleven calls of `cacheResult` with the keys `0` to `10`,
each followed by a call of `getCachedResult` for the key `0`. -/
def sampleCacheOps : List CacheOp :=
  (List.range 11).flatMap
    (fun i => [CacheOp.put (numberToString i) ⟨some []⟩ i, CacheOp.get (numberToString 0)])

/-- The calls of `cacheResult` with the keys `first` to `first + count - 1`. -/
def samplePuts (first count : Nat) : List (JSString × CheckResult × Nat) :=
  (List.range' first count).map (fun i => (numberToString i, ⟨some []⟩, i))

/-- The debounce timer and the timer table agree: no timer is pending and
`debounceTimer` is `null`, or `debounceTimer` is the (positive) id of the one pending
timer. -/
def DebounceCoherent (s : State) (t : Timers) : Prop :=
  (s.debounceTimer = none ∧ t.pending = []) ∨
    ∃ id delay, s.debounceTimer = some (id + 1) ∧ t.pending = [⟨id + 1, delay⟩]

/-- The delay `pluginConfig.debounceDelay || 2000`. -/
def debounceDelayOf (s : State) : Nat :=
  match s.pluginConfig.debounceDelay with
  | some (d + 1) => d + 1
  | _ => 2000

/-- The signed 32-bit two's-complement value of `x mod 2^32`, in the words of the
specification of the hash. -/
def wrap32 (x : Int) : Int :=
  if x % 4294967296 < 2147483648 then x % 4294967296 else x % 4294967296 - 4294967296

/-- The sum over `i` of `c_i * 31^(n-1-i)` for the code units `c_0 .. c_(n-1)` of a text. -/
def polyHash : List Nat → Int
  | [] => 0
  | c :: cs => (c : Int) * 31 ^ cs.length + polyHash cs

/-- One entry per issue that is not dropped, in the order of the issues: the key and the
record of every issue from index `matchIndex` on for which both positions are found. -/
def keptEntries (lineCharMap : List LineCharEntry) :
    Nat → List Match → List (JSString × ErrorData)
  | _, [] => []
  | matchIndex, m :: rest =>
    (match matchPositions lineCharMap m with
      | (some startPos, some endPos) =>
        [(errorId matchIndex m.offset m.length, recordOf m startPos endPos)]
      | _ => []) ++ keptEntries lineCharMap (matchIndex + 1) rest

/-! # Theorems -/

/-! ## The offset table -/

theorem joinLines_cons_cons (l l' : JSString) (rest : List JSString) :
    joinLines (l :: l' :: rest) = l ++ '\n' :: joinLines (l' :: rest) := rfl

theorem lineStart_zero (lines : List JSString) : lineStart lines 0 = 0 := by
  simp [lineStart]

theorem lineStart_succ (l : JSString) (rest : List JSString) (j : Nat) :
    lineStart (l :: rest) (j + 1) = l.length + 1 + lineStart rest j := by
  simp [lineStart]

theorem lineLength_zero (l : JSString) (rest : List JSString) :
    lineLength (l :: rest) 0 = l.length := by
  simp [lineLength]

theorem lineLength_succ (l : JSString) (rest : List JSString) (j : Nat) :
    lineLength (l :: rest) (j + 1) = lineLength rest j := by
  simp [lineLength]

theorem buildFrom_single (n k : Nat) (l : JSString) (h : n = k + 1) :
    buildLineCharMapFrom n k [l] =
      (List.range l.length).map (fun i => (⟨k, i, false⟩ : LineCharEntry)) := by
  subst h
  simp [buildLineCharMapFrom, lineEntries]

theorem buildFrom_cons_cons (n k : Nat) (l l' : JSString) (rest : List JSString)
    (h : n = k + (l :: l' :: rest).length) :
    buildLineCharMapFrom n k (l :: l' :: rest) =
      (List.range l.length).map (fun i => (⟨k, i, false⟩ : LineCharEntry)) ++
        ⟨k, l.length, true⟩ :: buildLineCharMapFrom n (k + 1) (l' :: rest) := by
  have hk : k < n - 1 := by simp at h; omega
  simp [buildLineCharMapFrom, lineEntries, hk]

theorem range_map_getElem? {α : Type} (f : Nat → α) (n o : Nat) (e : α)
    (h : ((List.range n).map f)[o]? = some e) : o < n ∧ e = f o := by
  rw [List.getElem?_map] at h
  by_cases ho : o < n
  · rw [List.getElem?_range ho] at h
    simp at h
    exact ⟨ho, h.symm⟩
  · rw [List.getElem?_eq_none (by simpa using ho)] at h
    simp at h

/-- The table has one entry per character of the joined text. -/
theorem buildFrom_length (n : Nat) :
    ∀ (lines : List JSString) (k : Nat), n = k + lines.length →
      (buildLineCharMapFrom n k lines).length = (joinLines lines).length
  | [], _, _ => rfl
  | [l], k, h => by
    rw [buildFrom_single n k l (by simpa using h)]
    simp [joinLines]
  | l :: l' :: rest, k, h => by
    rw [buildFrom_cons_cons n k l l' rest h, joinLines_cons_cons]
    have ih := buildFrom_length n (l' :: rest) (k + 1) (by simp at h ⊢; omega)
    simp [ih]

theorem buildLineCharMap_length (lines : List JSString) :
    (buildLineCharMap lines).length = (joinLines lines).length :=
  buildFrom_length lines.length lines 0 (by simp)

theorem entryAt_cons (l : JSString) (rest : List JSString) (k o : Nat) (e : LineCharEntry)
    (hne : rest ≠ [])
    (h : EntryAt rest (k + 1) o e) : EntryAt (l :: rest) k (l.length + 1 + o) e := by
  obtain ⟨j, h1, h2, h3, h4, h5, h6, h7⟩ := h
  refine ⟨j + 1, by omega, by simpa using h2, ?_, ?_, ?_, ?_, ?_⟩
  · rw [lineStart_succ]; omega
  · rw [lineLength_succ]; exact h4
  · intro hj; rw [lineLength_succ]; exact h5 (by simpa using hj)
  · rw [lineLength_succ]; exact h6
  · cases rest with
    | nil => exact absurd rfl hne
    | cons l' rest' =>
      rw [joinLines_cons_cons]
      have : (l ++ '\n' :: joinLines (l' :: rest'))[l.length + 1 + o]? =
          (joinLines (l' :: rest'))[o]? := by
        rw [List.getElem?_append_right (by omega)]
        have : l.length + 1 + o - l.length = o + 1 := by omega
        rw [this]; simp
      rw [this, h7]; simp

theorem buildFrom_entry (n : Nat) :
    ∀ (lines : List JSString) (k : Nat), n = k + lines.length →
      ∀ (o : Nat) (e : LineCharEntry), (buildLineCharMapFrom n k lines)[o]? = some e →
        EntryAt lines k o e
  | [], _, _, o, e, he => by simp [buildLineCharMapFrom] at he
  | [l], k, h, o, e, he => by
    rw [buildFrom_single n k l (by simpa using h)] at he
    obtain ⟨ha, rfl⟩ := range_map_getElem? _ _ _ _ he
    refine ⟨0, rfl, by simp, by simp [lineStart_zero], ?_, ?_, ?_, ?_⟩
    · simp [lineLength_zero]; omega
    · intro _; simp [lineLength_zero]; exact ha
    · simp [lineLength_zero]; omega
    · simp [joinLines]
  | l :: l' :: rest, k, h, o, e, he => by
    rw [buildFrom_cons_cons n k l l' rest h] at he
    by_cases ho : o < l.length
    · rw [List.getElem?_append_left (by simpa using ho)] at he
      obtain ⟨ha, rfl⟩ := range_map_getElem? _ _ _ _ he
      refine ⟨0, rfl, by simp, by simp [lineStart_zero], ?_, ?_, ?_, ?_⟩
      · simp [lineLength_zero]; omega
      · intro _; simp [lineLength_zero]; exact ha
      · simp [lineLength_zero]; omega
      · rw [joinLines_cons_cons, List.getElem?_append_left ha]; simp
    · rw [List.getElem?_append_right (by simpa using ho)] at he
      simp only [List.length_map, List.length_range] at he
      by_cases ho' : o = l.length
      · subst ho'
        simp at he
        subst he
        refine ⟨0, rfl, by simp, by simp [lineStart_zero], ?_, ?_, ?_, ?_⟩
        · simp [lineLength_zero]
        · intro hj; simp at hj
        · simp [lineLength_zero]
        · rw [joinLines_cons_cons, List.getElem?_append_right (by simp)]; simp
      · obtain ⟨o', rfl⟩ : ∃ o', o = l.length + 1 + o' := ⟨o - l.length - 1, by omega⟩
        have he' : (buildLineCharMapFrom n (k + 1) (l' :: rest))[o']? = some e := by
          have : l.length + 1 + o' - l.length = o' + 1 := by omega
          rw [this] at he
          simpa using he
        have ih := buildFrom_entry n (l' :: rest) (k + 1) (by simp at h ⊢; omega) o' e he'
        exact entryAt_cons l (l' :: rest) k o' e (by simp) ih

theorem buildLineCharMap_entry (lines : List JSString) (o : Nat) (e : LineCharEntry)
    (h : (buildLineCharMap lines)[o]? = some e) : EntryAt lines 0 o e :=
  buildFrom_entry lines.length lines 0 (by simp) o e h

/-! ## Issue keys -/

theorem digitChar_ne_underscore : ∀ d, d < 10 → Nat.digitChar d ≠ '_' := by decide

theorem digitChar_value : ∀ d, d < 10 → (Nat.digitChar d).toNat - 48 = d := by decide

theorem decimalDigits_no_underscore :
    ∀ (fuel n : Nat), '_' ∉ decimalDigits fuel n
  | 0, _ => by simp [decimalDigits]
  | fuel + 1, n => by
    unfold decimalDigits
    split
    · next h => simpa using (digitChar_ne_underscore n h).symm
    · have ih := decimalDigits_no_underscore fuel (n / 10)
      have := digitChar_ne_underscore (n % 10) (Nat.mod_lt _ (by decide))
      simp only [List.mem_append, List.mem_singleton, not_or]
      exact ⟨ih, this.symm⟩

theorem digitsValue_append (ds : List Char) (c : Char) :
    digitsValue (ds ++ [c]) = 10 * digitsValue ds + (c.toNat - 48) := by
  simp [digitsValue, List.foldl_append]

theorem digitsValue_decimalDigits :
    ∀ (fuel n : Nat), n < fuel → digitsValue (decimalDigits fuel n) = n
  | 0, _, h => absurd h (Nat.not_lt_zero _)
  | fuel + 1, n, h => by
    unfold decimalDigits
    split
    · next hn => simpa [digitsValue] using digitChar_value n hn
    · next hn =>
      rw [digitsValue_append, digitsValue_decimalDigits fuel (n / 10) (by omega),
        digitChar_value (n % 10) (Nat.mod_lt _ (by decide))]
      omega

theorem numberToString_injective (a b : Nat) (h : numberToString a = numberToString b) :
    a = b := by
  have ha := digitsValue_decimalDigits (a + 1) a (Nat.lt_succ_self a)
  have hb := digitsValue_decimalDigits (b + 1) b (Nat.lt_succ_self b)
  unfold numberToString at h
  rw [h] at ha
  omega

theorem append_sep_inj {α : Type} (sep : α) :
    ∀ (a a' r r' : List α), sep ∉ a → sep ∉ a' → a ++ sep :: r = a' ++ sep :: r' →
      a = a' ∧ r = r'
  | [], [], r, r', _, _, h => by simpa using h
  | [], y :: a', r, r', _, h2, h => by
    simp at h
    exact absurd h.1 (fun hc => h2 (by simp [hc]))
  | x :: a, [], r, r', h1, _, h => by
    simp at h
    exact absurd h.1 (fun hc => h1 (by simp [hc]))
  | x :: a, y :: a', r, r', h1, h2, h => by
    simp only [List.cons_append, List.cons.injEq] at h
    obtain ⟨hxy, ht⟩ := h
    have := append_sep_inj sep a a' r r' (fun hc => h1 (List.mem_cons_of_mem _ hc))
      (fun hc => h2 (List.mem_cons_of_mem _ hc)) ht
    exact ⟨by rw [hxy, this.1], this.2⟩

/-- The key of an issue determines its index, offset and length. -/
theorem errorId_injective (i o l i' o' l' : Nat) (h : errorId i o l = errorId i' o' l') :
    i = i' ∧ o = o' ∧ l = l' := by
  unfold errorId at h
  simp only [List.append_assoc] at h
  have h1 := List.append_cancel_left h
  have hsep : "_".toList = ['_'] := rfl
  rw [hsep] at h1
  simp only [List.singleton_append] at h1
  obtain ⟨hi, h2⟩ := append_sep_inj '_' _ _ _ _ (decimalDigits_no_underscore _ _)
    (decimalDigits_no_underscore _ _) h1
  obtain ⟨ho, hl⟩ := append_sep_inj '_' _ _ _ _ (decimalDigits_no_underscore _ _)
    (decimalDigits_no_underscore _ _) h2
  exact ⟨numberToString_injective _ _ hi, numberToString_injective _ _ ho,
    numberToString_injective _ _ hl⟩

/-! ## Registry lemmas -/

theorem JSMap.mem_setEntries {β : Type} (l : List (JSString × β)) (k : JSString) (v : β)
    (x : JSString × β) (h : x ∈ JSMap.setEntries l k v) : x ∈ l ∨ x = (k, v) := by
  induction l with
  | nil => simp [JSMap.setEntries] at h; exact Or.inr h
  | cons hd tl ih =>
    obtain ⟨k', v'⟩ := hd
    unfold JSMap.setEntries at h
    split at h
    · rcases List.mem_cons.1 h with h | h
      · exact Or.inr h
      · exact Or.inl (List.mem_cons_of_mem _ h)
    · rcases List.mem_cons.1 h with h | h
      · exact Or.inl (h ▸ List.mem_cons_self _ _)
      · rcases ih h with h | h
        · exact Or.inl (List.mem_cons_of_mem _ h)
        · exact Or.inr h

theorem arrayAt_some {α : Type} (a : List α) (i : Int) (e : α) (h : arrayAt a i = some e) :
    0 ≤ i ∧ a[i.toNat]? = some e := by
  unfold arrayAt at h
  split at h
  · cases h
  · exact ⟨by omega, h⟩

theorem applyMatch_entries (host : Host) (table : List LineCharEntry)
    (acc : JSMap ErrorData × List AttributeCall) (i : Nat) (m : Match)
    (x : JSString × ErrorData) (h : x ∈ (applyMatch host table acc i m).1.entries) :
    x ∈ acc.1.entries ∨
      ∃ sp ep, matchPositions table m = (some sp, some ep) ∧
        x = (errorId i m.offset m.length, recordOf m sp ep) := by
  unfold applyMatch at h
  split at h
  · next sp ep hpos =>
    rcases JSMap.mem_setEntries _ _ _ _ h with h | h
    · exact Or.inl h
    · exact Or.inr ⟨sp, ep, hpos, h⟩
  · exact Or.inl h

/-- Every record in the registry after the loop was there before or was built from the
table for one of the issues. -/
theorem applyMatches_entries (host : Host) (table : List LineCharEntry) :
    ∀ (ms : List Match) (i : Nat) (acc : JSMap ErrorData × List AttributeCall)
      (x : JSString × ErrorData), x ∈ (applyMatches host table i ms acc).1.entries →
      x ∈ acc.1.entries ∨
        ∃ j m sp ep, ms[j]? = some m ∧ matchPositions table m = (some sp, some ep) ∧
          x = (errorId (i + j) m.offset m.length, recordOf m sp ep)
  | [], _, _, _, h => Or.inl h
  | m :: rest, i, acc, x, h => by
    rcases applyMatches_entries host table rest (i + 1) _ x h with h | ⟨j, m', sp, ep, h1, h2, h3⟩
    · rcases applyMatch_entries host table acc i m x h with h | ⟨sp, ep, h2, h3⟩
      · exact Or.inl h
      · exact Or.inr ⟨0, m, sp, ep, by simp, h2, h3⟩
    · refine Or.inr ⟨j + 1, m', sp, ep, by simpa using h1, h2, ?_⟩
      rw [h3]; congr 2; omega

/-- Every record in the registry after `applyErrorHighlights` was built in this call,
from the lines the editor shows, for one of the issues. -/
theorem applyErrorHighlights_entries (host : Host) (s : State) (matchList : List Match)
    (text : JSString) (x : JSString × ErrorData)
    (h : x ∈ (applyErrorHighlights host s matchList text).1.errorAttributes.entries) :
    ∃ lines j m sp ep, host.rep = some lines ∧ matchList[j]? = some m ∧
      matchPositions (buildLineCharMap lines) m = (some sp, some ep) ∧
      x = (errorId j m.offset m.length, recordOf m sp ep) := by
  unfold applyErrorHighlights at h
  simp only at h
  split at h
  · simp [clearErrorHighlights, JSMap.empty] at h
  · split at h
    · simp [clearErrorHighlights, JSMap.empty] at h
    · split at h
      · simp [clearErrorHighlights, JSMap.empty] at h
      · next lines hrep =>
        rcases applyMatches_entries host _ matchList 0 _ x h with h | ⟨j, m, sp, ep, h1, h2, h3⟩
        · simp [clearErrorHighlights, JSMap.empty] at h
        · exact ⟨lines, j, m, sp, ep, hrep, h1, h2, by simpa using h3⟩

theorem matchPositions_some (table : List LineCharEntry) (m : Match) (sp ep : LineCharEntry)
    (h : matchPositions table m = (some sp, some ep)) :
    table[m.offset]? = some sp ∧ m.offset < table.length ∧ 1 ≤ m.offset + m.length ∧
      table[min (m.offset + m.length - 1) (table.length - 1)]? = some ep := by
  unfold matchPositions at h
  simp only [Prod.mk.injEq] at h
  obtain ⟨h1, h2⟩ := h
  have h1' := (arrayAt_some _ _ _ h1).2
  simp at h1'
  obtain ⟨h3, h4⟩ := arrayAt_some _ _ _ h2
  have hlt : m.offset < table.length := by
    by_contra hc
    rw [List.getElem?_eq_none (by omega)] at h1'
    cases h1'
  refine ⟨h1', hlt, by omega, ?_⟩
  have : (min (((m.offset + m.length : Nat) : Int) - 1) ((table.length : Int) - 1)).toNat =
      min (m.offset + m.length - 1) (table.length - 1) := by omega
  rw [this] at h4
  exact h4

/-! ## Lookup in the registry -/

theorem JSMap.getEntries_setEntries_self {β : Type} (l : List (JSString × β)) (k : JSString)
    (v : β) : JSMap.getEntries (JSMap.setEntries l k v) k = some v := by
  induction l with
  | nil => simp [JSMap.setEntries, JSMap.getEntries]
  | cons hd tl ih =>
    obtain ⟨k', v'⟩ := hd
    unfold JSMap.setEntries
    split
    · simp [JSMap.getEntries]
    · next hne => simp [JSMap.getEntries, hne, ih]

theorem JSMap.getEntries_setEntries_ne {β : Type} (l : List (JSString × β)) (k k' : JSString)
    (v : β) (h : k ≠ k') :
    JSMap.getEntries (JSMap.setEntries l k v) k' = JSMap.getEntries l k' := by
  induction l with
  | nil => simp [JSMap.setEntries, JSMap.getEntries, h]
  | cons hd tl ih =>
    obtain ⟨k₀, v₀⟩ := hd
    unfold JSMap.setEntries
    split
    · next heq => subst heq; simp [JSMap.getEntries, h]
    · next hne =>
      by_cases hk : k₀ = k'
      · simp [JSMap.getEntries, hk]
      · simp [JSMap.getEntries, hk, ih]

theorem JSMap.getEntries_eq_none {β : Type} (l : List (JSString × β)) (k : JSString)
    (h : ∀ x ∈ l, x.1 ≠ k) : JSMap.getEntries l k = none := by
  induction l with
  | nil => rfl
  | cons hd tl ih =>
    obtain ⟨k₀, v₀⟩ := hd
    have h0 : k₀ ≠ k := h (k₀, v₀) (List.mem_cons_self _ _)
    simp [JSMap.getEntries, h0, ih (fun x hx => h x (List.mem_cons_of_mem _ hx))]

theorem JSMap.get_set_self {β : Type} (m : JSMap β) (k : JSString) (v : β) :
    (m.set k v).get k = some v :=
  JSMap.getEntries_setEntries_self m.entries k v

theorem JSMap.get_set_ne {β : Type} (m : JSMap β) (k k' : JSString) (v : β) (h : k ≠ k') :
    (m.set k v).get k' = m.get k' :=
  JSMap.getEntries_setEntries_ne m.entries k k' v h

theorem applyMatch_get_ne (host : Host) (table : List LineCharEntry)
    (acc : JSMap ErrorData × List AttributeCall) (i : Nat) (m : Match) (key : JSString)
    (h : errorId i m.offset m.length ≠ key) :
    (applyMatch host table acc i m).1.get key = acc.1.get key := by
  unfold applyMatch
  split
  · exact JSMap.get_set_ne _ _ _ _ h
  · rfl

theorem applyMatch_get_self (host : Host) (table : List LineCharEntry)
    (acc : JSMap ErrorData × List AttributeCall) (i : Nat) (m : Match)
    (sp ep : LineCharEntry) (h : matchPositions table m = (some sp, some ep)) :
    (applyMatch host table acc i m).1.get (errorId i m.offset m.length) =
      some (recordOf m sp ep) := by
  unfold applyMatch
  rw [h]
  exact JSMap.get_set_self _ _ _

/-- Rounds of the loop with other keys leave the entry under `key` as it is. -/
theorem applyMatches_get_other (host : Host) (table : List LineCharEntry) :
    ∀ (ms : List Match) (i : Nat) (acc : JSMap ErrorData × List AttributeCall)
      (key : JSString), (∀ j o l, i ≤ j → errorId j o l ≠ key) →
      (applyMatches host table i ms acc).1.get key = acc.1.get key
  | [], _, _, _, _ => rfl
  | m :: rest, i, acc, key, h => by
    unfold applyMatches
    rw [applyMatches_get_other host table rest (i + 1) _ key
      (fun j o l hj => h j o l (by omega))]
    exact applyMatch_get_ne host table acc i m key (h i _ _ (Nat.le_refl _))

/-- After the loop, the key of a mapped issue leads to the record built for it. -/
theorem applyMatches_get (host : Host) (table : List LineCharEntry) :
    ∀ (ms : List Match) (i : Nat) (acc : JSMap ErrorData × List AttributeCall) (j : Nat)
      (m : Match) (sp ep : LineCharEntry), ms[j]? = some m →
      matchPositions table m = (some sp, some ep) →
      (applyMatches host table i ms acc).1.get (errorId (i + j) m.offset m.length) =
        some (recordOf m sp ep)
  | [], _, _, _, _, _, _, h, _ => by simp at h
  | m₀ :: rest, i, acc, 0, m, sp, ep, h, hpos => by
    simp at h
    subst h
    unfold applyMatches
    rw [applyMatches_get_other host table rest (i + 1) _ _
      (fun j o l hj hc => by have := (errorId_injective _ _ _ _ _ _ hc).1; omega)]
    exact applyMatch_get_self host table acc i m₀ sp ep hpos
  | m₀ :: rest, i, acc, j + 1, m, sp, ep, h, hpos => by
    unfold applyMatches
    have := applyMatches_get host table rest (i + 1) (applyMatch host table acc i m₀) j m sp ep
      (by simpa using h) hpos
    have hidx : i + (j + 1) = i + 1 + j := by omega
    rw [hidx]
    exact this

theorem applyErrorHighlights_get (host : Host) (s : State) (matchList : List Match)
    (text : JSString) (lines : List JSString) (j : Nat) (m : Match) (sp ep : LineCharEntry)
    (hace : host.aceGetRep = true) (hrep : host.rep = some lines)
    (hm : matchList[j]? = some m)
    (hpos : matchPositions (buildLineCharMap lines) m = (some sp, some ep)) :
    (applyErrorHighlights host s matchList text).1.errorAttributes.get
      (errorId j m.offset m.length) = some (recordOf m sp ep) := by
  have hne : matchList.length ≠ 0 := by
    intro hc
    rw [List.length_eq_zero] at hc
    subst hc
    simp at hm
  unfold applyErrorHighlights
  simp only [hne, hace, hrep, if_false, Bool.not_true]
  have := applyMatches_get host (buildLineCharMap lines) matchList 0
    ((clearErrorHighlights s).errorAttributes, []) j m sp ep hm hpos
  simpa using this

theorem matchPositions_of_lt (table : List LineCharEntry) (m : Match)
    (h1 : m.offset < table.length) (h2 : 1 ≤ m.offset + m.length) :
    ∃ sp ep, matchPositions table m = (some sp, some ep) := by
  have hidx : min (m.offset + m.length - 1) (table.length - 1) < table.length := by omega
  refine ⟨table[m.offset], table[min (m.offset + m.length - 1) (table.length - 1)], ?_⟩
  unfold matchPositions arrayAt
  have hnn : ¬ (min (((m.offset + m.length : Nat) : Int) - 1) ((table.length : Int) - 1) < 0) := by
    omega
  have hto : (min (((m.offset + m.length : Nat) : Int) - 1) ((table.length : Int) - 1)).toNat =
      min (m.offset + m.length - 1) (table.length - 1) := by omega
  simp only [hnn, hto, if_false, Int.toNat_ofNat]
  have hn0 : ¬ ((m.offset : Int) < 0) := by omega
  simp only [hn0, if_false]
  rw [List.getElem?_eq_getElem h1, List.getElem?_eq_getElem hidx]

/-! ## Positions -/

theorem lineStart_step : ∀ (lines : List JSString) (i : Nat), i < lines.length →
    lineStart lines (i + 1) = lineStart lines i + lineLength lines i + 1
  | [], _, h => by simp at h
  | l :: rest, 0, _ => by
    rw [lineStart_succ, lineStart_zero, lineStart_zero, lineLength_zero]; omega
  | l :: rest, i + 1, h => by
    rw [lineStart_succ, lineStart_succ, lineLength_succ,
      lineStart_step rest i (by simpa using h)]
    omega

theorem lineStart_mono (lines : List JSString) (i : Nat) :
    ∀ d, i + d ≤ lines.length → lineStart lines i ≤ lineStart lines (i + d)
  | 0, _ => Nat.le_refl _
  | d + 1, h => by
    have h1 := lineStart_mono lines i d (by omega)
    have h2 := lineStart_step lines (i + d) (by omega)
    have : i + (d + 1) = i + d + 1 := by omega
    rw [this, h2]
    omega

theorem lineStart_lt (lines : List JSString) (i i' c : Nat) (hlt : i < i')
    (hi' : i' < lines.length) (hc : c ≤ lineLength lines i) :
    lineStart lines i + c < lineStart lines i' := by
  have h1 := lineStart_step lines i (by omega)
  have h2 := lineStart_mono lines (i + 1) (i' - (i + 1)) (by omega)
  have : i + 1 + (i' - (i + 1)) = i' := by omega
  rw [this] at h2
  omega

/-- A flat offset has at most one caret position with a column inside its line, and
so at most one position. -/
theorem IsPos_unique (lines : List JSString) (o i c i' c' : Nat)
    (h : IsPos lines o i c) (h' : IsPos lines o i' c') : i = i' ∧ c = c' := by
  obtain ⟨h1, h2, h3, h4⟩ := h
  obtain ⟨h1', h2', h3', h4'⟩ := h'
  have hii : i = i' := by
    rcases Nat.lt_trichotomy i i' with hlt | heq | hgt
    · have := lineStart_lt lines i i' c hlt h1' h3
      omega
    · exact heq
    · have := lineStart_lt lines i' i c' hgt h1 h3'
      omega
  subst hii
  exact ⟨rfl, by omega⟩

theorem entryAt_isPos (lines : List JSString) (o : Nat) (e : LineCharEntry)
    (h : EntryAt lines 0 o e) : IsPos lines o e.lineIndex e.charInLine := by
  obtain ⟨j, h1, h2, h3, h4, h5, _⟩ := h
  have : e.lineIndex = j := by omega
  subst this
  exact ⟨h2, h3, h4, h5⟩

/-! ## Calls of `applyAttributeToRange` -/

theorem applyMatch_calls (host : Host) (table : List LineCharEntry)
    (acc : JSMap ErrorData × List AttributeCall) (i : Nat) (m : Match) (c : AttributeCall)
    (h : c ∈ (applyMatch host table acc i m).2) :
    c ∈ acc.2 ∨ c.errorId = errorId i m.offset m.length ∧
      ∃ sp ep, matchPositions table m = (some sp, some ep) := by
  unfold applyMatch at h
  split at h
  · next sp ep hpos =>
    split at h
    · rcases List.mem_append.1 h with h | h
      · exact Or.inl h
      · simp at h
        exact Or.inr ⟨by rw [h], sp, ep, hpos⟩
    · exact Or.inl h
  · exact Or.inl h

theorem applyMatches_calls (host : Host) (table : List LineCharEntry) :
    ∀ (ms : List Match) (i : Nat) (acc : JSMap ErrorData × List AttributeCall)
      (c : AttributeCall), c ∈ (applyMatches host table i ms acc).2 →
      c ∈ acc.2 ∨ ∃ j m sp ep, ms[j]? = some m ∧
        matchPositions table m = (some sp, some ep) ∧
        c.errorId = errorId (i + j) m.offset m.length
  | [], _, _, _, h => Or.inl h
  | m :: rest, i, acc, c, h => by
    rcases applyMatches_calls host table rest (i + 1) _ c h with h | ⟨j, m', sp, ep, h1, h2, h3⟩
    · rcases applyMatch_calls host table acc i m c h with h | ⟨h3, sp, ep, h2⟩
      · exact Or.inl h
      · exact Or.inr ⟨0, m, sp, ep, by simp, h2, h3⟩
    · refine Or.inr ⟨j + 1, m', sp, ep, by simpa using h1, h2, ?_⟩
      rw [h3]; congr 1; omega

theorem applyMatch_calls_mono (host : Host) (table : List LineCharEntry)
    (acc : JSMap ErrorData × List AttributeCall) (i : Nat) (m : Match) (c : AttributeCall)
    (h : c ∈ acc.2) : c ∈ (applyMatch host table acc i m).2 := by
  unfold applyMatch
  split
  · split
    · exact List.mem_append_left _ h
    · exact h
  · exact h

theorem applyMatches_calls_mono (host : Host) (table : List LineCharEntry) :
    ∀ (ms : List Match) (i : Nat) (acc : JSMap ErrorData × List AttributeCall)
      (c : AttributeCall), c ∈ acc.2 → c ∈ (applyMatches host table i ms acc).2
  | [], _, _, _, h => h
  | m :: rest, i, acc, c, h =>
    applyMatches_calls_mono host table rest (i + 1) _ c
      (applyMatch_calls_mono host table acc i m c h)

theorem applyMatches_calls_mem (host : Host) (table : List LineCharEntry)
    (hset : host.editorSetAttribute = true) :
    ∀ (ms : List Match) (i : Nat) (acc : JSMap ErrorData × List AttributeCall) (j : Nat)
      (m : Match) (sp ep : LineCharEntry), ms[j]? = some m →
      matchPositions table m = (some sp, some ep) →
      (⟨sp.lineIndex, sp.charInLine, ep.lineIndex, ep.charInLine,
        errorId (i + j) m.offset m.length⟩ : AttributeCall) ∈
        (applyMatches host table i ms acc).2
  | [], _, _, _, _, _, _, h, _ => by simp at h
  | m₀ :: rest, i, acc, 0, m, sp, ep, h, hpos => by
    simp at h
    subst h
    unfold applyMatches
    apply applyMatches_calls_mono
    unfold applyMatch
    rw [hpos]
    simp [hset]
  | m₀ :: rest, i, acc, j + 1, m, sp, ep, h, hpos => by
    unfold applyMatches
    have := applyMatches_calls_mem host table hset rest (i + 1)
      (applyMatch host table acc i m₀) j m sp ep (by simpa using h) hpos
    have hidx : i + (j + 1) = i + 1 + j := by omega
    rw [hidx]
    exact this

theorem table_entry_of_lt (lines : List JSString) (o : Nat)
    (h : o < (joinLines lines).length) :
    ∃ entry, (buildLineCharMap lines)[o]? = some entry ∧ EntryAt lines 0 o entry := by
  have hlt : o < (buildLineCharMap lines).length := by
    rw [buildLineCharMap_length]; exact h
  exact ⟨(buildLineCharMap lines)[o], List.getElem?_eq_getElem hlt,
    buildLineCharMap_entry lines o _ (List.getElem?_eq_getElem hlt)⟩

/-- The record of an issue whose start lies inside the table: start and end are the
positions of `offset` and of `offset + length - 1`, the latter cut to the last entry. -/
theorem applyErrorHighlights_stored (host : Host) (s : State) (matchList : List Match)
    (text : JSString) (lines : List JSString) (i : Nat) (m : Match)
    (hace : host.aceGetRep = true) (hrep : host.rep = some lines)
    (hm : matchList[i]? = some m) (h1 : m.offset < (joinLines lines).length)
    (h2 : 1 ≤ m.offset + m.length) :
    ∃ e, (applyErrorHighlights host s matchList text).1.errorAttributes.get
        (errorId i m.offset m.length) = some e ∧
      e.matchData = m ∧ e.offset = m.offset ∧ e.length = m.length ∧
      IsPos lines m.offset e.startLine e.startChar ∧
      IsPos lines (min (m.offset + m.length - 1) ((joinLines lines).length - 1))
        e.endLine e.endChar ∧
      (host.editorSetAttribute = true →
        (⟨e.startLine, e.startChar, e.endLine, e.endChar, errorId i m.offset m.length⟩ :
          AttributeCall) ∈ (applyErrorHighlights host s matchList text).2) := by
  have hlen := buildLineCharMap_length lines
  obtain ⟨sp, ep, hpos⟩ := matchPositions_of_lt (buildLineCharMap lines) m (by omega) h2
  obtain ⟨hs, _, _, he⟩ := matchPositions_some _ _ _ _ hpos
  rw [hlen] at he
  refine ⟨recordOf m sp ep, applyErrorHighlights_get host s matchList text lines i m sp ep
    hace hrep hm hpos, rfl, rfl, rfl,
    entryAt_isPos lines _ _ (buildLineCharMap_entry lines _ _ hs),
    entryAt_isPos lines _ _ (buildLineCharMap_entry lines _ _ he), ?_⟩
  intro hset
  have hne : matchList.length ≠ 0 := by
    intro hc
    rw [List.length_eq_zero] at hc
    subst hc
    simp at hm
  unfold applyErrorHighlights
  simp only [hne, hace, hrep, if_false, Bool.not_true]
  have := applyMatches_calls_mem host (buildLineCharMap lines) hset matchList 0
    ((clearErrorHighlights s).errorAttributes, []) i m sp ep hm hpos
  simpa [recordOf] using this

theorem applyErrorHighlights_calls (host : Host) (s : State) (matchList : List Match)
    (text : JSString) (c : AttributeCall)
    (h : c ∈ (applyErrorHighlights host s matchList text).2) :
    ∃ lines j m sp ep, host.rep = some lines ∧ matchList[j]? = some m ∧
      matchPositions (buildLineCharMap lines) m = (some sp, some ep) ∧
      c.errorId = errorId j m.offset m.length := by
  unfold applyErrorHighlights at h
  simp only at h
  split at h
  · simp at h
  · split at h
    · simp at h
    · split at h
      · simp at h
      · next lines hrep =>
        rcases applyMatches_calls host _ matchList 0 _ c h with h | ⟨j, m, sp, ep, h1, h2, h3⟩
        · simp at h
        · exact ⟨lines, j, m, sp, ep, hrep, h1, h2, by simpa using h3⟩

/-- An issue whose start is outside the table, or whose end offset is negative, leaves
no record under its key and no call of `applyAttributeToRange`. -/
theorem applyErrorHighlights_dropped (host : Host) (s : State) (matchList : List Match)
    (text : JSString) (lines : List JSString) (i : Nat) (m : Match)
    (hrep : host.rep = some lines)
    (h : (joinLines lines).length ≤ m.offset ∨ m.offset + m.length = 0) :
    (applyErrorHighlights host s matchList text).1.errorAttributes.get
        (errorId i m.offset m.length) = none ∧
      ∀ c ∈ (applyErrorHighlights host s matchList text).2,
        c.errorId ≠ errorId i m.offset m.length := by
  have key : ∀ (j : Nat) (m' : Match) (sp ep : LineCharEntry),
      matchPositions (buildLineCharMap lines) m' = (some sp, some ep) →
      errorId j m'.offset m'.length ≠ errorId i m.offset m.length := by
    intro j m' sp ep hpos hc
    obtain ⟨_, ho, hl⟩ := errorId_injective _ _ _ _ _ _ hc
    obtain ⟨_, hlt, hge, _⟩ := matchPositions_some _ _ _ _ hpos
    rw [buildLineCharMap_length] at hlt
    omega
  constructor
  · apply JSMap.getEntries_eq_none
    intro x hx hc
    obtain ⟨lines', j, m', sp, ep, hrep', _, hpos, hxe⟩ :=
      applyErrorHighlights_entries host s matchList text x hx
    rw [hrep] at hrep'
    cases hrep'
    rw [hxe] at hc
    exact key j m' sp ep hpos hc
  · intro c hc hce
    obtain ⟨lines', j, m', sp, ep, hrep', _, hpos, hxe⟩ :=
      applyErrorHighlights_calls host s matchList text c hc
    rw [hrep] at hrep'
    cases hrep'
    rw [hxe] at hce
    exact key j m' sp ep hpos hce

/-! ## The position loop of `acceptSuggestion` -/

theorem markStart_charPos (offset i len : Nat) (st : RangeScan) :
    (markStart offset i len st).charPos = st.charPos := by
  unfold markStart; split <;> rfl

theorem markStart_endLine (offset i len : Nat) (st : RangeScan) :
    (markStart offset i len st).endLine = st.endLine := by
  unfold markStart; split <;> rfl

theorem markStart_endChar (offset i len : Nat) (st : RangeScan) :
    (markStart offset i len st).endChar = st.endChar := by
  unfold markStart; split <;> rfl

theorem markStart_hit (offset i len : Nat) (st : RangeScan)
    (h : st.charPos ≤ offset ∧ offset < st.charPos + len) :
    (markStart offset i len st).startLine = i ∧
      (markStart offset i len st).startChar = offset - st.charPos := by
  unfold markStart; rw [if_pos h]; exact ⟨rfl, rfl⟩

theorem markStart_miss (offset i len : Nat) (st : RangeScan)
    (h : ¬ (st.charPos ≤ offset ∧ offset < st.charPos + len)) :
    markStart offset i len st = st := by
  unfold markStart; rw [if_neg h]

theorem findRange_cons (offset length : Nat) (l : JSString) (rest : List JSString) (i : Nat)
    (st : RangeScan) :
    findRange offset length (l :: rest) i st =
      if st.charPos ≤ offset + length ∧ offset + length ≤ st.charPos + l.length then
        { markStart offset i l.length st with
          endLine := i, endChar := offset + length - st.charPos }
      else
        findRange offset length rest (i + 1)
          (nextLine l.length (markStart offset i l.length st)) := by
  simp only [findRange, markStart_charPos]

theorem nextLine_markStart_charPos (offset i len : Nat) (st : RangeScan) :
    (nextLine len (markStart offset i len st)).charPos = st.charPos + len + 1 := by
  simp [nextLine, markStart_charPos]

theorem nextLine_fields (len : Nat) (st : RangeScan) :
    (nextLine len st).startLine = st.startLine ∧ (nextLine len st).startChar = st.startChar ∧
      (nextLine len st).endLine = st.endLine ∧ (nextLine len st).endChar = st.endChar :=
  ⟨rfl, rfl, rfl, rfl⟩

theorem joinLines_length_cons_cons (l l' : JSString) (rest : List JSString) :
    (joinLines (l :: l' :: rest)).length = l.length + 1 + (joinLines (l' :: rest)).length := by
  rw [joinLines_cons_cons]; simp; omega

/-- Once `charPos` is beyond `offset`, the loop leaves the start as it is. -/
theorem findRange_start_passed (offset length : Nat) :
    ∀ (rest : List JSString) (i : Nat) (st : RangeScan), offset < st.charPos →
      (findRange offset length rest i st).startLine = st.startLine ∧
        (findRange offset length rest i st).startChar = st.startChar
  | [], _, _, _ => ⟨rfl, rfl⟩
  | l :: rest, i, st, h => by
    rw [findRange_cons]
    have hm : markStart offset i l.length st = st := markStart_miss _ _ _ _ (by omega)
    split
    · rw [hm]; exact ⟨rfl, rfl⟩
    · obtain ⟨h1, h2⟩ := findRange_start_passed offset length rest (i + 1)
        (nextLine l.length (markStart offset i l.length st))
        (by rw [nextLine_markStart_charPos]; omega)
      rw [h1, h2, (nextLine_fields _ _).1, (nextLine_fields _ _).2.1, hm]
      exact ⟨rfl, rfl⟩

/-- The loop finds the end: the first line on which `offset + length` is a caret
position. -/
theorem findRange_end (offset length : Nat) :
    ∀ (rest : List JSString) (i : Nat) (st : RangeScan), rest ≠ [] →
      st.charPos ≤ offset + length →
      offset + length ≤ st.charPos + (joinLines rest).length →
      ∃ j, j < rest.length ∧ (findRange offset length rest i st).endLine = i + j ∧
        st.charPos + lineStart rest j + (findRange offset length rest i st).endChar =
          offset + length ∧
        (findRange offset length rest i st).endChar ≤ lineLength rest j
  | [], _, _, h, _, _ => absurd rfl h
  | [l], i, st, _, h1, h2 => by
    rw [findRange_cons, if_pos ⟨h1, by simpa [joinLines] using h2⟩]
    refine ⟨0, by simp, rfl, ?_, ?_⟩
    · simp only [lineStart_zero]; simp [joinLines] at h2; omega
    · simp only [lineLength_zero]; simp [joinLines] at h2; omega
  | l :: l' :: rest, i, st, _, h1, h2 => by
    rw [findRange_cons]
    split
    · next hc =>
      refine ⟨0, by simp, rfl, ?_, ?_⟩
      · simp only [lineStart_zero]; omega
      · simp only [lineLength_zero]; omega
    · next hc =>
      rw [joinLines_length_cons_cons] at h2
      obtain ⟨j, hj1, hj2, hj3, hj4⟩ := findRange_end offset length (l' :: rest) (i + 1)
        (nextLine l.length (markStart offset i l.length st))
        (by simp) (by rw [nextLine_markStart_charPos]; omega)
        (by rw [nextLine_markStart_charPos]; omega)
      rw [nextLine_markStart_charPos] at hj3
      refine ⟨j + 1, by simpa using hj1, by rw [hj2]; omega, ?_, ?_⟩
      · rw [lineStart_succ]; omega
      · rw [lineLength_succ]; exact hj4

/-- The loop finds the start when `offset` falls on a character of a line. -/
theorem findRange_start (offset length : Nat) :
    ∀ (rest : List JSString) (i : Nat) (st : RangeScan) (j : Nat), j < rest.length →
      st.charPos + lineStart rest j ≤ offset →
      offset < st.charPos + lineStart rest j + lineLength rest j →
      (findRange offset length rest i st).startLine = i + j ∧
        st.charPos + lineStart rest j + (findRange offset length rest i st).startChar = offset
  | [], _, _, _, h, _, _ => by simp at h
  | l :: rest, i, st, 0, _, h1, h2 => by
    rw [lineStart_zero] at h1 h2
    rw [lineLength_zero] at h2
    rw [findRange_cons, lineStart_zero]
    obtain ⟨hs1, hs2⟩ := markStart_hit offset i l.length st ⟨by omega, by omega⟩
    split
    · simp only [hs1, hs2]; omega
    · obtain ⟨hp1, hp2⟩ := findRange_start_passed offset length rest (i + 1)
        (nextLine l.length (markStart offset i l.length st))
        (by rw [nextLine_markStart_charPos]; omega)
      rw [hp1, hp2, (nextLine_fields _ _).1, (nextLine_fields _ _).2.1, hs1, hs2]
      omega
  | l :: rest, i, st, j + 1, hj, h1, h2 => by
    rw [lineStart_succ] at h1 h2
    rw [lineLength_succ] at h2
    rw [findRange_cons, if_neg (by omega)]
    obtain ⟨ih1, ih2⟩ := findRange_start offset length rest (i + 1)
      (nextLine l.length (markStart offset i l.length st)) j
      (by simpa using hj) (by rw [nextLine_markStart_charPos]; omega)
      (by rw [nextLine_markStart_charPos]; omega)
    rw [nextLine_markStart_charPos] at ih2
    rw [ih1, lineStart_succ]
    omega

/-- When `offset + length` is beyond the text, the loop never sets the end; the start is
left as it was or is the position of `offset` on a character of a line. -/
theorem findRange_no_end (offset length : Nat) :
    ∀ (rest : List JSString) (i : Nat) (st : RangeScan),
      (rest = [] ∨ st.charPos + (joinLines rest).length < offset + length) →
      (findRange offset length rest i st).endLine = st.endLine ∧
        (findRange offset length rest i st).endChar = st.endChar ∧
        (((findRange offset length rest i st).startLine = st.startLine ∧
            (findRange offset length rest i st).startChar = st.startChar) ∨
          ∃ j, j < rest.length ∧ (findRange offset length rest i st).startLine = i + j ∧
            st.charPos + lineStart rest j + (findRange offset length rest i st).startChar =
              offset ∧
            (findRange offset length rest i st).startChar < lineLength rest j)
  | [], _, _, _ => ⟨rfl, rfl, Or.inl ⟨rfl, rfl⟩⟩
  | l :: rest, i, st, h => by
    have hlen : st.charPos + l.length < offset + length := by
      rcases h with h | h
      · cases h
      · cases rest with
        | nil => simpa [joinLines] using h
        | cons l' rest' => rw [joinLines_length_cons_cons] at h; omega
    have hrest : rest = [] ∨
        st.charPos + l.length + 1 + (joinLines rest).length < offset + length := by
      rcases h with h | h
      · cases h
      · cases rest with
        | nil => exact Or.inl rfl
        | cons l' rest' => rw [joinLines_length_cons_cons] at h; right; omega
    rw [findRange_cons, if_neg (by omega)]
    obtain ⟨ih1, ih2, ih3⟩ := findRange_no_end offset length rest (i + 1)
      (nextLine l.length (markStart offset i l.length st))
      (by rw [nextLine_markStart_charPos]; exact hrest)
    rw [nextLine_markStart_charPos] at ih3
    rw [(nextLine_fields _ _).2.2.1, markStart_endLine] at ih1
    rw [(nextLine_fields _ _).2.2.2, markStart_endChar] at ih2
    rw [(nextLine_fields _ _).1, (nextLine_fields _ _).2.1] at ih3
    refine ⟨ih1, ih2, ?_⟩
    rcases ih3 with ⟨h1, h2⟩ | ⟨j, hj1, hj2, hj3, hj4⟩
    · by_cases hhit : st.charPos ≤ offset ∧ offset < st.charPos + l.length
      · obtain ⟨hs1, hs2⟩ := markStart_hit offset i l.length st hhit
        right
        refine ⟨0, by simp, by rw [h1, hs1]; rfl, ?_, ?_⟩
        · rw [h2, lineStart_zero, hs2]; omega
        · rw [h2, lineLength_zero, hs2]; omega
      · left
        rw [h1, h2, markStart_miss _ _ _ _ hhit]
        exact ⟨rfl, rfl⟩
    · right
      refine ⟨j + 1, by simpa using hj1, by rw [hj2]; omega, ?_, ?_⟩
      · rw [lineStart_succ]; omega
      · rw [lineLength_succ]; exact hj4

/-! ## `acceptSuggestion` with the editor on offer -/

theorem acceptSuggestion_eq (host : Host) (s : State) (e : ErrorData) (r errorId : JSString)
    (lines : List JSString) (h1 : host.editorReplaceRange = true)
    (h2 : host.editorGetRep = true) (h3 : host.editorCallWithAce = true)
    (h4 : host.aceReplaceRange = true) (hrep : host.rep = some lines) :
    acceptSuggestion host s e r errorId =
      ⟨acceptFinish s errorId,
       [⟨(findRange (acceptOffset e) (acceptLength e) lines 0 ⟨0, 0, 0, 0, 0⟩).startLine,
         (findRange (acceptOffset e) (acceptLength e) lines 0 ⟨0, 0, 0, 0, 0⟩).startChar,
         (findRange (acceptOffset e) (acceptLength e) lines 0 ⟨0, 0, 0, 0, 0⟩).endLine,
         (findRange (acceptOffset e) (acceptLength e) lines 0 ⟨0, 0, 0, 0, 0⟩).endChar, r⟩],
       false⟩ := by
  simp [acceptSuggestion, h1, h2, h3, h4, hrep]

theorem acceptFinish_registry (s : State) (errorId : JSString) :
    (acceptFinish s errorId).errorAttributes.entries = [] ∧
      (acceptFinish s errorId).lastCheckedTextHash = none ∧
      (acceptFinish s errorId).lastCheckedRevision = s.lastCheckedRevision ∧
      (acceptFinish s errorId).isChecking = s.isChecking := by
  cases hp : s.currentPopup <;>
    simp [acceptFinish, clearErrorHighlights, closePopup, hp, JSMap.empty]

/-- A run of `acceptSuggestion` that does not throw ends with `acceptFinish`. -/
theorem acceptSuggestion_state_of_ok (host : Host) (s : State) (e : ErrorData)
    (r errorId : JSString) (h : (acceptSuggestion host s e r errorId).threw = false) :
    (acceptSuggestion host s e r errorId).state = acceptFinish s errorId := by
  cases h1 : host.editorReplaceRange <;> cases h2 : host.editorGetRep <;>
    cases h3 : host.editorCallWithAce <;> cases h4 : host.rep <;>
    simp [acceptSuggestion, h1, h2, h3, h4] at h ⊢

theorem acceptOffset_eq (e : ErrorData) (h : e.matchData.offset = e.offset) :
    acceptOffset e = e.offset := by
  by_cases h0 : e.offset = 0 <;> simp [acceptOffset, jsOr, h, h0]

theorem acceptLength_eq (e : ErrorData) (h : e.matchData.length = e.length) :
    acceptLength e = e.length := by
  by_cases h0 : e.length = 0 <;> simp [acceptLength, jsOr, h, h0]

theorem acceptLength_pos (e : ErrorData) (h : 1 ≤ e.length) : acceptLength e = e.length := by
  have h0 : e.length ≠ 0 := by omega
  simp [acceptLength, jsOr, h0]

/-- The flat text ends one short of where a further line would start. -/
theorem joinLines_length_lineStart : ∀ (lines : List JSString), lines ≠ [] →
    (joinLines lines).length + 1 = lineStart lines lines.length
  | [], h => absurd rfl h
  | [l], _ => by simp [joinLines, lineStart]
  | l :: l' :: rest, _ => by
    rw [joinLines_length_cons_cons, List.length_cons, lineStart_succ,
      ← joinLines_length_lineStart (l' :: rest) (by simp)]
    omega

/-- When `offset` falls on a character of a line and `offset + length` is within the flat
text, `acceptSuggestion` asks for the replacement of exactly that range, and the editor's
text afterwards is the value `newText` of the source. -/
theorem acceptSuggestion_range_on_character (host : Host) (s : State) (e : ErrorData)
    (r errorId : JSString) (lines : List JSString) (i c : Nat)
    (h1 : host.editorReplaceRange = true) (h2 : host.editorGetRep = true)
    (h3 : host.editorCallWithAce = true) (h4 : host.aceReplaceRange = true)
    (hrep : host.rep = some lines)
    (hstart : IsPos lines (acceptOffset e) i c) (hchar : c < lineLength lines i)
    (hend : acceptOffset e + acceptLength e ≤ (joinLines lines).length) :
    ∃ j d, IsCaret lines (acceptOffset e + acceptLength e) j d ∧
      (acceptSuggestion host s e r errorId).replaced = [⟨i, c, j, d, r⟩] ∧
      replaceRangeText lines ⟨i, c, j, d, r⟩ =
        acceptNewText (joinLines lines) (acceptOffset e) (acceptLength e) r := by
  obtain ⟨hi, ho, _, _⟩ := hstart
  have hne : lines ≠ [] := by
    intro hc; subst hc; simp at hi
  obtain ⟨j, hj1, hj2, hj3, hj4⟩ := findRange_end (acceptOffset e) (acceptLength e) lines 0
    ⟨0, 0, 0, 0, 0⟩ hne (Nat.zero_le _) (by simpa using hend)
  obtain ⟨hs1, hs2⟩ := findRange_start (acceptOffset e) (acceptLength e) lines 0
    ⟨0, 0, 0, 0, 0⟩ i hi (by simp only; omega) (by simp only; omega)
  simp only [Nat.zero_add] at hj2 hj3 hs1 hs2
  have hsc : (findRange (acceptOffset e) (acceptLength e) lines 0 ⟨0, 0, 0, 0, 0⟩).startChar
      = c := by omega
  refine ⟨j, (findRange (acceptOffset e) (acceptLength e) lines 0 ⟨0, 0, 0, 0, 0⟩).endChar,
    ⟨hj1, hj3.symm, hj4⟩, ?_, ?_⟩
  · rw [acceptSuggestion_eq host s e r errorId lines h1 h2 h3 h4 hrep, hs1, hsc, hj2]
  · unfold replaceRangeText acceptNewText
    simp only
    rw [← ho, hj3]

/-! ## The result cache -/

theorem JSMap.setEntries_of_not_mem {β : Type} (l : List (JSString × β)) (k : JSString)
    (v : β) (h : ∀ x ∈ l, x.1 ≠ k) : JSMap.setEntries l k v = l ++ [(k, v)] := by
  induction l with
  | nil => rfl
  | cons hd tl ih =>
    obtain ⟨k₀, v₀⟩ := hd
    have h0 : k₀ ≠ k := h (k₀, v₀) (List.mem_cons_self _ _)
    simp [JSMap.setEntries, h0, ih (fun x hx => h x (List.mem_cons_of_mem _ hx))]

theorem JSMap.filter_ne_of_not_mem {β : Type} (l : List (JSString × β)) (k : JSString)
    (h : ∀ x ∈ l, x.1 ≠ k) : l.filter (fun e => decide (e.1 ≠ k)) = l := by
  rw [List.filter_eq_self]
  intro x hx
  simpa using h x hx

theorem JSMap.getEntries_filter_ne {β : Type} (l : List (JSString × β)) (k k' : JSString)
    (h : k' ≠ k) :
    JSMap.getEntries (l.filter (fun e => decide (e.1 ≠ k))) k' = JSMap.getEntries l k' := by
  induction l with
  | nil => rfl
  | cons hd tl ih =>
    obtain ⟨k₀, v₀⟩ := hd
    by_cases h0 : k₀ = k
    · subst h0
      have hne : k₀ ≠ k' := fun hc => h hc.symm
      rw [List.filter_cons_of_neg (by simp), ih]
      simp only [JSMap.getEntries, if_neg hne]
    · rw [List.filter_cons_of_pos (by simpa using h0)]
      simp only [JSMap.getEntries, ih]

theorem JSMap.getEntries_filter_self {β : Type} (l : List (JSString × β)) (k : JSString) :
    JSMap.getEntries (l.filter (fun e => decide (e.1 ≠ k))) k = none := by
  apply JSMap.getEntries_eq_none
  intro x hx
  simpa using (List.mem_filter.1 hx).2

theorem JSMap.getEntries_of_mem_nodup {β : Type} (l : List (JSString × β)) (k : JSString)
    (v : β) (hnd : (l.map Prod.fst).Nodup) (hmem : (k, v) ∈ l) :
    JSMap.getEntries l k = some v := by
  induction l with
  | nil => simp at hmem
  | cons hd tl ih =>
    obtain ⟨k₀, v₀⟩ := hd
    simp only [List.map_cons, List.nodup_cons] at hnd
    rcases List.mem_cons.1 hmem with h | h
    · cases h
      simp [JSMap.getEntries]
    · have hne : k₀ ≠ k := by
        intro hc
        subst hc
        exact hnd.1 (List.mem_map.2 ⟨(k₀, v), h, rfl⟩)
      simp [JSMap.getEntries, hne, ih hnd.2 h]

theorem runCacheOps_eq_cachePuts (ops : List CacheOp) :
    ∀ s : State, runCacheOps s ops = cachePuts s (putsOf ops) := by
  induction ops with
  | nil => intro s; rfl
  | cons op rest ih =>
    intro s
    cases op with
    | put f L now =>
      simp only [runCacheOps, List.foldl_cons, putsOf, cachePuts, runCacheOp]
      exact ih _
    | get f =>
      simp only [runCacheOps, List.foldl_cons, putsOf, runCacheOp]
      exact ih _

/-- The cache after `cacheResult` when it holds fewer than `MAX_CACHE_SIZE` entries. -/
theorem cacheResult_entries_of_lt (s : State) (f : JSString) (L : CheckResult) (now : Nat)
    (h : s.checkCache.entries.length < 10) :
    (cacheResult s f L now).checkCache.entries =
      JSMap.setEntries s.checkCache.entries f { result := L, timestamp := now } := by
  have : ¬ (s.checkCache.size ≥ MAX_CACHE_SIZE) := by
    simp only [JSMap.size, MAX_CACHE_SIZE]; omega
  simp only [cacheResult, this, if_false, JSMap.set]

/-- The cache after `cacheResult` when it holds `MAX_CACHE_SIZE` entries or more: the
entries under the oldest key go, then the new entry is set. -/
theorem cacheResult_entries_of_ge (s : State) (f : JSString) (L : CheckResult) (now : Nat)
    (k₀ : JSString) (v₀ : CacheEntry) (tl : List (JSString × CacheEntry))
    (he : s.checkCache.entries = (k₀, v₀) :: tl) (h : 10 ≤ s.checkCache.entries.length) :
    (cacheResult s f L now).checkCache.entries =
      JSMap.setEntries (tl.filter (fun e => decide (e.1 ≠ k₀))) f
        { result := L, timestamp := now } := by
  have hsz : s.checkCache.size ≥ MAX_CACHE_SIZE := by
    simp only [JSMap.size, MAX_CACHE_SIZE]; omega
  simp [cacheResult, hsz, JSMap.firstKey, he, JSMap.delete, JSMap.set, List.filter]

/-- Up to `MAX_CACHE_SIZE` entries with new keys are kept in the order of their calls. -/
theorem cachePuts_entries (puts : List (JSString × CheckResult × Nat)) :
    ∀ (s : State), ((s.checkCache.entries.map Prod.fst) ++ puts.map Prod.fst).Nodup →
      s.checkCache.entries.length + puts.length ≤ 10 →
      (cachePuts s puts).checkCache.entries = s.checkCache.entries ++ puts.map entryOfPut := by
  induction puts with
  | nil => intro s _ _; simp [cachePuts]
  | cons p rest ih =>
    intro s hnd hlen
    simp only [List.length_cons] at hlen
    have hstep : (cacheResult s p.1 p.2.1 p.2.2).checkCache.entries =
        s.checkCache.entries ++ [entryOfPut p] := by
      rw [cacheResult_entries_of_lt s _ _ _ (by omega)]
      apply JSMap.setEntries_of_not_mem
      intro x hx hc
      rw [List.nodup_append] at hnd
      exact hnd.2.2 (List.mem_map.2 ⟨x, hx, rfl⟩)
        (by rw [hc, List.map_cons]; exact List.mem_cons_self _ _)
    have := ih (cacheResult s p.1 p.2.1 p.2.2)
      (by
        rw [hstep]
        simpa [entryOfPut, List.map_append] using hnd)
      (by rw [hstep]; simp; omega)
    simp only [cachePuts, List.foldl_cons] at this ⊢
    rw [this, hstep]
    simp

theorem cachePuts_concat (s : State) (puts : List (JSString × CheckResult × Nat))
    (p : JSString × CheckResult × Nat) :
    cachePuts s (puts ++ [p]) = cacheResult (cachePuts s puts) p.1 p.2.1 p.2.2 := by
  simp [cachePuts, List.foldl_append]

/-- The cache after eleven calls of `cacheResult` with pairwise distinct keys, from an
empty cache: the entries of the last ten calls, in order. -/
theorem cachePuts_eleven (s : State) (p₁ : JSString × CheckResult × Nat)
    (rest : List (JSString × CheckResult × Nat)) (hempty : s.checkCache.entries = [])
    (hlen : rest.length = 10) (hnd : ((p₁ :: rest).map Prod.fst).Nodup) :
    (cachePuts s (p₁ :: rest)).checkCache.entries = rest.map entryOfPut := by
  rcases List.eq_nil_or_concat rest with h | ⟨init, last, h⟩
  · subst h; simp at hlen
  · rw [List.concat_eq_append] at h
    subst h
    simp only [List.length_append, List.length_singleton] at hlen
    have hnd' : (p₁.1 :: (init.map Prod.fst ++ [last.1])).Nodup := by
      simpa [List.map_append] using hnd
    have hnd1 : (p₁.1 :: init.map Prod.fst).Nodup := by
      rw [List.nodup_cons] at hnd' ⊢
      rw [List.nodup_append] at hnd'
      exact ⟨fun hc => hnd'.1 (List.mem_append_left _ hc), hnd'.2.1⟩
    have hten : (cachePuts s (p₁ :: init)).checkCache.entries =
        entryOfPut p₁ :: init.map entryOfPut := by
      rw [cachePuts_entries (p₁ :: init) s (by simpa [hempty] using hnd1)
        (by simp [hempty]; omega), hempty]
      simp
    have hstep := cachePuts_concat s (p₁ :: init) last
    rw [List.cons_append] at hstep
    rw [hstep, cacheResult_entries_of_ge _ _ _ _ p₁.1 _ (init.map entryOfPut) hten
      (by rw [hten]; simp; omega)]
    have hfilter : (init.map entryOfPut).filter (fun e => decide (e.1 ≠ p₁.1)) =
        init.map entryOfPut := by
      apply JSMap.filter_ne_of_not_mem
      intro x hx hc
      obtain ⟨q, hq, rfl⟩ := List.mem_map.1 hx
      rw [List.nodup_cons] at hnd1
      exact hnd1.1 (List.mem_map.2 ⟨q, hq, hc⟩)
    rw [hfilter, JSMap.setEntries_of_not_mem]
    · simp [entryOfPut]
    · intro x hx hc
      obtain ⟨q, hq, rfl⟩ := List.mem_map.1 hx
      rw [List.nodup_cons, List.nodup_append] at hnd'
      exact hnd'.2.2.2 (List.mem_map.2 ⟨q, hq, rfl⟩) (by simpa [entryOfPut] using hc)

/-! ## The debounce timer -/

theorem debounceCoherent_initial : DebounceCoherent initialState ⟨[], 0⟩ :=
  Or.inl ⟨rfl, rfl⟩

/-- After the cancel statement no timer is pending and `debounceTimer` is `null`. -/
theorem cancelDebounce_coherent (s : State) (t : Timers) (h : DebounceCoherent s t) :
    (cancelDebounce s t).1.debounceTimer = none ∧ (cancelDebounce s t).2.pending = [] ∧
      (cancelDebounce s t).2.lastId = t.lastId ∧
      (cancelDebounce s t).1.pluginConfig = s.pluginConfig ∧
      (cancelDebounce s t).1.isChecking = s.isChecking := by
  rcases h with ⟨h1, h2⟩ | ⟨id, delay, h1, h2⟩
  · simp [cancelDebounce, h1, h2]
  · simp [cancelDebounce, h1, h2, Timers.clearTimeout]

/-- One edit notification with automatic checking on and no check in progress leaves
exactly one timer pending: the new one. -/
theorem aceEditEvent_step (s : State) (t : Timers) (hauto : s.pluginConfig.autoCheck = true)
    (hidle : s.isChecking = false) (hco : DebounceCoherent s t) :
    (aceEditEvent s t).2.pending = [⟨t.lastId + 1, debounceDelayOf s⟩] ∧
      (aceEditEvent s t).1.debounceTimer = some (t.lastId + 1) ∧
      (aceEditEvent s t).2.lastId = t.lastId + 1 ∧
      (aceEditEvent s t).1.pluginConfig = s.pluginConfig ∧
      (aceEditEvent s t).1.isChecking = s.isChecking := by
  obtain ⟨h1, h2, h3, h4, h5⟩ := cancelDebounce_coherent s t hco
  simp [aceEditEvent, hauto, hidle, Timers.setTimeout, h2, h3, h4, h5, debounceDelayOf]

theorem aceEditEvent_coherent (s : State) (t : Timers) (hco : DebounceCoherent s t) :
    DebounceCoherent (aceEditEvent s t).1 (aceEditEvent s t).2 := by
  by_cases hauto : s.pluginConfig.autoCheck = true
  · by_cases hidle : s.isChecking = false
    · obtain ⟨h1, h2, _⟩ := aceEditEvent_step s t hauto hidle hco
      exact Or.inr ⟨t.lastId, _, h2, h1⟩
    · simp only [Bool.not_eq_false] at hidle
      simpa [aceEditEvent, hauto, hidle] using hco
  · simp only [Bool.not_eq_true] at hauto
    simpa [aceEditEvent, hauto] using hco

/-- A burst of `n + 1` edit notifications leaves exactly one timer pending: the last. -/
theorem aceEditEvents_succ (n : Nat) :
    ∀ (s : State) (t : Timers), s.pluginConfig.autoCheck = true → s.isChecking = false →
      DebounceCoherent s t →
      (aceEditEvents (n + 1) s t).2.pending = [⟨t.lastId + (n + 1), debounceDelayOf s⟩] ∧
        (aceEditEvents (n + 1) s t).1.debounceTimer = some (t.lastId + (n + 1)) := by
  induction n with
  | zero =>
    intro s t hauto hidle hco
    obtain ⟨h1, h2, _⟩ := aceEditEvent_step s t hauto hidle hco
    exact ⟨h1, h2⟩
  | succ n ih =>
    intro s t hauto hidle hco
    obtain ⟨_, _, h3, h4, h5⟩ := aceEditEvent_step s t hauto hidle hco
    have := ih (aceEditEvent s t).1 (aceEditEvent s t).2 (by rw [h4]; exact hauto)
      (by rw [h5]; exact hidle) (aceEditEvent_coherent s t hco)
    rw [h3] at this
    have hd : debounceDelayOf (aceEditEvent s t).1 = debounceDelayOf s := by
      simp only [debounceDelayOf, h4]
    rw [hd] at this
    have hidx : t.lastId + 1 + (n + 1) = t.lastId + (n + 1 + 1) := by omega
    rw [hidx] at this
    exact this

/-! ## Runs of `performCheck` -/

theorem performCheckFail_state (s : State) (force : Bool) (message : JSString)
    (ending : Ending) :
    (performCheckFail s force message ending).state.isChecking = false ∧
      (performCheckFail s force message ending).state.errorAttributes = s.errorAttributes ∧
      (performCheckFail s force message ending).state.currentMatches = [] ∧
      (performCheckFail s force message ending).ending = ending ∧
      ∀ c, Effect.applyAttribute c ∉ (performCheckFail s force message ending).effects := by
  cases force <;> simp [performCheckFail]

/-- Whatever the response and the state it arrives in, `isChecking` is false after it. -/
theorem performCheckResume_isChecking (host : Host) (s : State) (p : PendingCheck)
    (response : Response) (now : Nat) :
    (performCheckResume host s p response now).state.isChecking = false := by
  cases response with
  | networkError message => exact (performCheckFail_state _ _ _ _).1
  | notOk status code message => exact (performCheckFail_state _ _ _ _).1
  | invalidJson message => exact (performCheckFail_state _ _ _ _).1
  | invalidResult => exact (performCheckFail_state _ _ _ _).1
  | ok result => rfl

/-- A response that is not a result object leaves the registry as it is, empties the
current matches and renders nothing. -/
theorem performCheckResume_failure (host : Host) (s : State) (p : PendingCheck)
    (response : Response) (now : Nat)
    (h : (performCheckResume host s p response now).ending ≠ Ending.success) :
    (performCheckResume host s p response now).state.errorAttributes = s.errorAttributes ∧
      (performCheckResume host s p response now).state.currentMatches = [] ∧
      ∀ c, Effect.applyAttribute c ∉ (performCheckResume host s p response now).effects := by
  cases response with
  | networkError message =>
    exact ⟨(performCheckFail_state _ _ _ _).2.1, (performCheckFail_state _ _ _ _).2.2.1,
      (performCheckFail_state _ _ _ _).2.2.2.2⟩
  | notOk status code message =>
    exact ⟨(performCheckFail_state _ _ _ _).2.1, (performCheckFail_state _ _ _ _).2.2.1,
      (performCheckFail_state _ _ _ _).2.2.2.2⟩
  | invalidJson message =>
    exact ⟨(performCheckFail_state _ _ _ _).2.1, (performCheckFail_state _ _ _ _).2.2.1,
      (performCheckFail_state _ _ _ _).2.2.2.2⟩
  | invalidResult =>
    exact ⟨(performCheckFail_state _ _ _ _).2.1, (performCheckFail_state _ _ _ _).2.2.1,
      (performCheckFail_state _ _ _ _).2.2.2.2⟩
  | ok result => exact absurd rfl h

theorem performCheckResume_ending_ne_begin (host : Host) (s : State) (p : PendingCheck)
    (response : Response) (now : Nat) :
    (performCheckResume host s p response now).ending ≠ Ending.refused ∧
      (performCheckResume host s p response now).ending ≠ Ending.unchanged ∧
      (performCheckResume host s p response now).ending ≠ Ending.blank ∧
      (performCheckResume host s p response now).ending ≠ Ending.cacheHit := by
  cases response <;> simp [performCheckResume, performCheckFail]

/-- The registry and the calls `applyErrorHighlights` makes do not depend on the state
it starts from, nor on its parameter `text`. -/
theorem applyErrorHighlights_fresh (host : Host) (s s' : State) (matchList : List Match)
    (text text' : JSString) :
    (applyErrorHighlights host s matchList text).1.errorAttributes =
      (applyErrorHighlights host s' matchList text').1.errorAttributes ∧
    (applyErrorHighlights host s matchList text).2 =
      (applyErrorHighlights host s' matchList text').2 := by
  unfold applyErrorHighlights
  simp only
  split
  · exact ⟨rfl, rfl⟩
  · split
    · exact ⟨rfl, rfl⟩
    · split
      · exact ⟨rfl, rfl⟩
      · exact ⟨rfl, rfl⟩

/-- What the synchronous part of `performCheck` leaves, by the way it ends. -/
theorem performCheckBegin_spec (host : Host) (s : State) (t : Timers) (force : Bool) :
    (∀ e, (performCheckBegin host s t force).phase = Phase.ended e →
      (e = Ending.refused ∧ s.isChecking = true ∧ force = false ∧
        (performCheckBegin host s t force).state = s) ∨
      (e ≠ Ending.refused ∧ e ≠ Ending.success ∧ e ≠ Ending.notOk ∧
        e ≠ Ending.invalidResponse ∧ e ≠ Ending.thrown ∧
        (performCheckBegin host s t force).state.isChecking = false)) ∧
    (∀ p, (performCheckBegin host s t force).phase = Phase.awaiting p →
      p = ⟨force, getPadText host, hashText (getPadText host)⟩ ∧
      isBlank (getPadText host) = false ∧
      (performCheckBegin host s t force).state.errorAttributes.entries = [] ∧
      (performCheckBegin host s t force).state.currentMatches = [] ∧
      (performCheckBegin host s t force).state.lastCheckedTextHash =
        some (hashText (getPadText host)) ∧
      (force = true → (performCheckBegin host s t force).state.checkCache.entries = []) ∧
      (performCheckBegin host s t force).effects =
        [Effect.fetch (getPadText host) (strOr s.pluginConfig.defaultLanguage "en".toList)
          host.padId]) := by
  unfold performCheckBegin
  split
  · next h1 =>
    simp only [Bool.and_eq_true, Bool.not_eq_true'] at h1
    simp [h1.1, h1.2]
  · simp only
    split
    · simp
    · split
      · simp
      · next h3 =>
        split
        · simp
        · cases force <;>
            simp [trackChecked, clearErrorHighlights, closePopup, JSMap.empty] at h3 ⊢ <;>
            first
              | exact h3
              | (split <;> simp [h3])

/-- The fields of the module state `applyErrorHighlights` does not write. -/
theorem applyErrorHighlights_frame (host : Host) (s : State) (matchList : List Match)
    (text : JSString) :
    (applyErrorHighlights host s matchList text).1.checkCache = s.checkCache ∧
      (applyErrorHighlights host s matchList text).1.currentMatches = s.currentMatches ∧
      (applyErrorHighlights host s matchList text).1.lastCheckedTextHash =
        s.lastCheckedTextHash := by
  unfold applyErrorHighlights
  simp only
  cases hp : s.currentPopup <;> (repeat' split) <;>
    simp [clearErrorHighlights, closePopup, hp]

theorem storeResult_fields (host : Host) (s : State) (p : PendingCheck)
    (result : CheckResult) (now : Nat) :
    (storeResult host s p result now).currentMatches = result.matchList.getD [] ∧
    (storeResult host s p result now).checkCache =
      (if some (hashText (getPadText host)) ≠ s.lastCheckedTextHash then
        (cacheResult s p.textHash result now).checkCache.delete p.textHash
       else (cacheResult s p.textHash result now).checkCache) := by
  unfold storeResult
  simp only
  have hlh : (cacheResult { s with currentMatches := result.matchList.getD [] } p.textHash
      result now).lastCheckedTextHash = s.lastCheckedTextHash := rfl
  have hcc : (cacheResult { s with currentMatches := result.matchList.getD [] } p.textHash
      result now).checkCache = (cacheResult s p.textHash result now).checkCache := rfl
  rw [hlh]
  split
  · exact ⟨rfl, by rw [← hcc]⟩
  · exact ⟨rfl, hcc⟩

/-- The successful end of `performCheck`, field by field. -/
theorem performCheckResume_ok (host : Host) (s : State) (p : PendingCheck)
    (result : CheckResult) (now : Nat) :
    (performCheckResume host s p (Response.ok result) now).ending = Ending.success ∧
    (performCheckResume host s p (Response.ok result) now).state.currentMatches =
      result.matchList.getD [] ∧
    (performCheckResume host s p (Response.ok result) now).state.errorAttributes =
      (applyErrorHighlights host initialState (result.matchList.getD [])
        p.padText).1.errorAttributes ∧
    (performCheckResume host s p (Response.ok result) now).effects =
      (if p.force then
        [Effect.successMessage (foundMessage (result.matchList.getD []).length)]
       else []) ++
      (applyErrorHighlights host initialState (result.matchList.getD [])
        p.padText).2.map Effect.applyAttribute ++
      (if p.force then [Effect.buttonState ButtonState.success] else []) ∧
    (performCheckResume host s p (Response.ok result) now).state.checkCache =
      (if some (hashText (getPadText host)) ≠ s.lastCheckedTextHash then
        (cacheResult s p.textHash result now).checkCache.delete p.textHash
       else (cacheResult s p.textHash result now).checkCache) := by
  have hcm := (storeResult_fields host s p result now).1
  refine ⟨rfl, ?_, ?_, ?_, ?_⟩
  · simp only [performCheckResume]
    rw [(applyErrorHighlights_frame _ _ _ _).2.1, hcm]
  · simp only [performCheckResume]
    rw [hcm]
    exact (applyErrorHighlights_fresh host _ initialState _ _ _).1
  · simp only [performCheckResume]
    rw [hcm, (applyErrorHighlights_fresh host _ initialState _ p.padText p.padText).2]
  · simp only [performCheckResume]
    rw [(applyErrorHighlights_frame _ _ _ _).1]
    exact (storeResult_fields host s p result now).2

/-- A forced call with text that is not blank always reaches the `fetch`. -/
theorem performCheckBegin_forced (host : Host) (s : State) (t : Timers)
    (hblank : isBlank (getPadText host) = false) :
    (performCheckBegin host s t true).phase =
      Phase.awaiting ⟨true, getPadText host, hashText (getPadText host)⟩ := by
  simp [performCheckBegin, hblank]

theorem performCheckBegin_refused_iff (host : Host) (s : State) (t : Timers) (force : Bool) :
    (performCheckBegin host s t force).phase = Phase.ended Ending.refused ↔
      (s.isChecking = true ∧ force = false) := by
  constructor
  · intro h
    rcases (performCheckBegin_spec host s t force).1 _ h with ⟨_, h1, h2, _⟩ | ⟨h1, _⟩
    · exact ⟨h1, h2⟩
    · exact absurd rfl h1
  · rintro ⟨h1, h2⟩
    simp [performCheckBegin, h1, h2]

theorem hasContentChanged_false_iff (host : Host) (s : State) (text : JSString) :
    hasContentChanged host s text = false ↔
      s.lastCheckedTextHash = some (hashText text) ∧
        ∀ a b, getCurrentRevision host = some a → s.lastCheckedRevision = some b → a = b := by
  unfold hasContentChanged
  cases hh : s.lastCheckedTextHash with
  | none => simp
  | some last =>
    by_cases hne : hashText text = last
    · subst hne
      cases hc : getCurrentRevision host <;> cases hl : s.lastCheckedRevision <;> simp
    · simp only [ne_eq, hne, not_false_eq_true, if_true, Option.some.injEq]
      constructor
      · intro h; cases h
      · intro h; exact absurd h.1.symm hne

/-- The two descriptions of `scheduleCheck` agree on whether a check is started. -/
theorem scheduleCheck_isSome (host : Host) (s : State) (t : Timers) :
    (scheduleCheck host s t).isSome = scheduleCheckStarts host s := by
  unfold scheduleCheck scheduleCheckStarts
  cases s.isChecking <;> cases hasContentChanged host s (getPadText host) <;> rfl

/-- The synchronous part of `performCheck` keeps the debounce timer and the timer table
in agreement. -/
theorem cancelDebounce_keeps_coherent (s : State) (t : Timers) (h : DebounceCoherent s t) :
    DebounceCoherent (cancelDebounce s t).1 (cancelDebounce s t).2 := by
  obtain ⟨h1, h2, _⟩ := cancelDebounce_coherent s t h
  exact Or.inl ⟨h1, h2⟩

/-! ## The hash of a text -/

theorem toInt32_eq_wrap32 (x : Int) : toInt32 x = wrap32 x := by
  unfold toInt32 wrap32
  split <;> omega

theorem toInt32_range (x : Int) : -2147483648 ≤ toInt32 x ∧ toInt32 x ≤ 2147483647 := by
  unfold toInt32
  omega

theorem toInt32_of_range (x : Int) (h1 : -2147483648 ≤ x) (h2 : x ≤ 2147483647) :
    toInt32 x = x := by
  unfold toInt32
  omega

theorem toInt32_congr (a b : Int) (h : a % 4294967296 = b % 4294967296) :
    toInt32 a = toInt32 b := by
  unfold toInt32
  omega

theorem toInt32_emod (x : Int) : toInt32 x % 4294967296 = x % 4294967296 := by
  unfold toInt32
  omega

/-- One round of the loop is `wrap32 (31 * hash + char)`. -/
theorem hashStep_eq (hash : Int) (char : Nat) :
    hashStep hash char = toInt32 (31 * hash + (char : Int)) := by
  unfold hashStep
  apply toInt32_congr
  unfold toInt32
  omega

theorem hashValue_concat (codeUnits : List Nat) (c : Nat) :
    hashValue (codeUnits ++ [c]) = hashStep (hashValue codeUnits) c := by
  simp [hashValue, List.foldl_append]

/-- The loop from any start value, modulo `2^32`. -/
theorem hashFold_modEq (codeUnits : List Nat) :
    ∀ h : Int, (codeUnits.foldl hashStep h) % 4294967296 =
      (h * 31 ^ codeUnits.length + polyHash codeUnits) % 4294967296 := by
  induction codeUnits with
  | nil => intro h; simp [polyHash]
  | cons c cs ih =>
    intro h
    simp only [List.foldl_cons, List.length_cons, polyHash]
    rw [ih (hashStep h c)]
    have hstep : hashStep h c % 4294967296 = (31 * h + (c : Int)) % 4294967296 := by
      rw [hashStep_eq]; exact toInt32_emod _
    have e1 : (hashStep h c * 31 ^ cs.length + polyHash cs) % 4294967296 =
        ((31 * h + (c : Int)) * 31 ^ cs.length + polyHash cs) % 4294967296 := by
      rw [Int.add_emod, Int.mul_emod, hstep, ← Int.mul_emod, ← Int.add_emod]
    rw [e1]
    congr 1
    ring

theorem hashFold_range (codeUnits : List Nat) :
    ∀ h : Int, -2147483648 ≤ h → h ≤ 2147483647 →
      -2147483648 ≤ codeUnits.foldl hashStep h ∧
        codeUnits.foldl hashStep h ≤ 2147483647 := by
  induction codeUnits with
  | nil => intro h h1 h2; exact ⟨h1, h2⟩
  | cons c cs ih =>
    intro h _ _
    simp only [List.foldl_cons]
    have := toInt32_range ((toInt32 (h * 32) - h) + (c : Int))
    exact ih _ this.1 this.2

theorem hashValue_range (codeUnits : List Nat) :
    -2147483648 ≤ hashValue codeUnits ∧ hashValue codeUnits ≤ 2147483647 :=
  hashFold_range codeUnits 0 (by decide) (by decide)

/-- The value of the hash is the wrapped polynomial in 31. -/
theorem hashValue_eq (codeUnits : List Nat) :
    hashValue codeUnits = toInt32 (polyHash codeUnits) := by
  have hr := hashValue_range codeUnits
  rw [← toInt32_of_range (hashValue codeUnits) hr.1 hr.2]
  apply toInt32_congr
  have := hashFold_modEq codeUnits 0
  simpa [hashValue] using this

theorem hashCodeUnits_eq (codeUnits : List Nat) :
    hashCodeUnits codeUnits = intToString (hashValue codeUnits) := by
  unfold hashCodeUnits
  split
  · next h =>
    have : codeUnits = [] := List.length_eq_zero.1 h
    subst this
    rfl
  · rfl

theorem hashText_eq (text : JSString) :
    hashText text = intToString (hashValue (charCodes text)) :=
  hashCodeUnits_eq (charCodes text)

/-! ## The registry as a whole -/

theorem keptEntries_keys (table : List LineCharEntry) :
    ∀ (ms : List Match) (i : Nat) (x : JSString × ErrorData), x ∈ keptEntries table i ms →
      ∃ j m sp ep, ms[j]? = some m ∧ matchPositions table m = (some sp, some ep) ∧
        x = (errorId (i + j) m.offset m.length, recordOf m sp ep)
  | [], _, _, h => by simp [keptEntries] at h
  | m :: rest, i, x, h => by
    unfold keptEntries at h
    rcases List.mem_append.1 h with h | h
    · split at h
      · next sp ep hpos =>
        simp only [List.mem_singleton] at h
        exact ⟨0, m, sp, ep, by simp, hpos, h⟩
      · simp at h
    · obtain ⟨j, m', sp, ep, h1, h2, h3⟩ := keptEntries_keys table rest (i + 1) x h
      refine ⟨j + 1, m', sp, ep, by simpa using h1, h2, ?_⟩
      rw [h3]; congr 2; omega

/-- The keys of the kept entries are pairwise distinct. -/
theorem keptEntries_nodup (table : List LineCharEntry) :
    ∀ (ms : List Match) (i : Nat), ((keptEntries table i ms).map Prod.fst).Nodup
  | [], _ => by simp [keptEntries]
  | m :: rest, i => by
    unfold keptEntries
    rw [List.map_append, List.nodup_append]
    refine ⟨?_, keptEntries_nodup table rest (i + 1), ?_⟩
    · split <;> simp
    · intro k hk hk'
      obtain ⟨x, hx, rfl⟩ := List.mem_map.1 hk'
      obtain ⟨j, m', sp, ep, _, _, h3⟩ := keptEntries_keys table rest (i + 1) x hx
      split at hk
      · simp only [List.map_cons, List.map_nil, List.mem_singleton] at hk
        rw [h3] at hk
        have := (errorId_injective _ _ _ _ _ _ hk).1
        omega
      · simp at hk

/-- The loop appends the kept entries, when no key already there can come up again. -/
theorem applyMatches_entries_eq (host : Host) (table : List LineCharEntry) :
    ∀ (ms : List Match) (i : Nat) (acc : JSMap ErrorData × List AttributeCall),
      (∀ x ∈ acc.1.entries, ∀ j o l, i ≤ j → x.1 ≠ errorId j o l) →
      (applyMatches host table i ms acc).1.entries = acc.1.entries ++ keptEntries table i ms
  | [], _, _, _ => by simp [applyMatches, keptEntries]
  | m :: rest, i, acc, h => by
    unfold applyMatches keptEntries
    have hstep : (applyMatch host table acc i m).1.entries = acc.1.entries ++
        (match matchPositions table m with
          | (some startPos, some endPos) =>
            [(errorId i m.offset m.length, recordOf m startPos endPos)]
          | _ => []) := by
      unfold applyMatch
      split
      · next sp ep hpos =>
        simp only [JSMap.set]
        rw [JSMap.setEntries_of_not_mem _ _ _ (fun x hx => h x hx i _ _ (Nat.le_refl _))]
        rfl
      · simp
    rw [applyMatches_entries_eq host table rest (i + 1) _ ?_, hstep, List.append_assoc]
    intro x hx j o l hj
    rw [hstep] at hx
    rcases List.mem_append.1 hx with hx | hx
    · exact h x hx j o l (by omega)
    · split at hx
      · simp only [List.mem_singleton] at hx
        rw [hx]
        intro hc
        have := (errorId_injective _ _ _ _ _ _ hc).1
        omega
      · simp at hx

/-- The registry after `applyErrorHighlights`: the kept entries and nothing else. -/
theorem applyErrorHighlights_entries_eq (host : Host) (s : State) (matchList : List Match)
    (text : JSString) (lines : List JSString) (hace : host.aceGetRep = true)
    (hrep : host.rep = some lines) :
    (applyErrorHighlights host s matchList text).1.errorAttributes.entries =
      keptEntries (buildLineCharMap lines) 0 matchList := by
  unfold applyErrorHighlights
  simp only [hace, hrep, Bool.not_true, Bool.false_eq_true, if_false]
  split
  · next h =>
    have : matchList = [] := List.length_eq_zero.1 h
    subst this
    simp [clearErrorHighlights, JSMap.empty, keptEntries]
  · simp only
    rw [applyMatches_entries_eq host _ matchList 0 _ (by
      intro x hx
      simp [clearErrorHighlights, JSMap.empty] at hx)]
    simp [clearErrorHighlights, JSMap.empty]

theorem keptEntries_length (table : List LineCharEntry) :
    ∀ (ms : List Match) (i : Nat), (keptEntries table i ms).length =
      ms.countP (fun m => decide (m.offset < table.length ∧ 1 ≤ m.offset + m.length))
  | [], _ => by simp [keptEntries]
  | m :: rest, i => by
    unfold keptEntries
    rw [List.length_append, keptEntries_length table rest (i + 1), List.countP_cons]
    by_cases hk : m.offset < table.length ∧ 1 ≤ m.offset + m.length
    · obtain ⟨sp, ep, hpos⟩ := matchPositions_of_lt table m hk.1 hk.2
      rw [hpos]
      simp [hk]
      omega
    · have : ∀ sp ep, matchPositions table m ≠ (some sp, some ep) := by
        intro sp ep hpos
        obtain ⟨_, h1, h2, _⟩ := matchPositions_some _ _ _ _ hpos
        exact hk ⟨h1, h2⟩
      split
      · next sp ep hpos => exact absurd hpos (this sp ep)
      · simp [hk]

/-! ## The error codes of the check endpoint -/

theorem digitChar_mem_digits : ∀ d, d < 10 →
    Nat.digitChar d ∈ ['0', '1', '2', '3', '4', '5', '6', '7', '8', '9'] := by decide

theorem decimalDigits_mem_digits :
    ∀ (fuel n : Nat) (c : Char), c ∈ decimalDigits fuel n →
      c ∈ ['0', '1', '2', '3', '4', '5', '6', '7', '8', '9']
  | 0, _, _, h => by simp [decimalDigits] at h
  | fuel + 1, n, c, h => by
    unfold decimalDigits at h
    split at h
    · next hn =>
      rw [List.mem_singleton] at h
      rw [h]
      exact digitChar_mem_digits n hn
    · rcases List.mem_append.1 h with h | h
      · exact decimalDigits_mem_digits fuel (n / 10) c h
      · rw [List.mem_singleton] at h
        rw [h]
        exact digitChar_mem_digits (n % 10) (Nat.mod_lt _ (by decide))

/-- A text without the first character of a string does not include the string. -/
theorem includes_false_of_head_not_mem (k : Char) (ks : JSString) :
    ∀ l : JSString, k ∉ l → includes l (k :: ks) = false
  | [], _ => by simp [includes, startsWith]
  | c :: cs, h => by
    have hc : c ≠ k := fun hc => h (by simp [hc])
    have ih := includes_false_of_head_not_mem k ks cs (fun hm => h (List.mem_cons_of_mem _ hm))
    simp [includes, startsWith, hc, ih]

/-- The decimal rendering of a number followed by a closing bracket includes no string
that begins with a letter. -/
theorem includes_number_false (n : Nat) (k : Char) (ks : JSString)
    (hk : k ∉ ['0', '1', '2', '3', '4', '5', '6', '7', '8', '9', ')']) :
    includes (numberToString n ++ [')']) (k :: ks) = false := by
  apply includes_false_of_head_not_mem
  intro hmem
  rcases List.mem_append.1 hmem with h | h
  · have := decimalDigits_mem_digits _ _ _ h
    exact hk (List.mem_append_left [')'] this)
  · exact hk (List.mem_append_right ['0', '1', '2', '3', '4', '5', '6', '7', '8', '9'] h)

/-- The answer to a response with status 400 whose body has none of the words the
endpoint tests before `Bad request`. -/
theorem checkEndpoint_badRequest (data : JSString)
    (h1 : includes data "timeout".toList = false)
    (h2 : includes data "Connection refused".toList = false)
    (h3 : includes data "Host not found".toList = false)
    (h4 : includes data "Rate limit".toList = false) :
    checkEndpointFailure (UpstreamFailure.status 400 data) =
      some ⟨400, "Failed to check text".toList, "BAD_REQUEST".toList,
        "LanguageTool API: Bad request - ".toList ++ data⟩ := by
  have e1 : includes ("LanguageTool API: Bad request - ".toList ++ data) "timeout".toList =
      false := by simpa [includes, startsWith] using h1
  have e2 : includes ("LanguageTool API: Bad request - ".toList ++ data)
      "Connection refused".toList = false := by simpa [includes, startsWith] using h2
  have e3 : includes ("LanguageTool API: Bad request - ".toList ++ data)
      "Host not found".toList = false := by simpa [includes, startsWith] using h3
  have e4 : includes ("LanguageTool API: Bad request - ".toList ++ data)
      "Rate limit".toList = false := by simpa [includes, startsWith] using h4
  have e5 : includes ("LanguageTool API: Bad request - ".toList ++ data)
      "Bad request".toList = true := by simp [includes, startsWith]
  have hmsg : checkTextRejection (UpstreamFailure.status 400 data) =
      some ("LanguageTool API: Bad request - ".toList ++ data) := by
    simp [checkTextRejection]
  simp only [checkEndpointFailure, hmsg, checkEndpointError, Option.map_some',
    e1, e2, e3, e4, e5, Bool.or_self, Bool.false_eq_true, if_false, if_true]

/-- The answer to a host-not-found failure whose host name does not include `timeout`. -/
theorem checkEndpoint_hostNotFound (hostname : JSString)
    (h1 : includes hostname "timeout".toList = false) :
    checkEndpointFailure (UpstreamFailure.hostNotFound hostname) =
      some ⟨503, "Failed to check text".toList, "SERVICE_UNAVAILABLE".toList,
        "LanguageTool API: Host not found - ".toList ++ hostname⟩ := by
  have e1 : includes ("LanguageTool API: Host not found - ".toList ++ hostname)
      "timeout".toList = false := by simpa [includes, startsWith] using h1
  have e2 : includes ("LanguageTool API: Host not found - ".toList ++ hostname)
      "Host not found".toList = true := by simp [includes, startsWith]
  simp only [checkEndpointFailure, checkTextRejection, checkEndpointError, Option.map_some',
    e1, e2, Bool.or_true, Bool.false_eq_true, if_false, if_true]

/-- The answer to a timeout, whatever the time limit. -/
theorem checkEndpoint_timeout (ms : Nat) :
    checkEndpointFailure (UpstreamFailure.timeout ms) =
      some ⟨504, "Failed to check text".toList, "TIMEOUT".toList,
        "LanguageTool API request timeout after ".toList ++ numberToString ms ++
          "ms".toList⟩ := by
  have e1 : includes ("LanguageTool API request timeout after ".toList ++ numberToString ms ++
      "ms".toList) "timeout".toList = true := by simp [includes, startsWith]
  simp only [checkEndpointFailure, checkTextRejection, checkEndpointError, Option.map_some',
    e1, if_true]

/-- The answer to a response with a status of 500 or more. -/
theorem checkEndpoint_serverError (statusCode : Nat) (data : JSString)
    (h : 500 ≤ statusCode) :
    checkEndpointFailure (UpstreamFailure.status statusCode data) =
      some ⟨500, "Failed to check text".toList, "UNKNOWN_ERROR".toList,
        "LanguageTool API: Server error (".toList ++ numberToString statusCode ++
          ")".toList⟩ := by
  have hclose : ")".toList = [')'] := rfl
  have n1 := includes_number_false statusCode 't' "imeout".toList (by decide)
  have n2 := includes_number_false statusCode 'C' "onnection refused".toList (by decide)
  have n3 := includes_number_false statusCode 'H' "ost not found".toList (by decide)
  have n4 := includes_number_false statusCode 'R' "ate limit".toList (by decide)
  have n5 := includes_number_false statusCode 'B' "ad request".toList (by decide)
  have e1 : includes ("LanguageTool API: Server error (".toList ++ numberToString statusCode ++
      ")".toList) "timeout".toList = false := by
    rw [hclose, List.append_assoc]; simpa [includes, startsWith] using n1
  have e2 : includes ("LanguageTool API: Server error (".toList ++ numberToString statusCode ++
      ")".toList) "Connection refused".toList = false := by
    rw [hclose, List.append_assoc]; simpa [includes, startsWith] using n2
  have e3 : includes ("LanguageTool API: Server error (".toList ++ numberToString statusCode ++
      ")".toList) "Host not found".toList = false := by
    rw [hclose, List.append_assoc]; simpa [includes, startsWith] using n3
  have e4 : includes ("LanguageTool API: Server error (".toList ++ numberToString statusCode ++
      ")".toList) "Rate limit".toList = false := by
    rw [hclose, List.append_assoc]; simpa [includes, startsWith] using n4
  have e5 : includes ("LanguageTool API: Server error (".toList ++ numberToString statusCode ++
      ")".toList) "Bad request".toList = false := by
    rw [hclose, List.append_assoc]; simpa [includes, startsWith] using n5
  have c1 : ¬ statusCode = 200 := by omega
  have c2 : ¬ statusCode = 400 := by omega
  have c3 : ¬ statusCode = 413 := by omega
  have c4 : ¬ statusCode = 429 := by omega
  have c5 : statusCode ≥ 500 := h
  simp only [checkEndpointFailure, checkTextRejection, checkEndpointError, Option.map_some',
    c1, c2, c3, c4, c5, e1, e2, e3, e4, e5, Bool.or_self, Bool.false_eq_true, if_false,
    if_true]

/-! ## Order of positions, and the hash after a failed check -/

/-- Positions follow the order of the flat offsets. -/
theorem IsPos_mono (lines : List JSString) (o o' i c i' c' : Nat)
    (h : IsPos lines o i c) (h' : IsPos lines o' i' c') (hle : o ≤ o') :
    i < i' ∨ (i = i' ∧ c ≤ c') := by
  obtain ⟨h1, h2, h3, _⟩ := h
  obtain ⟨h1', h2', h3', _⟩ := h'
  rcases Nat.lt_trichotomy i i' with hlt | heq | hgt
  · exact Or.inl hlt
  · subst heq
    exact Or.inr ⟨rfl, by omega⟩
  · have := lineStart_lt lines i' i c' hgt h1 h3'
    omega

theorem performCheckFail_hash (s : State) (force : Bool) (message : JSString)
    (ending : Ending) :
    (performCheckFail s force message ending).state.lastCheckedTextHash =
        s.lastCheckedTextHash ∧
      (performCheckFail s force message ending).state.lastCheckedRevision =
        s.lastCheckedRevision := by
  cases force <;> simp [performCheckFail]

/-- After a run of `performCheck` whose remote call fails, `lastCheckedTextHash` is the
hash of the text that was sent. -/
theorem performCheck_failure_keeps_hash (host : Host) (s : State) (t : Timers) (force : Bool)
    (response : Response) (now : Nat) (hostAfter : Host)
    (h : (performCheck host s t force response now hostAfter).ending ∈
      [Ending.notOk, Ending.invalidResponse, Ending.thrown]) :
    (performCheck host s t force response now hostAfter).state.lastCheckedTextHash =
      some (hashText (getPadText host)) := by
  unfold performCheck at h ⊢
  simp only at h ⊢
  cases hph : (performCheckBegin host s t force).phase with
  | ended e =>
    rw [hph] at h
    simp only at h
    rcases (performCheckBegin_spec host s t force).1 e hph with
      ⟨h1, _⟩ | ⟨_, _, h3, h4, h5, _⟩
    · subst h1; simp at h
    · simp only [List.mem_cons, List.mem_singleton, List.not_mem_nil, or_false] at h
      rcases h with h | h | h
      · exact absurd h h3
      · exact absurd h h4
      · exact absurd h h5
  | awaiting p =>
    rw [hph] at h
    simp only at h ⊢
    obtain ⟨_, _, _, _, hhash, _, _⟩ := (performCheckBegin_spec host s t force).2 p hph
    cases response with
    | networkError message =>
      exact ((performCheckFail_hash _ _ _ _).1).trans hhash
    | notOk status code message =>
      exact ((performCheckFail_hash _ _ _ _).1).trans hhash
    | invalidJson message =>
      exact ((performCheckFail_hash _ _ _ _).1).trans hhash
    | invalidResult =>
      exact ((performCheckFail_hash _ _ _ _).1).trans hhash
    | ok result =>
      exfalso
      simp [performCheckResume] at h

/-! ## Claims -/

set_option maxRecDepth 100000

/-- C1: every record that `applyErrorHighlights` stores in `errorAttributes` lies within
the document the editor shows: its start and end line are below the number of lines, and
its start and end column are at most the length of the start and the end line. -/
theorem applyErrorHighlights_records_in_bounds (host : Host) (s : State)
    (matchList : List Match) (text : JSString) (key : JSString) (e : ErrorData)
    (h : (key, e) ∈ (applyErrorHighlights host s matchList text).1.errorAttributes.entries) :
    ∃ lines, host.rep = some lines ∧
      0 ≤ e.startLine ∧ e.startLine < lines.length ∧
      0 ≤ e.endLine ∧ e.endLine < lines.length ∧
      0 ≤ e.startChar ∧ e.startChar ≤ lineLength lines e.startLine ∧
      0 ≤ e.endChar ∧ e.endChar ≤ lineLength lines e.endLine := by
  obtain ⟨lines, j, m, sp, ep, hrep, _, hpos, hx⟩ :=
    applyErrorHighlights_entries host s matchList text _ h
  obtain ⟨hs, _, _, he⟩ := matchPositions_some _ _ _ _ hpos
  obtain ⟨a, ha1, ha2, _, ha4, _⟩ := buildLineCharMap_entry lines _ _ hs
  obtain ⟨b, hb1, hb2, _, hb4, _⟩ := buildLineCharMap_entry lines _ _ he
  have he' : e = recordOf m sp ep := (Prod.mk.inj hx).2
  subst he'
  have ha : sp.lineIndex = a := by omega
  have hb : ep.lineIndex = b := by omega
  refine ⟨lines, hrep, Nat.zero_le _, ?_, Nat.zero_le _, ?_, Nat.zero_le _, ?_,
    Nat.zero_le _, ?_⟩
  · simp only [recordOf]; omega
  · simp only [recordOf]; omega
  · simp only [recordOf]; rw [ha]; exact ha4
  · simp only [recordOf]; rw [hb]; exact hb4

/-- Witness of C1 on the document `ab`, newline, `cd` with an issue across the newline. -/
theorem applyErrorHighlights_records_in_bounds_witness :
    ∃ lines, (fullHost ["ab".toList, "cd".toList]).rep = some lines ∧
      0 ≤ 0 ∧ 0 < lines.length ∧ 0 ≤ 1 ∧ 1 < lines.length ∧
      0 ≤ 1 ∧ 1 ≤ lineLength lines 0 ∧ 0 ≤ 0 ∧ 0 ≤ lineLength lines 1 :=
  applyErrorHighlights_records_in_bounds (fullHost ["ab".toList, "cd".toList]) initialState
    [⟨1, 3, [], [], []⟩] [] (errorId 0 1 3) ⟨⟨1, 3, [], [], []⟩, 0, 1, 1, 0, 1, 3⟩
    (by decide)

/-- C2: for an issue with length at least 1 that ends inside the flat text `T` (the lines
joined with a newline), the record `applyErrorHighlights` stores under the issue's key
has as start the position of `offset` and as end the position of `offset + length - 1`,
each the only position of that offset; the table has exactly `|T|` entries, and the entry
at `o` holds the position of `o`, is marked as newline exactly at the end of a line that
is not the last, and stands for the character `T[o]`. -/
theorem applyErrorHighlights_positions (host : Host) (s : State) (matchList : List Match)
    (text : JSString) (lines : List JSString) (i : Nat) (m : Match)
    (hace : host.aceGetRep = true) (hrep : host.rep = some lines)
    (hm : matchList[i]? = some m) (hlen : 1 ≤ m.length)
    (hend : m.offset + m.length ≤ (joinLines lines).length) :
    (buildLineCharMap lines).length = (joinLines lines).length ∧
    (∀ o, o < (joinLines lines).length →
      ∃ entry, (buildLineCharMap lines)[o]? = some entry ∧
        IsPos lines o entry.lineIndex entry.charInLine ∧
        (entry.isNewline = true ↔ entry.charInLine = lineLength lines entry.lineIndex) ∧
        (joinLines lines)[o]? =
          (if entry.isNewline then some '\n'
           else (lines.getD entry.lineIndex [])[entry.charInLine]?)) ∧
    ∃ e, (applyErrorHighlights host s matchList text).1.errorAttributes.get
        (errorId i m.offset m.length) = some e ∧ e.matchData = m ∧
      IsPos lines m.offset e.startLine e.startChar ∧
      IsPos lines (m.offset + m.length - 1) e.endLine e.endChar ∧
      (∀ i' c', IsPos lines m.offset i' c' → i' = e.startLine ∧ c' = e.startChar) ∧
      (∀ i' c', IsPos lines (m.offset + m.length - 1) i' c' →
        i' = e.endLine ∧ c' = e.endChar) := by
  refine ⟨buildLineCharMap_length lines, ?_, ?_⟩
  · intro o ho
    obtain ⟨entry, h1, h2⟩ := table_entry_of_lt lines o ho
    refine ⟨entry, h1, entryAt_isPos lines o entry h2, ?_, ?_⟩
    · obtain ⟨j, hj, _, _, _, _, h6, _⟩ := h2
      have : entry.lineIndex = j := by omega
      rw [this]; exact h6
    · obtain ⟨j, hj, _, _, _, _, _, h7⟩ := h2
      have : entry.lineIndex = j := by omega
      rw [this]; exact h7
  · obtain ⟨e, h1, h2, _, _, h3, h4, _⟩ := applyErrorHighlights_stored host s matchList text
      lines i m hace hrep hm (by omega) (by omega)
    have hmin : min (m.offset + m.length - 1) ((joinLines lines).length - 1) =
        m.offset + m.length - 1 := by omega
    rw [hmin] at h4
    exact ⟨e, h1, h2, h3, h4,
      fun i' c' h' => IsPos_unique lines _ _ _ _ _ h' h3,
      fun i' c' h' => IsPos_unique lines _ _ _ _ _ h' h4⟩

/-- Witness of C2 on the document `ab`, newline, `cd` with an issue across the newline. -/
theorem applyErrorHighlights_positions_witness :
    ∃ e, (applyErrorHighlights (fullHost ["ab".toList, "cd".toList]) initialState
        [⟨1, 3, [], [], []⟩] []).1.errorAttributes.get (errorId 0 1 3) = some e ∧
      e.matchData = ⟨1, 3, [], [], []⟩ ∧
      IsPos ["ab".toList, "cd".toList] 1 e.startLine e.startChar ∧
      IsPos ["ab".toList, "cd".toList] (1 + 3 - 1) e.endLine e.endChar ∧
      (∀ i' c', IsPos ["ab".toList, "cd".toList] 1 i' c' →
        i' = e.startLine ∧ c' = e.startChar) ∧
      (∀ i' c', IsPos ["ab".toList, "cd".toList] (1 + 3 - 1) i' c' →
        i' = e.endLine ∧ c' = e.endChar) :=
  (applyErrorHighlights_positions (fullHost ["ab".toList, "cd".toList]) initialState
    [⟨1, 3, [], [], []⟩] [] ["ab".toList, "cd".toList] 0 ⟨1, 3, [], [], []⟩
    rfl rfl rfl (by decide) (by decide)).2.2

/-- C3, as stated, fails: on the one-line document `ab` the issue with offset 0 and
length 5 has its end offset 4 beyond the table of 2 entries, and is stored (with its end
cut to the last entry) and rendered all the same. -/
theorem applyErrorHighlights_keeps_end_beyond_table :
    (buildLineCharMap ["ab".toList]).length ≤ 0 + 5 - 1 ∧
    (applyErrorHighlights (fullHost ["ab".toList]) initialState
      [⟨0, 5, [], [], []⟩] []).1.errorAttributes.get (errorId 0 0 5) =
        some ⟨⟨0, 5, [], [], []⟩, 0, 0, 0, 1, 0, 5⟩ ∧
    (applyErrorHighlights (fullHost ["ab".toList]) initialState
      [⟨0, 5, [], [], []⟩] []).2 = [⟨0, 0, 0, 1, errorId 0 0 5⟩] := by
  decide

/-- C3, amended: an issue is dropped (no record under its key, no call of
`applyAttributeToRange` for it) when its start offset is at or beyond the flat-text
length or its end offset `offset + length - 1` is negative; an issue whose start offset
is inside the table is stored and rendered even when its end offset is beyond the table,
the end being the position of the last table entry in that case. -/
theorem applyErrorHighlights_drops_start_outside (host : Host) (s : State)
    (matchList : List Match) (text : JSString) (lines : List JSString) (i : Nat) (m : Match)
    (hace : host.aceGetRep = true) (hrep : host.rep = some lines)
    (hm : matchList[i]? = some m) :
    ((joinLines lines).length ≤ m.offset ∨ m.offset + m.length = 0 →
      (applyErrorHighlights host s matchList text).1.errorAttributes.get
          (errorId i m.offset m.length) = none ∧
        ∀ c ∈ (applyErrorHighlights host s matchList text).2,
          c.errorId ≠ errorId i m.offset m.length) ∧
    (m.offset < (joinLines lines).length → 1 ≤ m.offset + m.length →
      ∃ e, (applyErrorHighlights host s matchList text).1.errorAttributes.get
          (errorId i m.offset m.length) = some e ∧ e.matchData = m ∧
        IsPos lines m.offset e.startLine e.startChar ∧
        IsPos lines (min (m.offset + m.length - 1) ((joinLines lines).length - 1))
          e.endLine e.endChar ∧
        (host.editorSetAttribute = true →
          (⟨e.startLine, e.startChar, e.endLine, e.endChar,
            errorId i m.offset m.length⟩ : AttributeCall) ∈
            (applyErrorHighlights host s matchList text).2)) := by
  refine ⟨applyErrorHighlights_dropped host s matchList text lines i m hrep, ?_⟩
  intro h1 h2
  obtain ⟨e, he1, he2, _, _, he3, he4, he5⟩ :=
    applyErrorHighlights_stored host s matchList text lines i m hace hrep hm h1 h2
  exact ⟨e, he1, he2, he3, he4, he5⟩

/-- Witness of amended C3: on the document `ab` the issue with offset 2 is dropped. -/
theorem applyErrorHighlights_drops_start_outside_witness :
    (applyErrorHighlights (fullHost ["ab".toList]) initialState
      [⟨2, 1, [], [], []⟩] []).1.errorAttributes.get (errorId 0 2 1) = none ∧
    ∀ c ∈ (applyErrorHighlights (fullHost ["ab".toList]) initialState
      [⟨2, 1, [], [], []⟩] []).2, c.errorId ≠ errorId 0 2 1 :=
  (applyErrorHighlights_drops_start_outside (fullHost ["ab".toList]) initialState
    [⟨2, 1, [], [], []⟩] [] ["ab".toList] 0 ⟨2, 1, [], [], []⟩ rfl rfl rfl).1
    (Or.inl (by decide))

/-- C4, as stated, fails: for the document `Teh cat sat.` and the issue at offset 0 of
length 3 the registry does not hold a single record with end column 3. -/
theorem applyErrorHighlights_teh_end_column_not_three :
    ¬ ∃ (key : JSString) (e : ErrorData),
      (applyErrorHighlights (fullHost ["Teh cat sat.".toList]) initialState
        [⟨0, 3, "Spelling".toList, [], ["The".toList]⟩]
        "Teh cat sat.".toList).1.errorAttributes.entries = [(key, e)] ∧
      e.startLine = 0 ∧ e.endLine = 0 ∧ e.startChar = 0 ∧ e.endChar = 3 := by
  rintro ⟨key, e, h, _, _, _, h3⟩
  have hcomp : (applyErrorHighlights (fullHost ["Teh cat sat.".toList]) initialState
      [⟨0, 3, "Spelling".toList, [], ["The".toList]⟩]
      "Teh cat sat.".toList).1.errorAttributes.entries =
      [(errorId 0 0 3, ⟨⟨0, 3, "Spelling".toList, [], ["The".toList]⟩, 0, 0, 0, 2, 0, 3⟩)] := by
    decide
  rw [hcomp] at h
  simp only [List.cons.injEq, Prod.mk.injEq, and_true] at h
  rw [← h.2] at h3
  exact absurd h3 (by decide)

/-- C4, amended: for the one-line document `Teh cat sat.` and the issue list with the one
issue at offset 0 of length 3, `applyErrorHighlights` yields exactly one record, with
`startLine = endLine = 0`, start column 0 and end column 2, the column of the last
character of the issue; it is rendered by one call with that range. -/
theorem applyErrorHighlights_teh_record :
    (applyErrorHighlights (fullHost ["Teh cat sat.".toList]) initialState
      [⟨0, 3, "Spelling".toList, [], ["The".toList]⟩]
      "Teh cat sat.".toList).1.errorAttributes.entries =
      [("error_0_0_3".toList,
        { matchData := ⟨0, 3, "Spelling".toList, [], ["The".toList]⟩
          startLine := 0
          endLine := 0
          startChar := 0
          endChar := 2
          offset := 0
          length := 3 })] ∧
    (applyErrorHighlights (fullHost ["Teh cat sat.".toList]) initialState
      [⟨0, 3, "Spelling".toList, [], ["The".toList]⟩]
      "Teh cat sat.".toList).2 = [⟨0, 0, 0, 2, "error_0_0_3".toList⟩] := by
  decide

/-- C5, evaluated where it fails: on the document `ab`, newline, `cd` the record of the
issue at offset 2 (the newline) of length 1 makes `acceptSuggestion` ask for the range
from line 0 column 0 to line 1 column 0, so the editor's text becomes `Xcd`, while the
text the claim describes, which is the value `newText` of the source, is `abXcd`. -/
theorem acceptSuggestion_start_on_newline :
    (acceptSuggestion (fullHost ["ab".toList, "cd".toList]) initialState
      ⟨⟨2, 1, [], [], []⟩, 0, 0, 2, 2, 2, 1⟩ "X".toList (errorId 0 2 1)).replaced =
      [⟨0, 0, 1, 0, "X".toList⟩] ∧
    replaceRangeText ["ab".toList, "cd".toList] ⟨0, 0, 1, 0, "X".toList⟩ = "Xcd".toList ∧
    acceptNewText (joinLines ["ab".toList, "cd".toList]) 2 1 "X".toList = "abXcd".toList ∧
    IsCaret ["ab".toList, "cd".toList] 2 0 2 ∧
    (applyErrorHighlights (fullHost ["ab".toList, "cd".toList]) initialState
      [⟨2, 1, [], [], []⟩] []).1.errorAttributes.get (errorId 0 2 1) =
      some ⟨⟨2, 1, [], [], []⟩, 0, 0, 2, 2, 2, 1⟩ := by
  refine ⟨by decide, by decide, by decide, ⟨by decide, by decide, by decide⟩, by decide⟩

/-- C6, as stated, fails: on the one-line document `ab` the record with offset 5 and
length 1 is out of range, and `acceptSuggestion` still issues a replace operation (of
the empty range at line 0 column 0), after which the editor's text is `Xab`. -/
theorem acceptSuggestion_out_of_range_still_edits :
    (joinLines ["ab".toList]).length < 5 ∧
    (acceptSuggestion (fullHost ["ab".toList]) initialState
      ⟨⟨5, 1, [], [], []⟩, 0, 0, 0, 0, 5, 1⟩ "X".toList (errorId 0 5 1)).replaced =
      [⟨0, 0, 0, 0, "X".toList⟩] ∧
    (acceptSuggestion (fullHost ["ab".toList]) initialState
      ⟨⟨5, 1, [], [], []⟩, 0, 0, 0, 0, 5, 1⟩ "X".toList (errorId 0 5 1)).threw = false ∧
    replaceRangeText ["ab".toList] ⟨0, 0, 0, 0, "X".toList⟩ = "Xab".toList ∧
    "Xab".toList ≠ joinLines ["ab".toList] := by
  decide

/-- C6, amended: `acceptSuggestion` does not check the range. For a record whose
`offset + length` is beyond the flat text of the current document it still issues
exactly one replace operation: the end is line 0, column 0, the start is line 0,
column 0 or, when `offset` falls on a character of a line, the position of `offset`;
the run completes without throwing, the registry is cleared and the last-checked hash
is reset. -/
theorem acceptSuggestion_no_range_check (host : Host) (s : State) (e : ErrorData)
    (r errorId : JSString) (lines : List JSString)
    (h1 : host.editorReplaceRange = true) (h2 : host.editorGetRep = true)
    (h3 : host.editorCallWithAce = true) (h4 : host.aceReplaceRange = true)
    (hrep : host.rep = some lines)
    (hout : (joinLines lines).length < acceptOffset e + acceptLength e) :
    ∃ sl sc, (acceptSuggestion host s e r errorId).replaced = [⟨sl, sc, 0, 0, r⟩] ∧
      ((sl = 0 ∧ sc = 0) ∨ (IsPos lines (acceptOffset e) sl sc ∧ sc < lineLength lines sl)) ∧
      (acceptSuggestion host s e r errorId).threw = false ∧
      (acceptSuggestion host s e r errorId).state.errorAttributes.entries = [] ∧
      (acceptSuggestion host s e r errorId).state.lastCheckedTextHash = none := by
  obtain ⟨he1, he2, he3⟩ := findRange_no_end (acceptOffset e) (acceptLength e) lines 0
    ⟨0, 0, 0, 0, 0⟩ (Or.inr (by simpa using hout))
  rw [acceptSuggestion_eq host s e r errorId lines h1 h2 h3 h4 hrep]
  refine ⟨_, _, by rw [he1, he2], ?_, rfl, (acceptFinish_registry s errorId).1,
    (acceptFinish_registry s errorId).2.1⟩
  rcases he3 with ⟨h5, h6⟩ | ⟨j, hj1, hj2, hj3, hj4⟩
  · exact Or.inl ⟨h5, h6⟩
  · right
    simp only [Nat.zero_add] at hj2 hj3
    rw [hj2]
    exact ⟨⟨hj1, hj3.symm, Nat.le_of_lt hj4, fun _ => hj4⟩, hj4⟩

/-- Witness of amended C6: the record with offset 1 and length 5 on the document `ab`. -/
theorem acceptSuggestion_no_range_check_witness :
    ∃ sl sc, (acceptSuggestion (fullHost ["ab".toList]) initialState
        ⟨⟨1, 5, [], [], []⟩, 0, 0, 1, 1, 1, 5⟩ "X".toList (errorId 0 1 5)).replaced =
        [⟨sl, sc, 0, 0, "X".toList⟩] ∧
      ((sl = 0 ∧ sc = 0) ∨
        (IsPos ["ab".toList] (acceptOffset ⟨⟨1, 5, [], [], []⟩, 0, 0, 1, 1, 1, 5⟩) sl sc ∧
          sc < lineLength ["ab".toList] sl)) ∧
      (acceptSuggestion (fullHost ["ab".toList]) initialState
        ⟨⟨1, 5, [], [], []⟩, 0, 0, 1, 1, 1, 5⟩ "X".toList (errorId 0 1 5)).threw = false ∧
      (acceptSuggestion (fullHost ["ab".toList]) initialState
        ⟨⟨1, 5, [], [], []⟩, 0, 0, 1, 1, 1, 5⟩ "X".toList
        (errorId 0 1 5)).state.errorAttributes.entries = [] ∧
      (acceptSuggestion (fullHost ["ab".toList]) initialState
        ⟨⟨1, 5, [], [], []⟩, 0, 0, 1, 1, 1, 5⟩ "X".toList
        (errorId 0 1 5)).state.lastCheckedTextHash = none :=
  acceptSuggestion_no_range_check (fullHost ["ab".toList]) initialState
    ⟨⟨1, 5, [], [], []⟩, 0, 0, 1, 1, 1, 5⟩ "X".toList (errorId 0 1 5) ["ab".toList]
    rfl rfl rfl rfl rfl (by decide)

/-- C7: on a single-line document `line`, for a record (holding the offset of its issue)
with length at least 1 and `offset + length` within the line, `acceptSuggestion` issues
one replace of line 0, column `offset` to line 0, column `offset + length` by the
replacement, which gives the text `line[0..offset) + r + line[offset+length..)`, and
`errorAttributes` is empty afterwards. -/
theorem acceptSuggestion_single_line (host : Host) (s : State) (e : ErrorData)
    (r errorId : JSString) (line : JSString)
    (h1 : host.editorReplaceRange = true) (h2 : host.editorGetRep = true)
    (h3 : host.editorCallWithAce = true) (h4 : host.aceReplaceRange = true)
    (hrep : host.rep = some [line]) (hrec : e.matchData.offset = e.offset)
    (hlen : 1 ≤ e.length) (hend : e.offset + e.length ≤ line.length) :
    (acceptSuggestion host s e r errorId).replaced =
      [⟨0, e.offset, 0, e.offset + e.length, r⟩] ∧
    replaceRangeText [line] ⟨0, e.offset, 0, e.offset + e.length, r⟩ =
      line.take e.offset ++ r ++ line.drop (e.offset + e.length) ∧
    (acceptSuggestion host s e r errorId).state.errorAttributes.entries = [] ∧
    (acceptSuggestion host s e r errorId).threw = false := by
  have ho := acceptOffset_eq e hrec
  have hl := acceptLength_pos e hlen
  rw [acceptSuggestion_eq host s e r errorId [line] h1 h2 h3 h4 hrep, ho, hl]
  refine ⟨?_, ?_, (acceptFinish_registry s errorId).1, rfl⟩
  · have hs : markStart e.offset 0 line.length ⟨0, 0, 0, 0, 0⟩ = ⟨0, 0, e.offset, 0, 0⟩ := by
      simp [markStart, show e.offset < line.length by omega]
    rw [findRange_cons, if_pos ⟨Nat.zero_le _, by simp only; omega⟩, hs]
    rfl
  · simp [replaceRangeText, joinLines, lineStart]

/-- Witness of C7: `Teh cat sat.` with offset 0, length 3 and `The` gives `The cat sat.`
and an empty registry, starting from the registry that holds the record of the issue. -/
theorem acceptSuggestion_single_line_witness :
    ((acceptSuggestion (fullHost ["Teh cat sat.".toList])
        (applyErrorHighlights (fullHost ["Teh cat sat.".toList]) initialState
          [⟨0, 3, "Spelling".toList, [], ["The".toList]⟩] "Teh cat sat.".toList).1
        ⟨⟨0, 3, "Spelling".toList, [], ["The".toList]⟩, 0, 0, 0, 2, 0, 3⟩ "The".toList
        (errorId 0 0 3)).replaced = [⟨0, 0, 0, 0 + 3, "The".toList⟩] ∧
      replaceRangeText ["Teh cat sat.".toList] ⟨0, 0, 0, 0 + 3, "The".toList⟩ =
        "Teh cat sat.".toList.take 0 ++ "The".toList ++ "Teh cat sat.".toList.drop (0 + 3) ∧
      (acceptSuggestion (fullHost ["Teh cat sat.".toList])
        (applyErrorHighlights (fullHost ["Teh cat sat.".toList]) initialState
          [⟨0, 3, "Spelling".toList, [], ["The".toList]⟩] "Teh cat sat.".toList).1
        ⟨⟨0, 3, "Spelling".toList, [], ["The".toList]⟩, 0, 0, 0, 2, 0, 3⟩ "The".toList
        (errorId 0 0 3)).state.errorAttributes.entries = [] ∧
      (acceptSuggestion (fullHost ["Teh cat sat.".toList])
        (applyErrorHighlights (fullHost ["Teh cat sat.".toList]) initialState
          [⟨0, 3, "Spelling".toList, [], ["The".toList]⟩] "Teh cat sat.".toList).1
        ⟨⟨0, 3, "Spelling".toList, [], ["The".toList]⟩, 0, 0, 0, 2, 0, 3⟩ "The".toList
        (errorId 0 0 3)).threw = false) ∧
    "Teh cat sat.".toList.take 0 ++ "The".toList ++ "Teh cat sat.".toList.drop (0 + 3) =
      "The cat sat.".toList :=
  ⟨acceptSuggestion_single_line (fullHost ["Teh cat sat.".toList])
    (applyErrorHighlights (fullHost ["Teh cat sat.".toList]) initialState
      [⟨0, 3, "Spelling".toList, [], ["The".toList]⟩] "Teh cat sat.".toList).1
    ⟨⟨0, 3, "Spelling".toList, [], ["The".toList]⟩, 0, 0, 0, 2, 0, 3⟩ "The".toList
    (errorId 0 0 3) "Teh cat sat.".toList rfl rfl rfl rfl rfl rfl (by decide) (by decide),
   by decide⟩

/-- C8, as stated, fails: with the records of two issues in the registry, a successful
`acceptSuggestion` for the first leaves the registry without the second as well. -/
theorem acceptSuggestion_removes_sibling :
    (applyErrorHighlights (fullHost ["ab cd".toList]) initialState
      [⟨0, 2, [], [], []⟩, ⟨3, 2, [], [], []⟩] []).1.errorAttributes.get (errorId 1 3 2) =
      some ⟨⟨3, 2, [], [], []⟩, 0, 0, 3, 4, 3, 2⟩ ∧
    (acceptSuggestion (fullHost ["ab cd".toList])
      (applyErrorHighlights (fullHost ["ab cd".toList]) initialState
        [⟨0, 2, [], [], []⟩, ⟨3, 2, [], [], []⟩] []).1
      ⟨⟨0, 2, [], [], []⟩, 0, 0, 0, 1, 0, 2⟩ "X".toList (errorId 0 0 2)).threw = false ∧
    (acceptSuggestion (fullHost ["ab cd".toList])
      (applyErrorHighlights (fullHost ["ab cd".toList]) initialState
        [⟨0, 2, [], [], []⟩, ⟨3, 2, [], [], []⟩] []).1
      ⟨⟨0, 2, [], [], []⟩, 0, 0, 0, 1, 0, 2⟩ "X".toList
      (errorId 0 0 2)).state.errorAttributes.get (errorId 1 3 2) = none := by
  decide

/-- C8, amended: after a successful `acceptSuggestion` the registry `errorAttributes` is
empty, whatever it held before: the accepted record and every sibling record are
removed. -/
theorem acceptSuggestion_clears_registry (host : Host) (s : State) (e : ErrorData)
    (r errorId : JSString) (hok : (acceptSuggestion host s e r errorId).threw = false) :
    (acceptSuggestion host s e r errorId).state.errorAttributes.entries = [] ∧
      ∀ key, (acceptSuggestion host s e r errorId).state.errorAttributes.get key = none := by
  rw [acceptSuggestion_state_of_ok host s e r errorId hok]
  have h := (acceptFinish_registry s errorId).1
  refine ⟨h, fun key => ?_⟩
  unfold JSMap.get
  rw [h]
  rfl

/-- Witness of amended C8, from a registry that holds the records of two issues. -/
theorem acceptSuggestion_clears_registry_witness :
    (acceptSuggestion (fullHost ["ab cd".toList])
      (applyErrorHighlights (fullHost ["ab cd".toList]) initialState
        [⟨0, 2, [], [], []⟩, ⟨3, 2, [], [], []⟩] []).1
      ⟨⟨0, 2, [], [], []⟩, 0, 0, 0, 1, 0, 2⟩ "X".toList
      (errorId 0 0 2)).state.errorAttributes.entries = [] ∧
    ∀ key, (acceptSuggestion (fullHost ["ab cd".toList])
      (applyErrorHighlights (fullHost ["ab cd".toList]) initialState
        [⟨0, 2, [], [], []⟩, ⟨3, 2, [], [], []⟩] []).1
      ⟨⟨0, 2, [], [], []⟩, 0, 0, 0, 1, 0, 2⟩ "X".toList
      (errorId 0 0 2)).state.errorAttributes.get key = none :=
  acceptSuggestion_clears_registry (fullHost ["ab cd".toList])
    (applyErrorHighlights (fullHost ["ab cd".toList]) initialState
      [⟨0, 2, [], [], []⟩, ⟨3, 2, [], [], []⟩] []).1
    ⟨⟨0, 2, [], [], []⟩, 0, 0, 0, 1, 0, 2⟩ "X".toList (errorId 0 0 2) rfl

/-- C9: after every successful `acceptSuggestion` the last-checked hash is `null`, so
`hasContentChanged` returns true for every text, every current revision (any host) and
every last-checked revision, and `scheduleCheck` goes on to `performCheck(false)` unless
a check is in progress. -/
theorem acceptSuggestion_invalidates_fingerprint (host : Host) (s : State) (e : ErrorData)
    (r errorId : JSString) (hok : (acceptSuggestion host s e r errorId).threw = false)
    (host' : Host) (t : JSString) (lastRevision : Option Nat) :
    (acceptSuggestion host s e r errorId).state.lastCheckedTextHash = none ∧
    hasContentChanged host'
      { (acceptSuggestion host s e r errorId).state with
        lastCheckedRevision := lastRevision } t = true ∧
    hasContentChanged host' (acceptSuggestion host s e r errorId).state t = true ∧
    (s.isChecking = false →
      scheduleCheckStarts host' (acceptSuggestion host s e r errorId).state = true) := by
  rw [acceptSuggestion_state_of_ok host s e r errorId hok]
  obtain ⟨_, hh, _, hc⟩ := acceptFinish_registry s errorId
  refine ⟨hh, ?_, ?_, ?_⟩
  · simp [hasContentChanged, hh]
  · simp [hasContentChanged, hh]
  · intro hs
    simp [scheduleCheckStarts, hasContentChanged, hh, hc, hs]

/-- Witness of C9: accepting `The` for `Teh` in `Teh cat sat.`, then asking about the
same text with revision 7 both current and last checked. -/
theorem acceptSuggestion_invalidates_fingerprint_witness :
    (acceptSuggestion (fullHost ["Teh cat sat.".toList])
      { initialState with lastCheckedTextHash := some (hashText "Teh cat sat.".toList) }
      ⟨⟨0, 3, [], [], []⟩, 0, 0, 0, 2, 0, 3⟩ "The".toList
      (errorId 0 0 3)).state.lastCheckedTextHash = none ∧
    hasContentChanged { fullHost ["The cat sat.".toList] with padHead := some 7 }
      { (acceptSuggestion (fullHost ["Teh cat sat.".toList])
          { initialState with lastCheckedTextHash := some (hashText "Teh cat sat.".toList) }
          ⟨⟨0, 3, [], [], []⟩, 0, 0, 0, 2, 0, 3⟩ "The".toList (errorId 0 0 3)).state with
        lastCheckedRevision := some 7 } "The cat sat.".toList = true ∧
    hasContentChanged { fullHost ["The cat sat.".toList] with padHead := some 7 }
      (acceptSuggestion (fullHost ["Teh cat sat.".toList])
        { initialState with lastCheckedTextHash := some (hashText "Teh cat sat.".toList) }
        ⟨⟨0, 3, [], [], []⟩, 0, 0, 0, 2, 0, 3⟩ "The".toList (errorId 0 0 3)).state
      "The cat sat.".toList = true ∧
    (({ initialState with
        lastCheckedTextHash := some (hashText "Teh cat sat.".toList) } : State).isChecking
        = false →
      scheduleCheckStarts { fullHost ["The cat sat.".toList] with padHead := some 7 }
        (acceptSuggestion (fullHost ["Teh cat sat.".toList])
          { initialState with lastCheckedTextHash := some (hashText "Teh cat sat.".toList) }
          ⟨⟨0, 3, [], [], []⟩, 0, 0, 0, 2, 0, 3⟩ "The".toList (errorId 0 0 3)).state = true) :=
  acceptSuggestion_invalidates_fingerprint (fullHost ["Teh cat sat.".toList])
    { initialState with lastCheckedTextHash := some (hashText "Teh cat sat.".toList) }
    ⟨⟨0, 3, [], [], []⟩, 0, 0, 0, 2, 0, 3⟩ "The".toList (errorId 0 0 3) rfl
    { fullHost ["The cat sat.".toList] with padHead := some 7 } "The cat sat.".toList (some 7)

/-- C10: for every cache state, every fingerprint `f` and every result `L`,
`getCachedResult(f)` right after `cacheResult(f, L)` returns an entry, and its result is
`L` unchanged. -/
theorem getCachedResult_cacheResult (s : State) (f : JSString) (L : CheckResult) (now : Nat) :
    getCachedResult (cacheResult s f L now) f = some { result := L, timestamp := now } ∧
    ∃ entry, getCachedResult (cacheResult s f L now) f = some entry ∧ entry.result = L := by
  have h : getCachedResult (cacheResult s f L now) f =
      some { result := L, timestamp := now } := by
    unfold getCachedResult cacheResult
    exact JSMap.get_set_self _ _ _
  exact ⟨h, _, h, rfl⟩

/-- C11: starting from an empty cache, after `cacheResult` has been called for eleven
pairwise distinct fingerprints, with any calls of `getCachedResult` in between,
`getCachedResult` of the first fingerprint is absent and each of the other ten is
present with the result (and time) it was stored with; the cache holds exactly these
ten entries, in the order of their calls. -/
theorem cache_evicts_first_inserted (s : State) (ops : List CacheOp)
    (p₁ : JSString × CheckResult × Nat) (rest : List (JSString × CheckResult × Nat))
    (hempty : s.checkCache.entries = []) (hputs : putsOf ops = p₁ :: rest)
    (hlen : rest.length = 10) (hnd : ((p₁ :: rest).map Prod.fst).Nodup) :
    getCachedResult (runCacheOps s ops) p₁.1 = none ∧
    (∀ p ∈ rest, getCachedResult (runCacheOps s ops) p.1 =
      some { result := p.2.1, timestamp := p.2.2 }) ∧
    (runCacheOps s ops).checkCache.entries = rest.map entryOfPut := by
  have hent := cachePuts_eleven s p₁ rest hempty hlen hnd
  rw [runCacheOps_eq_cachePuts, hputs]
  simp only [List.map_cons, List.nodup_cons] at hnd
  refine ⟨?_, ?_, hent⟩
  · unfold getCachedResult JSMap.get
    rw [hent]
    apply JSMap.getEntries_eq_none
    intro x hx hc
    obtain ⟨q, hq, rfl⟩ := List.mem_map.1 hx
    exact hnd.1 (List.mem_map.2 ⟨q, hq, hc⟩)
  · intro p hp
    unfold getCachedResult JSMap.get
    rw [hent]
    apply JSMap.getEntries_of_mem_nodup
    · have : (rest.map entryOfPut).map Prod.fst = rest.map Prod.fst := by
        simp [entryOfPut, Function.comp_def]
      rw [this]
      exact hnd.2
    · exact List.mem_map.2 ⟨p, hp, rfl⟩

/-- Witness of C11: the keys `0` to `10`, with a read of key `0` after every call. -/
theorem cache_evicts_first_inserted_witness :
    getCachedResult (runCacheOps initialState sampleCacheOps) (numberToString 0) = none ∧
    (∀ p ∈ samplePuts 1 10, getCachedResult (runCacheOps initialState sampleCacheOps) p.1 =
      some { result := p.2.1, timestamp := p.2.2 }) ∧
    (runCacheOps initialState sampleCacheOps).checkCache.entries =
      (samplePuts 1 10).map entryOfPut :=
  cache_evicts_first_inserted initialState sampleCacheOps (numberToString 0, ⟨some []⟩, 0)
    (samplePuts 1 10) rfl (by decide) (by decide) (by decide)

/-- C12, as stated, fails: in a cache that holds the ten keys `0` to `9`, a call of
`cacheResult` for the key `1`, which is already a key, removes the entry of key `0`. -/
theorem cacheResult_evicts_for_present_key :
    (cachePuts initialState (samplePuts 0 10)).checkCache.size = 10 ∧
    getCachedResult (cachePuts initialState (samplePuts 0 10)) (numberToString 1) =
      some { result := ⟨some []⟩, timestamp := 1 } ∧
    getCachedResult (cachePuts initialState (samplePuts 0 10)) (numberToString 0) =
      some { result := ⟨some []⟩, timestamp := 0 } ∧
    getCachedResult
      (cacheResult (cachePuts initialState (samplePuts 0 10)) (numberToString 1) ⟨none⟩ 77)
      (numberToString 0) = none := by
  decide

/-- C12, amended: `cacheResult(f, L)` evicts by the size before the call alone. In a
cache with fewer than 10 entries every entry other than `f` stays, with the same value;
in a cache with 10 entries or more the entry under the oldest key is removed, also when
`f` is already a key, and every entry other than `f` and the oldest stays. -/
theorem cacheResult_frame (s : State) (f : JSString) (L : CheckResult) (now : Nat) :
    (s.checkCache.size < 10 →
      ∀ k, k ≠ f → getCachedResult (cacheResult s f L now) k = getCachedResult s k) ∧
    (10 ≤ s.checkCache.size → ∀ k₀, s.checkCache.firstKey = some k₀ →
      (k₀ ≠ f → getCachedResult (cacheResult s f L now) k₀ = none) ∧
      ∀ k, k ≠ f → k ≠ k₀ →
        getCachedResult (cacheResult s f L now) k = getCachedResult s k) := by
  constructor
  · intro hlt k hk
    unfold getCachedResult JSMap.get
    rw [cacheResult_entries_of_lt s f L now hlt]
    exact JSMap.getEntries_setEntries_ne _ _ _ _ (fun hc => hk hc.symm)
  · intro hge k₀ hfirst
    have hcache : (cacheResult s f L now).checkCache =
        (s.checkCache.delete k₀).set f { result := L, timestamp := now } := by
      have hsz : s.checkCache.size ≥ MAX_CACHE_SIZE := hge
      simp [cacheResult, hsz, hfirst]
    constructor
    · intro hk
      unfold getCachedResult
      rw [hcache, JSMap.get_set_ne _ _ _ _ (fun hc => hk hc.symm)]
      exact JSMap.getEntries_filter_self _ _
    · intro k hk hk0
      unfold getCachedResult
      rw [hcache, JSMap.get_set_ne _ _ _ _ (fun hc => hk hc.symm)]
      exact JSMap.getEntries_filter_ne _ _ _ hk0

/-- Witness of amended C12: a cache with the nine keys `0` to `8` and a call for the
key `1` leave the entry of key `0` in place. -/
theorem cacheResult_frame_witness :
    getCachedResult
      (cacheResult (cachePuts initialState (samplePuts 0 9)) (numberToString 1) ⟨none⟩ 77)
      (numberToString 0) =
    getCachedResult (cachePuts initialState (samplePuts 0 9)) (numberToString 0) :=
  (cacheResult_frame (cachePuts initialState (samplePuts 0 9)) (numberToString 1) ⟨none⟩
    77).1 (by decide) (numberToString 0) (by decide)

/-- C13: while a check is in progress, the toolbar command `handleToolbarButtonClick`
issues no remote call and leaves the whole module state (the flag `isChecking`, the
last-checked hash, the cache, the current matches and the registry among it) and the
timer table as they are; all it does is report that a check is already in progress. -/
theorem handleToolbarButtonClick_single_flight (host : Host) (s : State) (t : Timers)
    (response : Response) (now : Nat) (hostAfter : Host) (h : s.isChecking = true) :
    (handleToolbarButtonClick host s t response now hostAfter).state = s ∧
    (handleToolbarButtonClick host s t response now hostAfter).timers = t ∧
    (handleToolbarButtonClick host s t response now hostAfter).effects =
      [Effect.log "[ep_languagetool] Check already in progress".toList] ∧
    (∀ text language padId, Effect.fetch text language padId ∉
      (handleToolbarButtonClick host s t response now hostAfter).effects) ∧
    (handleToolbarButtonClick host s t response now hostAfter).ending = Ending.refused ∧
    (handleToolbarButtonClick host s t response now hostAfter).state.isChecking = true := by
  simp [handleToolbarButtonClick, h]

/-- Witness of C13: a click while a check of `Teh cat sat.` is in progress. -/
theorem handleToolbarButtonClick_single_flight_witness :
    (handleToolbarButtonClick (fullHost ["Teh cat sat.".toList])
      { initialState with isChecking := true } ⟨[], 0⟩ (Response.ok ⟨some []⟩) 5
      (fullHost ["Teh cat sat.".toList])).state = { initialState with isChecking := true } ∧
    (handleToolbarButtonClick (fullHost ["Teh cat sat.".toList])
      { initialState with isChecking := true } ⟨[], 0⟩ (Response.ok ⟨some []⟩) 5
      (fullHost ["Teh cat sat.".toList])).timers = ⟨[], 0⟩ ∧
    (handleToolbarButtonClick (fullHost ["Teh cat sat.".toList])
      { initialState with isChecking := true } ⟨[], 0⟩ (Response.ok ⟨some []⟩) 5
      (fullHost ["Teh cat sat.".toList])).effects =
      [Effect.log "[ep_languagetool] Check already in progress".toList] ∧
    (∀ text language padId, Effect.fetch text language padId ∉
      (handleToolbarButtonClick (fullHost ["Teh cat sat.".toList])
        { initialState with isChecking := true } ⟨[], 0⟩ (Response.ok ⟨some []⟩) 5
        (fullHost ["Teh cat sat.".toList])).effects) ∧
    (handleToolbarButtonClick (fullHost ["Teh cat sat.".toList])
      { initialState with isChecking := true } ⟨[], 0⟩ (Response.ok ⟨some []⟩) 5
      (fullHost ["Teh cat sat.".toList])).ending = Ending.refused ∧
    (handleToolbarButtonClick (fullHost ["Teh cat sat.".toList])
      { initialState with isChecking := true } ⟨[], 0⟩ (Response.ok ⟨some []⟩) 5
      (fullHost ["Teh cat sat.".toList])).state.isChecking = true :=
  handleToolbarButtonClick_single_flight (fullHost ["Teh cat sat.".toList])
    { initialState with isChecking := true } ⟨[], 0⟩ (Response.ok ⟨some []⟩) 5
    (fullHost ["Teh cat sat.".toList]) rfl

/-- C14: with automatic checking on and no check in progress, after a burst of `n >= 1`
edit notifications with no timer firing in between, exactly one debounce timer is
pending, the one set by the last notification, and `debounceTimer` holds its id; when
it fires, no timer is left, so its callback, which calls `scheduleCheck` once, is the
only one to run. -/
theorem aceEditEvents_one_timer (n : Nat) (s : State) (t : Timers) (host : Host)
    (hn : 1 ≤ n) (hauto : s.pluginConfig.autoCheck = true) (hidle : s.isChecking = false)
    (hco : DebounceCoherent s t) :
    (aceEditEvents n s t).2.pending = [⟨t.lastId + n, debounceDelayOf s⟩] ∧
    (aceEditEvents n s t).2.pending.length = 1 ∧
    (aceEditEvents n s t).1.debounceTimer = some (t.lastId + n) ∧
    (debounceTimerFires host (aceEditEvents n s t).1 (aceEditEvents n s t).2
      (t.lastId + n)).2.1.pending = [] := by
  obtain ⟨m, rfl⟩ : ∃ m, n = m + 1 := ⟨n - 1, by omega⟩
  obtain ⟨h1, h2⟩ := aceEditEvents_succ m s t hauto hidle hco
  refine ⟨h1, by rw [h1]; rfl, h2, ?_⟩
  simp [debounceTimerFires, Timers.clearTimeout, h1]

/-- Witness of C14: a burst of three edits from the freshly loaded module with automatic
checking switched on. -/
theorem aceEditEvents_one_timer_witness :
    (aceEditEvents 3
      { initialState with
        pluginConfig := { autoCheck := true, debounceDelay := none, defaultLanguage := none } }
      ⟨[], 0⟩).2.pending =
      [⟨0 + 3, debounceDelayOf { initialState with
        pluginConfig :=
          { autoCheck := true, debounceDelay := none, defaultLanguage := none } }⟩] ∧
    (aceEditEvents 3
      { initialState with
        pluginConfig := { autoCheck := true, debounceDelay := none, defaultLanguage := none } }
      ⟨[], 0⟩).2.pending.length = 1 ∧
    (aceEditEvents 3
      { initialState with
        pluginConfig := { autoCheck := true, debounceDelay := none, defaultLanguage := none } }
      ⟨[], 0⟩).1.debounceTimer = some (0 + 3) ∧
    (debounceTimerFires (fullHost ["Teh cat sat.".toList])
      (aceEditEvents 3
        { initialState with
          pluginConfig := { autoCheck := true, debounceDelay := none, defaultLanguage := none } }
        ⟨[], 0⟩).1
      (aceEditEvents 3
        { initialState with
          pluginConfig := { autoCheck := true, debounceDelay := none, defaultLanguage := none } }
        ⟨[], 0⟩).2 (0 + 3)).2.1.pending = [] :=
  aceEditEvents_one_timer 3
    { initialState with
      pluginConfig := { autoCheck := true, debounceDelay := none, defaultLanguage := none } }
    ⟨[], 0⟩ (fullHost ["Teh cat sat.".toList]) (by decide) rfl rfl (Or.inl ⟨rfl, rfl⟩)

/-- C16, as stated, fails: with automatic checking on and a check in progress, an edit
notification starts no timer: the timer table stays empty and `debounceTimer` stays
`null`. -/
theorem aceEditEvent_during_check_no_timer :
    (aceEditEvent
      { initialState with
        pluginConfig := { autoCheck := true, debounceDelay := none, defaultLanguage := none }
        isChecking := true } ⟨[], 0⟩).2.pending = [] ∧
    (aceEditEvent
      { initialState with
        pluginConfig := { autoCheck := true, debounceDelay := none, defaultLanguage := none }
        isChecking := true } ⟨[], 0⟩).1.debounceTimer = none := by
  decide

/-- C16, amended: while a check is in progress, `aceEditEvent` ignores the edit
notification, whether or not automatic checking is on: it returns with the module state
and the timer table unchanged, so no debounce timer is started or restarted. -/
theorem aceEditEvent_ignored_while_checking (s : State) (t : Timers)
    (h : s.isChecking = true) : aceEditEvent s t = (s, t) := by
  cases ha : s.pluginConfig.autoCheck <;> simp [aceEditEvent, ha, h]

/-- Witness of amended C16: an edit during a check, with one timer pending from before. -/
theorem aceEditEvent_ignored_while_checking_witness :
    aceEditEvent
      { initialState with
        pluginConfig := { autoCheck := true, debounceDelay := none, defaultLanguage := none }
        isChecking := true
        debounceTimer := some 4 } ⟨[⟨4, 2000⟩], 4⟩ =
      ({ initialState with
        pluginConfig := { autoCheck := true, debounceDelay := none, defaultLanguage := none }
        isChecking := true
        debounceTimer := some 4 }, ⟨[⟨4, 2000⟩], 4⟩) :=
  aceEditEvent_ignored_while_checking _ _ rfl

/-- C15, as stated, fails: the hash of the text `Teh cat sat.` equals the last-checked
hash, the last-checked revision is 3 and the current revision is 4; `scheduleCheck`
starts a check all the same and the check issues the remote call. -/
theorem scheduleCheck_starts_on_revision_change :
    ({ initialState with
        lastCheckedTextHash := some (hashText "Teh cat sat.".toList)
        lastCheckedRevision := some 3 } : State).lastCheckedTextHash =
      some (hashText (getPadText { fullHost ["Teh cat sat.".toList] with padHead := some 4 })) ∧
    (scheduleCheck { fullHost ["Teh cat sat.".toList] with padHead := some 4 }
      { initialState with
        lastCheckedTextHash := some (hashText "Teh cat sat.".toList)
        lastCheckedRevision := some 3 } ⟨[], 0⟩).map (fun b => b.effects) =
      some [Effect.fetch "Teh cat sat.".toList "en".toList none] ∧
    (scheduleCheck { fullHost ["Teh cat sat.".toList] with padHead := some 4 }
      { initialState with
        lastCheckedTextHash := some (hashText "Teh cat sat.".toList)
        lastCheckedRevision := some 3 } ⟨[], 0⟩).map (fun b => b.state.lastCheckedRevision) =
      some (some 4) := by
  decide

/-- C15, amended: when the hash of the current text equals the last-checked hash and
the revision markers do not disagree (the current or the last-checked revision is
missing, or the two are equal), `scheduleCheck` returns without calling `performCheck`:
no remote call, no rendering, no change of the module state; when both revisions are
there and differ and no check is in progress, it goes on to `performCheck(false)`. -/
theorem scheduleCheck_skips_unchanged (host : Host) (s : State) (t : Timers)
    (hhash : s.lastCheckedTextHash = some (hashText (getPadText host))) :
    ((getCurrentRevision host = none ∨ s.lastCheckedRevision = none ∨
        getCurrentRevision host = s.lastCheckedRevision) →
      scheduleCheck host s t = none) ∧
    (∀ a b, getCurrentRevision host = some a → s.lastCheckedRevision = some b → a ≠ b →
      s.isChecking = false →
      scheduleCheck host s t = some (performCheckBegin host s t false)) := by
  constructor
  · intro hrev
    have : hasContentChanged host s (getPadText host) = false := by
      rw [hasContentChanged_false_iff]
      refine ⟨hhash, fun a b ha hb => ?_⟩
      rcases hrev with h | h | h
      · rw [h] at ha; cases ha
      · rw [h] at hb; cases hb
      · rw [ha, hb] at h; exact Option.some.inj h
    unfold scheduleCheck
    split
    · rfl
    · simp [this]
  · intro a b ha hb hne hidle
    have : hasContentChanged host s (getPadText host) = true := by
      cases hc : hasContentChanged host s (getPadText host) with
      | true => rfl
      | false =>
        exact absurd (((hasContentChanged_false_iff host s _).1 hc).2 a b ha hb) hne
    simp [scheduleCheck, hidle, this]

/-- Witness of amended C15: the text `Teh cat sat.` unchanged, revision 4 both current
and last checked. -/
theorem scheduleCheck_skips_unchanged_witness :
    scheduleCheck { fullHost ["Teh cat sat.".toList] with padHead := some 4 }
      { initialState with
        lastCheckedTextHash := some (hashText "Teh cat sat.".toList)
        lastCheckedRevision := some 4 } ⟨[], 0⟩ = none :=
  (scheduleCheck_skips_unchanged { fullHost ["Teh cat sat.".toList] with padHead := some 4 }
    { initialState with
      lastCheckedTextHash := some (hashText "Teh cat sat.".toList)
      lastCheckedRevision := some 4 } ⟨[], 0⟩ (by decide)).1 (Or.inr (Or.inr rfl))

/-- C17: for every run of `performCheck`, forced or not, that ends as skipped for
unchanged content, as skipped for blank text, with a cache hit, with a successful
response, with a response that is not OK, with an invalid response or with a thrown
exception, `isChecking` is false on completion; the part after the response leaves it
false from any state the response arrives in. The only other way a call ends is the
refusal of a call that is not forced while a check is in progress. -/
theorem performCheck_ends_idle (host : Host) (s : State) (t : Timers) (force : Bool)
    (response : Response) (now : Nat) (hostAfter : Host) (sMid : State) (p : PendingCheck)
    (h : (performCheck host s t force response now hostAfter).ending ∈
      [Ending.unchanged, Ending.blank, Ending.cacheHit, Ending.success, Ending.notOk,
        Ending.invalidResponse, Ending.thrown]) :
    (performCheck host s t force response now hostAfter).state.isChecking = false ∧
    (performCheckResume hostAfter sMid p response now).state.isChecking = false ∧
    ((performCheck host s t force response now hostAfter).ending = Ending.refused ↔
      (s.isChecking = true ∧ force = false)) := by
  refine ⟨?_, performCheckResume_isChecking _ _ _ _ _, ?_⟩
  · unfold performCheck at h ⊢
    simp only at h ⊢
    cases hph : (performCheckBegin host s t force).phase with
    | ended e =>
      rw [hph] at h
      simp only at h ⊢
      rcases (performCheckBegin_spec host s t force).1 e hph with ⟨h1, _⟩ | ⟨_, _, _, _, _, h2⟩
      · subst h1; simp at h
      · exact h2
    | awaiting p' =>
      simp only
      exact performCheckResume_isChecking _ _ _ _ _
  · unfold performCheck
    simp only
    cases hph : (performCheckBegin host s t force).phase with
    | ended e =>
      simp only
      constructor
      · intro he
        subst he
        exact (performCheckBegin_refused_iff host s t force).1 hph
      · intro hc
        have := (performCheckBegin_refused_iff host s t force).2 hc
        rw [hph] at this
        exact Phase.ended.inj this
    | awaiting p' =>
      simp only
      constructor
      · intro he
        exact absurd he (performCheckResume_ending_ne_begin _ _ _ _ _).1
      · intro hc
        have := (performCheckBegin_refused_iff host s t force).2 hc
        rw [hph] at this
        cases this

/-- Witness of C17: an automatic check of `Teh cat sat.` whose remote call times out. -/
theorem performCheck_ends_idle_witness :
    (performCheck (fullHost ["Teh cat sat.".toList]) initialState ⟨[], 0⟩ false
      (Response.notOk 504 (some "TIMEOUT".toList) none) 5
      (fullHost ["Teh cat sat.".toList])).ending = Ending.notOk ∧
    (performCheck (fullHost ["Teh cat sat.".toList]) initialState ⟨[], 0⟩ false
      (Response.notOk 504 (some "TIMEOUT".toList) none) 5
      (fullHost ["Teh cat sat.".toList])).state.isChecking = false :=
  ⟨by decide,
   (performCheck_ends_idle (fullHost ["Teh cat sat.".toList]) initialState ⟨[], 0⟩ false
    (Response.notOk 504 (some "TIMEOUT".toList) none) 5 (fullHost ["Teh cat sat.".toList])
    initialState ⟨false, [], []⟩ (by decide)).1⟩

/-- C18, as stated, fails: an automatic check of `Teh cat` gets the issue at offset 0 of
length 3 back after the text has become `Teh cat sat`; the hash at completion differs
from the hash at the start, and the record of the issue is put into the registry and
rendered all the same. -/
theorem performCheck_keeps_stale_issues :
    hashText (getPadText (fullHost ["Teh cat sat".toList])) ≠
      hashText (getPadText (fullHost ["Teh cat".toList])) ∧
    (performCheck (fullHost ["Teh cat".toList]) initialState ⟨[], 0⟩ false
      (Response.ok ⟨some [⟨0, 3, [], [], []⟩]⟩) 5
      (fullHost ["Teh cat sat".toList])).ending = Ending.success ∧
    (performCheck (fullHost ["Teh cat".toList]) initialState ⟨[], 0⟩ false
      (Response.ok ⟨some [⟨0, 3, [], [], []⟩]⟩) 5
      (fullHost ["Teh cat sat".toList])).state.errorAttributes.get (errorId 0 0 3) =
      some ⟨⟨0, 3, [], [], []⟩, 0, 0, 0, 2, 0, 3⟩ ∧
    Effect.applyAttribute ⟨0, 0, 0, 2, errorId 0 0 3⟩ ∈
      (performCheck (fullHost ["Teh cat".toList]) initialState ⟨[], 0⟩ false
        (Response.ok ⟨some [⟨0, 3, [], [], []⟩]⟩) 5
        (fullHost ["Teh cat sat".toList])).effects := by
  decide

/-- C18, amended: when the remote call completes successfully, the returned issues are
kept whether or not the hash of the text at completion equals `lastCheckedTextHash`:
they become the current matches, the registry and the rendering calls are those of
`applyErrorHighlights` for these issues on the lines the editor shows at completion
(so every issue that starts inside that text has its record under its key), and the
hash comparison decides only whether the cache entry written for the checked text is
deleted again. -/
theorem performCheckResume_keeps_issues (host : Host) (s : State) (p : PendingCheck)
    (result : CheckResult) (now : Nat) (r : ResumeOutcome)
    (hr : r = performCheckResume host s p (Response.ok result) now) :
    r.ending = Ending.success ∧
    r.state.currentMatches = result.matchList.getD [] ∧
    r.state.errorAttributes =
      (applyErrorHighlights host initialState (result.matchList.getD [])
        p.padText).1.errorAttributes ∧
    (∀ c, Effect.applyAttribute c ∈ r.effects ↔
      c ∈ (applyErrorHighlights host initialState (result.matchList.getD []) p.padText).2) ∧
    (∀ lines i m, host.aceGetRep = true → host.rep = some lines →
      (result.matchList.getD [])[i]? = some m → m.offset < (joinLines lines).length →
      1 ≤ m.offset + m.length →
      ∃ e, r.state.errorAttributes.get (errorId i m.offset m.length) = some e ∧
        e.matchData = m) ∧
    (some (hashText (getPadText host)) ≠ s.lastCheckedTextHash →
      getCachedResult r.state p.textHash = none) ∧
    (some (hashText (getPadText host)) = s.lastCheckedTextHash →
      getCachedResult r.state p.textHash = some { result := result, timestamp := now }) := by
  subst hr
  obtain ⟨h1, h2, h3, h4, h5⟩ := performCheckResume_ok host s p result now
  refine ⟨h1, h2, h3, ?_, ?_, ?_, ?_⟩
  · intro c
    rw [h4]
    cases p.force <;> simp
  · intro lines i m hace hrep hm hlt hpos
    rw [h3]
    obtain ⟨e, he1, he2, _⟩ := applyErrorHighlights_stored host initialState
      (result.matchList.getD []) p.padText lines i m hace hrep hm hlt hpos
    exact ⟨e, he1, he2⟩
  · intro hne
    unfold getCachedResult
    rw [h5, if_pos hne]
    exact JSMap.getEntries_filter_self _ _
  · intro heq
    unfold getCachedResult
    rw [h5, if_neg (by simpa using heq)]
    unfold cacheResult
    exact JSMap.get_set_self _ _ _

/-- Witness of amended C18: the issue of `Teh cat`, returned when the text has become
`Teh cat sat`. -/
theorem performCheckResume_keeps_issues_witness :
    (performCheckResume (fullHost ["Teh cat sat".toList])
      { initialState with lastCheckedTextHash := some (hashText "Teh cat".toList) }
      ⟨false, "Teh cat".toList, hashText "Teh cat".toList⟩
      (Response.ok ⟨some [⟨0, 3, [], [], []⟩]⟩) 5).state.errorAttributes =
      (applyErrorHighlights (fullHost ["Teh cat sat".toList]) initialState
        ((⟨some [⟨0, 3, [], [], []⟩]⟩ : CheckResult).matchList.getD [])
        "Teh cat".toList).1.errorAttributes ∧
    getCachedResult (performCheckResume (fullHost ["Teh cat sat".toList])
      { initialState with lastCheckedTextHash := some (hashText "Teh cat".toList) }
      ⟨false, "Teh cat".toList, hashText "Teh cat".toList⟩
      (Response.ok ⟨some [⟨0, 3, [], [], []⟩]⟩) 5).state (hashText "Teh cat".toList) = none :=
  ⟨(performCheckResume_keeps_issues (fullHost ["Teh cat sat".toList])
      { initialState with lastCheckedTextHash := some (hashText "Teh cat".toList) }
      ⟨false, "Teh cat".toList, hashText "Teh cat".toList⟩ ⟨some [⟨0, 3, [], [], []⟩]⟩ 5
      _ rfl).2.2.1,
   (performCheckResume_keeps_issues (fullHost ["Teh cat sat".toList])
      { initialState with lastCheckedTextHash := some (hashText "Teh cat".toList) }
      ⟨false, "Teh cat".toList, hashText "Teh cat".toList⟩ ⟨some [⟨0, 3, [], [], []⟩]⟩ 5
      _ rfl).2.2.2.2.2.1 (by decide)⟩

/-- C19, as stated, fails: with the record of an issue in the registry, an automatic
check of `Teh cat sat.` whose remote call fails leaves the registry empty. -/
theorem performCheck_failure_loses_registry :
    (applyErrorHighlights (fullHost ["Teh cat sat.".toList]) initialState
      [⟨0, 3, [], [], []⟩] []).1.errorAttributes.get (errorId 0 0 3) =
      some ⟨⟨0, 3, [], [], []⟩, 0, 0, 0, 2, 0, 3⟩ ∧
    (performCheck (fullHost ["Teh cat sat.".toList])
      (applyErrorHighlights (fullHost ["Teh cat sat.".toList]) initialState
        [⟨0, 3, [], [], []⟩] []).1 ⟨[], 0⟩ false
      (Response.networkError "Failed to fetch".toList) 5
      (fullHost ["Teh cat sat.".toList])).ending = Ending.thrown ∧
    (performCheck (fullHost ["Teh cat sat.".toList])
      (applyErrorHighlights (fullHost ["Teh cat sat.".toList]) initialState
        [⟨0, 3, [], [], []⟩] []).1 ⟨[], 0⟩ false
      (Response.networkError "Failed to fetch".toList) 5
      (fullHost ["Teh cat sat.".toList])).state.errorAttributes.get (errorId 0 0 3) = none ∧
    (performCheck (fullHost ["Teh cat sat.".toList])
      (applyErrorHighlights (fullHost ["Teh cat sat.".toList]) initialState
        [⟨0, 3, [], [], []⟩] []).1 ⟨[], 0⟩ false
      (Response.networkError "Failed to fetch".toList) 5
      (fullHost ["Teh cat sat.".toList])).state.errorAttributes.entries = [] := by
  decide

/-- C19, amended: for every automatic (non-forced) check whose remote call fails (a
response that is not OK, an invalid response or a thrown exception, a timeout among
them), the registry after the check is empty, whatever it held before: it is cleared
before the remote call and the failure restores nothing; the current matches are empty
as well and nothing is rendered. -/
theorem performCheck_failure_clears_registry (host : Host) (s : State) (t : Timers)
    (response : Response) (now : Nat) (hostAfter : Host)
    (h : (performCheck host s t false response now hostAfter).ending ∈
      [Ending.notOk, Ending.invalidResponse, Ending.thrown]) :
    (performCheck host s t false response now hostAfter).state.errorAttributes.entries = [] ∧
    (performCheck host s t false response now hostAfter).state.currentMatches = [] ∧
    (∀ c, Effect.applyAttribute c ∉
      (performCheck host s t false response now hostAfter).effects) ∧
    (performCheck host s t false response now hostAfter).state.isChecking = false := by
  unfold performCheck at h ⊢
  simp only at h ⊢
  cases hph : (performCheckBegin host s t false).phase with
  | ended e =>
    rw [hph] at h
    simp only at h
    rcases (performCheckBegin_spec host s t false).1 e hph with
      ⟨h1, _⟩ | ⟨_, _, h3, h4, h5, _⟩
    · subst h1; simp at h
    · simp only [List.mem_cons, List.mem_singleton, List.not_mem_nil, or_false] at h
      rcases h with h | h | h
      · exact absurd h h3
      · exact absurd h h4
      · exact absurd h h5
  | awaiting p =>
    rw [hph] at h
    simp only at h ⊢
    obtain ⟨_, _, hreg, _, _, _, heff⟩ := (performCheckBegin_spec host s t false).2 p hph
    have hne : (performCheckResume hostAfter (performCheckBegin host s t false).state p
        response now).ending ≠ Ending.success := by
      intro hc
      rw [hc] at h
      simp at h
    obtain ⟨f1, f2, f3⟩ := performCheckResume_failure hostAfter _ p response now hne
    refine ⟨by rw [f1]; exact hreg, f2, ?_, performCheckResume_isChecking _ _ _ _ _⟩
    intro c hc
    rw [heff] at hc
    rcases List.mem_append.1 hc with hc | hc
    · simp at hc
    · exact f3 c hc

/-- Witness of amended C19: the failed automatic check of the counterexample. -/
theorem performCheck_failure_clears_registry_witness :
    (performCheck (fullHost ["Teh cat sat.".toList])
      (applyErrorHighlights (fullHost ["Teh cat sat.".toList]) initialState
        [⟨0, 3, [], [], []⟩] []).1 ⟨[], 0⟩ false
      (Response.notOk 504 (some "TIMEOUT".toList) none) 5
      (fullHost ["Teh cat sat.".toList])).state.errorAttributes.entries = [] :=
  (performCheck_failure_clears_registry (fullHost ["Teh cat sat.".toList])
    (applyErrorHighlights (fullHost ["Teh cat sat.".toList]) initialState
      [⟨0, 3, [], [], []⟩] []).1 ⟨[], 0⟩
    (Response.notOk 504 (some "TIMEOUT".toList) none) 5
    (fullHost ["Teh cat sat.".toList]) (by decide)).1

/-- C20: for every state and every pad text that is not blank, `performCheck(true)`
reaches the remote call, also when the hash of the text equals the last-checked hash
and the cache holds an entry for it: the synchronous part ends waiting for the response
of exactly one `fetch` of the pad text, and at that moment the cache is empty. The
`fetch` is among the effects of the whole run, and of the toolbar command when no check
is in progress. -/
theorem performCheck_forced_calls_remote (host : Host) (s : State) (t : Timers)
    (response : Response) (now : Nat) (hostAfter : Host)
    (hblank : isBlank (getPadText host) = false) :
    (performCheckBegin host s t true).phase =
      Phase.awaiting ⟨true, getPadText host, hashText (getPadText host)⟩ ∧
    (performCheckBegin host s t true).effects =
      [Effect.fetch (getPadText host) (strOr s.pluginConfig.defaultLanguage "en".toList)
        host.padId] ∧
    (performCheckBegin host s t true).state.checkCache.entries = [] ∧
    Effect.fetch (getPadText host) (strOr s.pluginConfig.defaultLanguage "en".toList)
      host.padId ∈ (performCheck host s t true response now hostAfter).effects ∧
    (s.isChecking = false →
      Effect.fetch (getPadText host) (strOr s.pluginConfig.defaultLanguage "en".toList)
        host.padId ∈ (handleToolbarButtonClick host s t response now hostAfter).effects) := by
  have hph := performCheckBegin_forced host s t hblank
  obtain ⟨_, _, _, _, _, hcache, heff⟩ := (performCheckBegin_spec host s t true).2 _ hph
  have hrun : Effect.fetch (getPadText host)
      (strOr s.pluginConfig.defaultLanguage "en".toList) host.padId ∈
      (performCheck host s t true response now hostAfter).effects := by
    unfold performCheck
    simp only [hph, heff]
    exact List.mem_append_left _ (List.mem_singleton.2 rfl)
  refine ⟨hph, heff, hcache rfl, hrun, ?_⟩
  intro hidle
  simp only [handleToolbarButtonClick, hidle, Bool.false_eq_true, if_false]
  exact List.mem_cons_of_mem _ (List.mem_append_left _ hrun)

/-- Witness of C20: a forced check of `Teh cat sat.` when its hash is the last-checked
hash and the cache holds an entry for it. -/
theorem performCheck_forced_calls_remote_witness :
    (cacheResult
      { initialState with lastCheckedTextHash := some (hashText "Teh cat sat.".toList) }
      (hashText "Teh cat sat.".toList) ⟨some []⟩ 1).lastCheckedTextHash =
      some (hashText (getPadText (fullHost ["Teh cat sat.".toList]))) ∧
    getCachedResult (cacheResult
      { initialState with lastCheckedTextHash := some (hashText "Teh cat sat.".toList) }
      (hashText "Teh cat sat.".toList) ⟨some []⟩ 1)
      (hashText (getPadText (fullHost ["Teh cat sat.".toList]))) =
      some { result := ⟨some []⟩, timestamp := 1 } ∧
    (performCheckBegin (fullHost ["Teh cat sat.".toList])
      (cacheResult
        { initialState with lastCheckedTextHash := some (hashText "Teh cat sat.".toList) }
        (hashText "Teh cat sat.".toList) ⟨some []⟩ 1) ⟨[], 0⟩ true).effects =
      [Effect.fetch (getPadText (fullHost ["Teh cat sat.".toList]))
        (strOr (cacheResult
          { initialState with lastCheckedTextHash := some (hashText "Teh cat sat.".toList) }
          (hashText "Teh cat sat.".toList) ⟨some []⟩ 1).pluginConfig.defaultLanguage
          "en".toList)
        (fullHost ["Teh cat sat.".toList]).padId] ∧
    (performCheckBegin (fullHost ["Teh cat sat.".toList])
      (cacheResult
        { initialState with lastCheckedTextHash := some (hashText "Teh cat sat.".toList) }
        (hashText "Teh cat sat.".toList) ⟨some []⟩ 1) ⟨[], 0⟩
      true).state.checkCache.entries = [] :=
  ⟨by decide, by decide,
   (performCheck_forced_calls_remote (fullHost ["Teh cat sat.".toList])
    (cacheResult
      { initialState with lastCheckedTextHash := some (hashText "Teh cat sat.".toList) }
      (hashText "Teh cat sat.".toList) ⟨some []⟩ 1) ⟨[], 0⟩ (Response.ok ⟨some []⟩) 5
    (fullHost ["Teh cat sat.".toList]) (by decide)).2.1,
   (performCheck_forced_calls_remote (fullHost ["Teh cat sat.".toList])
    (cacheResult
      { initialState with lastCheckedTextHash := some (hashText "Teh cat sat.".toList) }
      (hashText "Teh cat sat.".toList) ⟨some []⟩ 1) ⟨[], 0⟩ (Response.ok ⟨some []⟩) 5
    (fullHost ["Teh cat sat.".toList]) (by decide)).2.2.1⟩

/-- C21: `hasContentChanged(t)` returns false exactly when a last-checked hash exists,
`hashText(t)` equals it, and the current and the last-checked revision are equal
whenever both are available; when either revision is `null`, it returns false exactly
when the last-checked hash exists and equals `hashText(t)`. -/
theorem hasContentChanged_false_exactly (host : Host) (s : State) (t : JSString) :
    (hasContentChanged host s t = false ↔
      (∃ last, s.lastCheckedTextHash = some last ∧ hashText t = last) ∧
        ∀ current lastRevision, getCurrentRevision host = some current →
          s.lastCheckedRevision = some lastRevision → current = lastRevision) ∧
    ((getCurrentRevision host = none ∨ s.lastCheckedRevision = none) →
      (hasContentChanged host s t = false ↔
        ∃ last, s.lastCheckedTextHash = some last ∧ hashText t = last)) := by
  have hex : (∃ last, s.lastCheckedTextHash = some last ∧ hashText t = last) ↔
      s.lastCheckedTextHash = some (hashText t) := by
    constructor
    · rintro ⟨last, h1, h2⟩; rw [h1, h2]
    · intro h; exact ⟨_, h, rfl⟩
  rw [hex, hasContentChanged_false_iff]
  refine ⟨Iff.rfl, ?_⟩
  intro hnull
  constructor
  · intro h; exact h.1
  · intro h
    refine ⟨h, fun a b ha hb => ?_⟩
    rcases hnull with hn | hn
    · rw [hn] at ha; cases ha
    · rw [hn] at hb; cases hb

/-- Witness of C21: the text `Teh cat sat.` after it was checked, the host offering no
revision: no check is needed. -/
theorem hasContentChanged_false_exactly_witness :
    hasContentChanged (fullHost ["Teh cat sat.".toList])
      { initialState with
        lastCheckedTextHash := some (hashText "Teh cat sat.".toList)
        lastCheckedRevision := some 3 } "Teh cat sat.".toList = false :=
  ((hasContentChanged_false_exactly (fullHost ["Teh cat sat.".toList])
    { initialState with
      lastCheckedTextHash := some (hashText "Teh cat sat.".toList)
      lastCheckedRevision := some 3 } "Teh cat sat.".toList).2 (Or.inl rfl)).2
    ⟨_, rfl, rfl⟩

/-- C22: for every text, given by the list of its UTF-16 code units `c_0 .. c_(n-1)`
(any numbers, so every unit below `2^16` and the surrogate units among them), `hashText`
returns the decimal rendering of the signed 32-bit two's-complement value of the sum of
`c_i * 31^(n-1-i)` modulo `2^32`; its value is computed by `h_0 = 0` and
`h_(k+1) = wrap32 (31 * h_k + c_k)`; the result is `0` for the empty text, the value
always lies between `-2^31` and `2^31 - 1`, and equal texts give equal hashes. A text of
the embedding is hashed through its code units, and the text of the two surrogate units
`0xD83D 0xDE00` has the hash `1772899`. -/
theorem hashText_is_wrapped_polynomial (codeUnits codeUnits' : List Nat) (c : Nat)
    (text : JSString) :
    hashCodeUnits codeUnits = intToString (wrap32 (polyHash codeUnits)) ∧
    hashValue [] = 0 ∧
    hashValue (codeUnits ++ [c]) = wrap32 (31 * hashValue codeUnits + (c : Int)) ∧
    hashCodeUnits codeUnits = intToString (hashValue codeUnits) ∧
    hashCodeUnits [] = "0".toList ∧
    (-2147483648 ≤ hashValue codeUnits ∧ hashValue codeUnits ≤ 2147483647) ∧
    (-2147483648 ≤ wrap32 (polyHash codeUnits) ∧
      wrap32 (polyHash codeUnits) ≤ 2147483647) ∧
    (codeUnits = codeUnits' → hashCodeUnits codeUnits = hashCodeUnits codeUnits') ∧
    hashText text = hashCodeUnits (text.map Char.toNat) ∧
    hashText text = intToString (wrap32 (polyHash (text.map Char.toNat))) ∧
    hashText [] = "0".toList ∧
    hashCodeUnits [55357, 56832] = "1772899".toList := by
  refine ⟨?_, rfl, ?_, hashCodeUnits_eq codeUnits, by decide, hashValue_range codeUnits,
    ?_, ?_, rfl, ?_, by decide, by decide⟩
  · rw [hashCodeUnits_eq, hashValue_eq, toInt32_eq_wrap32]
  · rw [hashValue_concat, hashStep_eq, toInt32_eq_wrap32]
  · rw [← toInt32_eq_wrap32]; exact toInt32_range _
  · intro h; rw [h]
  · rw [hashText_eq, hashValue_eq, toInt32_eq_wrap32]; rfl

/-- Witness of C22: the text of two characters outside the basic plane around ` ok `,
code units `0xD83D 0xDE00 0x20 0x6F 0x6B 0x20 0xD83D 0xDE00`, whose polynomial wraps to a
negative value, and the text `hello` of the embedding. -/
theorem hashText_is_wrapped_polynomial_witness :
    hashCodeUnits [55357, 56832, 32, 111, 107, 32, 55357, 56832] =
      hashCodeUnits [55357, 56832, 32, 111, 107, 32, 55357, 56832] ∧
    hashCodeUnits [55357, 56832, 32, 111, 107, 32, 55357, 56832] =
      intToString (wrap32 (polyHash [55357, 56832, 32, 111, 107, 32, 55357, 56832])) ∧
    polyHash [55357, 56832, 32, 111, 107, 32, 55357, 56832] = 1573455412176170 ∧
    hashCodeUnits [55357, 56832, 32, 111, 107, 32, 55357, 56832] = "-1561746134".toList ∧
    hashText "hello".toList = intToString (wrap32 (polyHash [104, 101, 108, 108, 111])) ∧
    hashText "hello".toList = "99162322".toList :=
  ⟨(hashText_is_wrapped_polynomial [55357, 56832, 32, 111, 107, 32, 55357, 56832]
      [55357, 56832, 32, 111, 107, 32, 55357, 56832] 120 "hello".toList).2.2.2.2.2.2.2.1 rfl,
   (hashText_is_wrapped_polynomial [55357, 56832, 32, 111, 107, 32, 55357, 56832]
      [55357, 56832, 32, 111, 107, 32, 55357, 56832] 120 "hello".toList).1,
   by decide,
   by decide,
   (hashText_is_wrapped_polynomial [55357, 56832, 32, 111, 107, 32, 55357, 56832]
      [55357, 56832, 32, 111, 107, 32, 55357, 56832] 120 "hello".toList).2.2.2.2.2.2.2.2.2.1,
   by decide⟩

/-- C23: for every previous registry content (the states `s` and `s'`), every list of
lines and every list of issues, after `applyErrorHighlights` the registry holds exactly
one entry per issue that was not dropped, in the order of the issues, and nothing else:
the registry is the same from every previous state, every entry holds an issue of this
call under the key of its index, offset and length, the keys in the registry and the
keys of issues at different indices are pairwise distinct, the key of a kept issue leads
to the record with that issue, its offset and its length, and the key of a dropped
issue leads to nothing. -/
theorem applyErrorHighlights_registry_exact (host : Host) (s s' : State)
    (matchList : List Match) (text : JSString) (lines : List JSString)
    (hace : host.aceGetRep = true) (hrep : host.rep = some lines) :
    (applyErrorHighlights host s matchList text).1.errorAttributes.entries =
      keptEntries (buildLineCharMap lines) 0 matchList ∧
    (applyErrorHighlights host s matchList text).1.errorAttributes.entries.length =
      matchList.countP (fun m =>
        decide (m.offset < (joinLines lines).length ∧ 1 ≤ m.offset + m.length)) ∧
    (applyErrorHighlights host s matchList text).1.errorAttributes =
      (applyErrorHighlights host s' matchList text).1.errorAttributes ∧
    (∀ x ∈ (applyErrorHighlights host s matchList text).1.errorAttributes.entries,
      ∃ i m, matchList[i]? = some m ∧ x.1 = errorId i m.offset m.length ∧
        x.2.matchData = m ∧ x.2.offset = m.offset ∧ x.2.length = m.length) ∧
    ((applyErrorHighlights host s matchList text).1.errorAttributes.entries.map
      Prod.fst).Nodup ∧
    (∀ i j o l o' l', i ≠ j → errorId i o l ≠ errorId j o' l') ∧
    (∀ i m, matchList[i]? = some m → m.offset < (joinLines lines).length →
      1 ≤ m.offset + m.length →
      ∃ e, (applyErrorHighlights host s matchList text).1.errorAttributes.get
          (errorId i m.offset m.length) = some e ∧
        e.matchData = m ∧ e.offset = m.offset ∧ e.length = m.length) ∧
    (∀ i m, matchList[i]? = some m →
      ((joinLines lines).length ≤ m.offset ∨ m.offset + m.length = 0) →
      (applyErrorHighlights host s matchList text).1.errorAttributes.get
        (errorId i m.offset m.length) = none) := by
  have hent := applyErrorHighlights_entries_eq host s matchList text lines hace hrep
  refine ⟨hent, ?_, (applyErrorHighlights_fresh host s s' matchList text text).1, ?_, ?_, ?_,
    ?_, ?_⟩
  · rw [hent, keptEntries_length, buildLineCharMap_length]
  · intro x hx
    obtain ⟨_, j, m, sp, ep, _, hm, _, hxe⟩ :=
      applyErrorHighlights_entries host s matchList text x hx
    rw [hxe]
    exact ⟨j, m, hm, rfl, rfl, rfl, rfl⟩
  · rw [hent]
    exact keptEntries_nodup _ _ _
  · intro i j o l o' l' hij hc
    exact hij (errorId_injective _ _ _ _ _ _ hc).1
  · intro i m hm hlt hpos
    obtain ⟨e, h1, h2, h3, h4, _⟩ := applyErrorHighlights_stored host s matchList text lines
      i m hace hrep hm hlt hpos
    exact ⟨e, h1, h2, h3, h4⟩
  · intro i m _ hdrop
    exact (applyErrorHighlights_dropped host s matchList text lines i m hrep hdrop).1

/-- Witness of C23: the document `ab cd` with two issues inside it and one beyond it,
checked while the registry holds the record of an earlier check. -/
theorem applyErrorHighlights_registry_exact_witness :
    (applyErrorHighlights (fullHost ["ab cd".toList])
      (applyErrorHighlights (fullHost ["zz zz zz".toList]) initialState
        [⟨6, 2, [], [], []⟩] []).1
      [⟨0, 2, [], [], []⟩, ⟨9, 1, [], [], []⟩, ⟨3, 2, [], [], []⟩]
      []).1.errorAttributes.entries =
      keptEntries (buildLineCharMap ["ab cd".toList]) 0
        [⟨0, 2, [], [], []⟩, ⟨9, 1, [], [], []⟩, ⟨3, 2, [], [], []⟩] ∧
    keptEntries (buildLineCharMap ["ab cd".toList]) 0
        [⟨0, 2, [], [], []⟩, ⟨9, 1, [], [], []⟩, ⟨3, 2, [], [], []⟩] =
      [(errorId 0 0 2, ⟨⟨0, 2, [], [], []⟩, 0, 0, 0, 1, 0, 2⟩),
       (errorId 2 3 2, ⟨⟨3, 2, [], [], []⟩, 0, 0, 3, 4, 3, 2⟩)] :=
  ⟨(applyErrorHighlights_registry_exact (fullHost ["ab cd".toList])
      (applyErrorHighlights (fullHost ["zz zz zz".toList]) initialState
        [⟨6, 2, [], [], []⟩] []).1 initialState
      [⟨0, 2, [], [], []⟩, ⟨9, 1, [], [], []⟩, ⟨3, 2, [], [], []⟩] [] ["ab cd".toList]
      rfl rfl).1,
   by decide⟩

/-- C24, as stated, fails: a response with status 413 and a response with status 500
reach the caller of the check endpoint with the same code `UNKNOWN_ERROR`. -/
theorem checkEndpoint_413_and_500_same_code :
    (checkEndpointFailure (UpstreamFailure.status 413 [])).map (fun r => r.code) =
      some "UNKNOWN_ERROR".toList ∧
    (checkEndpointFailure (UpstreamFailure.status 500 [])).map (fun r => r.code) =
      some "UNKNOWN_ERROR".toList ∧
    (checkEndpointFailure (UpstreamFailure.status 413 [])).map (fun r => r.code) =
      (checkEndpointFailure (UpstreamFailure.status 500 [])).map (fun r => r.code) := by
  decide

/-- C24, amended: the classes 400, 429, connection refused or host not found, and
timeout reach the caller with the four pairwise distinct codes `BAD_REQUEST`,
`RATE_LIMIT`, `SERVICE_UNAVAILABLE` and `TIMEOUT` (for a body of the 400 response that
has none of the words the endpoint tests earlier, and a host name without `timeout`);
the classes 413 and 500 or more both reach the caller with the code `UNKNOWN_ERROR`,
which differs from the four others; these two are told apart by the message only. -/
theorem checkEndpoint_codes (data hostname : JSString) (ms statusCode : Nat)
    (serverData : JSString)
    (h1 : includes data "timeout".toList = false)
    (h2 : includes data "Connection refused".toList = false)
    (h3 : includes data "Host not found".toList = false)
    (h4 : includes data "Rate limit".toList = false)
    (hhost : includes hostname "timeout".toList = false)
    (h500 : 500 ≤ statusCode) :
    (checkEndpointFailure (UpstreamFailure.status 400 data)).map (fun r => r.code) =
      some "BAD_REQUEST".toList ∧
    (checkEndpointFailure (UpstreamFailure.status 429 data)).map (fun r => r.code) =
      some "RATE_LIMIT".toList ∧
    (checkEndpointFailure UpstreamFailure.connectionRefused).map (fun r => r.code) =
      some "SERVICE_UNAVAILABLE".toList ∧
    (checkEndpointFailure (UpstreamFailure.hostNotFound hostname)).map (fun r => r.code) =
      some "SERVICE_UNAVAILABLE".toList ∧
    (checkEndpointFailure (UpstreamFailure.timeout ms)).map (fun r => r.code) =
      some "TIMEOUT".toList ∧
    (checkEndpointFailure (UpstreamFailure.status 413 data)).map (fun r => r.code) =
      some "UNKNOWN_ERROR".toList ∧
    (checkEndpointFailure (UpstreamFailure.status statusCode serverData)).map
      (fun r => r.code) = some "UNKNOWN_ERROR".toList ∧
    ["BAD_REQUEST".toList, "RATE_LIMIT".toList, "SERVICE_UNAVAILABLE".toList,
      "TIMEOUT".toList, "UNKNOWN_ERROR".toList].Nodup ∧
    (checkEndpointFailure (UpstreamFailure.status 413 data)).map (fun r => r.message) ≠
      (checkEndpointFailure (UpstreamFailure.status statusCode serverData)).map
        (fun r => r.message) := by
  refine ⟨?_, ?_, by decide, ?_, ?_, ?_, ?_, by decide, ?_⟩
  · rw [checkEndpoint_badRequest data h1 h2 h3 h4]; rfl
  · have : checkEndpointFailure (UpstreamFailure.status 429 data) =
        checkEndpointFailure (UpstreamFailure.status 429 []) := by
      simp [checkEndpointFailure, checkTextRejection]
    rw [this]
    decide
  · rw [checkEndpoint_hostNotFound hostname hhost]; rfl
  · rw [checkEndpoint_timeout ms]; rfl
  · have : checkEndpointFailure (UpstreamFailure.status 413 data) =
        checkEndpointFailure (UpstreamFailure.status 413 []) := by
      simp [checkEndpointFailure, checkTextRejection]
    rw [this]
    decide
  · rw [checkEndpoint_serverError statusCode serverData h500]; rfl
  · have h413 : checkEndpointFailure (UpstreamFailure.status 413 data) =
        checkEndpointFailure (UpstreamFailure.status 413 []) := by
      simp [checkEndpointFailure, checkTextRejection]
    have hm : (checkEndpointFailure (UpstreamFailure.status 413 [])).map (fun r => r.message) =
        some "LanguageTool API: Text too long (exceeds size limit)".toList := by decide
    rw [h413, hm, checkEndpoint_serverError statusCode serverData h500]
    intro hc
    simp at hc

/-- Witness of amended C24: the body `Error: missing text`, the host `lt.example.org`,
a time limit of 30000 ms and the status 503. -/
theorem checkEndpoint_codes_witness :
    (checkEndpointFailure (UpstreamFailure.status 400 "Error: missing text".toList)).map
      (fun r => r.code) = some "BAD_REQUEST".toList ∧
    (checkEndpointFailure (UpstreamFailure.hostNotFound "lt.example.org".toList)).map
      (fun r => r.code) = some "SERVICE_UNAVAILABLE".toList ∧
    (checkEndpointFailure (UpstreamFailure.timeout 30000)).map (fun r => r.code) =
      some "TIMEOUT".toList ∧
    (checkEndpointFailure (UpstreamFailure.status 503 [])).map (fun r => r.code) =
      some "UNKNOWN_ERROR".toList :=
  ⟨(checkEndpoint_codes "Error: missing text".toList "lt.example.org".toList 30000 503 []
      (by decide) (by decide) (by decide) (by decide) (by decide) (by decide)).1,
   (checkEndpoint_codes "Error: missing text".toList "lt.example.org".toList 30000 503 []
      (by decide) (by decide) (by decide) (by decide) (by decide) (by decide)).2.2.2.1,
   (checkEndpoint_codes "Error: missing text".toList "lt.example.org".toList 30000 503 []
      (by decide) (by decide) (by decide) (by decide) (by decide) (by decide)).2.2.2.2.1,
   (checkEndpoint_codes "Error: missing text".toList "lt.example.org".toList 30000 503 []
      (by decide) (by decide) (by decide) (by decide) (by decide) (by decide)).2.2.2.2.2.2.1⟩

/-- C25, evaluated where it fails: a response with status 400 whose body is
`Error: timeout` is answered with status 504 and code `TIMEOUT`, and a host-not-found
failure for the host `lt-timeout.example.org` is answered with `TIMEOUT` as well. -/
theorem checkEndpoint_body_decides_code :
    checkEndpointFailure (UpstreamFailure.status 400 "Error: timeout".toList) =
      some ⟨504, "Failed to check text".toList, "TIMEOUT".toList,
        "LanguageTool API: Bad request - Error: timeout".toList⟩ ∧
    checkEndpointFailure (UpstreamFailure.hostNotFound "lt-timeout.example.org".toList) =
      some ⟨504, "Failed to check text".toList, "TIMEOUT".toList,
        "LanguageTool API: Host not found - lt-timeout.example.org".toList⟩ ∧
    checkEndpointFailure (UpstreamFailure.status 400 "Error: missing text".toList) =
      some ⟨400, "Failed to check text".toList, "BAD_REQUEST".toList,
        "LanguageTool API: Bad request - Error: missing text".toList⟩ := by
  decide

/-- C26, evaluated where it fails: after an automatic check of `Teh cat sat.` whose
remote call fails, `lastCheckedTextHash` is the hash of that text, `hasContentChanged`
on the same text returns false, and `scheduleCheck` starts no check. -/
theorem performCheck_failure_blocks_retry :
    (performCheck (fullHost ["Teh cat sat.".toList]) initialState ⟨[], 0⟩ false
      (Response.networkError "Failed to fetch".toList) 5
      (fullHost ["Teh cat sat.".toList])).ending = Ending.thrown ∧
    (performCheck (fullHost ["Teh cat sat.".toList]) initialState ⟨[], 0⟩ false
      (Response.networkError "Failed to fetch".toList) 5
      (fullHost ["Teh cat sat.".toList])).state.lastCheckedTextHash =
      some (hashText "Teh cat sat.".toList) ∧
    hasContentChanged (fullHost ["Teh cat sat.".toList])
      (performCheck (fullHost ["Teh cat sat.".toList]) initialState ⟨[], 0⟩ false
        (Response.networkError "Failed to fetch".toList) 5
        (fullHost ["Teh cat sat.".toList])).state "Teh cat sat.".toList = false ∧
    (scheduleCheck (fullHost ["Teh cat sat.".toList])
      (performCheck (fullHost ["Teh cat sat.".toList]) initialState ⟨[], 0⟩ false
        (Response.networkError "Failed to fetch".toList) 5
        (fullHost ["Teh cat sat.".toList])).state ⟨[], 0⟩).isSome = false := by
  decide

/-- C27, as stated, fails: on the document `ab` the issue with offset 1 and length 0 is
stored with start column 1 and end column 0 on the same line. -/
theorem applyErrorHighlights_zero_length_inverted :
    (applyErrorHighlights (fullHost ["ab".toList]) initialState
      [⟨1, 0, [], [], []⟩] []).1.errorAttributes.entries =
      [(errorId 0 1 0, ⟨⟨1, 0, [], [], []⟩, 0, 0, 1, 0, 1, 0⟩)] ∧
    ¬ ((0 : Nat) < 0 ∨ ((0 : Nat) = 0 ∧ (1 : Nat) ≤ 0)) := by
  decide

/-- C27, amended: for every list of lines and every issue of length at least 1 for
which `applyErrorHighlights` stores a record, the start of the record does not come
after its end: the start line is before the end line, or the lines are equal and the
start column is at most the end column. -/
theorem applyErrorHighlights_start_before_end (host : Host) (s : State)
    (matchList : List Match) (text : JSString) (key : JSString) (e : ErrorData)
    (h : (key, e) ∈ (applyErrorHighlights host s matchList text).1.errorAttributes.entries)
    (hlen : 1 ≤ e.length) :
    e.startLine < e.endLine ∨ (e.startLine = e.endLine ∧ e.startChar ≤ e.endChar) := by
  obtain ⟨lines, j, m, sp, ep, _, _, hpos, hx⟩ :=
    applyErrorHighlights_entries host s matchList text _ h
  obtain ⟨hs, hlt, _, he⟩ := matchPositions_some _ _ _ _ hpos
  have he' : e = recordOf m sp ep := (Prod.mk.inj hx).2
  subst he'
  have hl : 1 ≤ m.length := hlen
  exact IsPos_mono lines _ _ _ _ _ _
    (entryAt_isPos lines _ _ (buildLineCharMap_entry lines _ _ hs))
    (entryAt_isPos lines _ _ (buildLineCharMap_entry lines _ _ he)) (by omega)

/-- Witness of amended C27: an issue across the newline of the document `ab`, `cd`. -/
theorem applyErrorHighlights_start_before_end_witness :
    (0 : Nat) < 1 ∨ ((0 : Nat) = 1 ∧ (1 : Nat) ≤ 0) :=
  applyErrorHighlights_start_before_end (fullHost ["ab".toList, "cd".toList]) initialState
    [⟨1, 3, [], [], []⟩] [] (errorId 0 1 3) ⟨⟨1, 3, [], [], []⟩, 0, 1, 1, 0, 1, 3⟩
    (by decide) (by decide)

end LanguageTool
